import Mathlib

/-!
# KMeans / KMedoids clustering engine (`src/src/App.jsx`)

A shallow embedding of the functions `distance`, `kMeans` and `kMedoids`.

Conventions of the embedding:

* JavaScript numbers are embedded twice.
  - Exact arithmetic: an arbitrary linearly ordered field `α`, with
    `Math.sqrt` as a parameter `sqrt : α → α`; every theorem that needs a
    property of the square root states it as a hypothesis, and `Real.sqrt`
    satisfies all of them. The functions `distance`, `kMeans`, `kMedoids` and
    their loops are written over `α`, and the general theorems are about them:
    they hold in exact arithmetic, where no result is rounded, overflows to
    `Infinity` or underflows to `0`.
  - Machine arithmetic: the same source lines are written once more over an
    abstract arithmetic `Arith F` (`Arith.distance`, `Arith.kMeans`,
    `Arith.kMedoids`, ...). Its instance `exactArith sqrt` gives back the
    functions over `α` (`exact_distance`, ..., `exact_kMeans`,
    `exact_kMedoids`); its instance `binary64` is IEEE 754 double precision
    (`F64`): 53 significant binary digits, rounding to nearest with ties to
    even, gradual underflow, overflow to `Infinity`, and `NaN`. The runs on
    doubles on which a property of exact arithmetic fails are evaluated at
    `binary64`.
* `Infinity`, the start value of the running minima, is `none : Option _`; the
  test against it is `ltInf`. In exact arithmetic every number is below
  `Infinity`; on doubles `Infinity` and `NaN` are not.
* A point `[x, y]` is a pair; `[...p]` is the identity on values.
* `k` and `maxIter` are integers (`Int`); assignments are integers, `-1` being
  the "unassigned" start value.
* Reading a coordinate of `undefined` (an out-of-range representative) throws
  a `TypeError`: the functions return `Except Err _`. A division by a zero
  count, which JavaScript answers with `NaN`, is flagged as an error as well
  (`checkedDiv`), so that its absence is a theorem.
* The array `assignments` always has `points.length` entries and `centroids`
  / `medoids` keeps the length of `points.slice(0, k)`; the embedding writes
  them with `List.set`, which agrees with the JavaScript assignment on every
  index in range.
* `for` loops are structural recursions on the number of remaining rounds.
-/

namespace KmeansKmedoids

/-- A 2-D point `[x, y]`. -/
abbrev Point (α : Type) := α × α

/-- The ways a run can stop without a result. -/
inductive Err where
  /-- A coordinate of `undefined` was read (`TypeError`). -/
  | typeError
  /-- A mean was divided by a zero count (JavaScript would produce `NaN`;
  flagged here so that its absence can be stated). -/
  | divByZero
  deriving DecidableEq, Repr

/-- One record of `logs`: `{ iter, type, initial, updated }`. -/
structure LogRec (α : Type) where
  iter : Nat
  type : String
  initial : List (Point α)
  updated : List (Point α)
  deriving DecidableEq, Repr

/-- The object `{ assignments, centroids, logs }` returned by `kMeans`. -/
structure MeansResult (α : Type) where
  assignments : List Int
  centroids : List (Point α)
  logs : List (LogRec α)
  deriving DecidableEq, Repr

/-- The object `{ assignments, medoids, logs }` returned by `kMedoids`. -/
structure MedoidsResult (α : Type) where
  assignments : List Int
  medoids : List (Point α)
  logs : List (LogRec α)
  deriving DecidableEq, Repr

/-- How the main loop was left (ghost state, not part of the returned object):
`Converged` through the `break` of the `if (!changed)` branch,
`BudgetExhausted` when `iter < maxIter` became false. -/
inductive Status where
  | Converged
  | BudgetExhausted
  deriving DecidableEq, Repr

section Defs

variable {α : Type} [LinearOrderedField α]

/-- Euclidean distance, lines 4-5, in exact arithmetic:
`distance(a, b) = Math.sqrt((a[0] - b[0]) ** 2 + (a[1] - b[1]) ** 2)`.
It is `Arith.distance` at `exactArith sqrt` (`exact_distance`); on doubles,
where a square can overflow to `Infinity` or underflow to `0`, the function is
`Arith.distance binary64`. -/
def distance (sqrt : α → α) (a b : Point α) : α :=
  sqrt ((a.1 - b.1) ^ 2 + (a.2 - b.2) ^ 2)

/-- The test `x < bound` in exact arithmetic, where the bound may still be
`Infinity` (`none`), which every number of the field is below. It is
`Arith.ltInf` at `exactArith sqrt` (`exact_ltInf`); on doubles, where
`Infinity < Infinity` is false, the test is `Arith.ltInf binary64`. -/
def ltInf (x : α) : Option α → Bool
  | none => true
  | some m => decide (x < m)

/-- The call `xs.slice(0, k)`: the first `k` elements, and for a negative `k` all but
the last `-k` elements. -/
def slice0 {β : Type} (xs : List β) (k : Int) : List β :=
  if k < 0 then xs.take (xs.length - k.natAbs) else xs.take k.toNat

/-- The call `xs.filter((_, i) => pred(i))`, the first element of `xs` having
index `i`. -/
def filterIdx {β : Type} (pred : Nat → Bool) : List β → Nat → List β
  | [], _ => []
  | x :: xs, i => if pred i then x :: filterIdx pred xs (i + 1) else filterIdx pred xs (i + 1)

/-- The cluster of index `c`, lines 48 and 107:
`points.filter((_, i) => assignments[i] === c)`. -/
def assignedPoints {β : Type} (points : List β) (assignments : List Int) (c : Nat) : List β :=
  filterIdx (fun i => decide (assignments[i]? = some (c : Int))) points 0

/-- The loop `for (let c = ...; c < k; c++)` of lines 22-28 (81-87), with
`n` rounds left: the running minimum `minDist` and its index `clusterIndex`. -/
def nearestLoop (sqrt : α → α) (point : Point α) (reps : List (Point α)) :
    Nat → Nat → Option α → Int → Except Err Int
  | 0, _, _, clusterIndex => .ok clusterIndex
  | n + 1, c, minDist, clusterIndex =>
    match reps[c]? with
    | none => .error .typeError
    | some r =>
      let dist := distance sqrt point r
      if ltInf dist minDist then nearestLoop sqrt point reps n (c + 1) (some dist) (c : Int)
      else nearestLoop sqrt point reps n (c + 1) minDist clusterIndex

/-- Lines 20-28: `minDist = Infinity`, `clusterIndex = -1`, then the loop. -/
def nearest (sqrt : α → α) (point : Point α) (reps : List (Point α)) (k : Int) :
    Except Err Int :=
  nearestLoop sqrt point reps k.toNat 0 none (-1)

/-- The assignment pass, lines 18-33 (77-92), over the points from index `i`
on: returns the assignments and the flag `changed`. -/
def assignLoop (sqrt : α → α) (reps : List (Point α)) (k : Int) :
    List (Point α) → Nat → List Int → Bool → Except Err (List Int × Bool)
  | [], _, assignments, changed => .ok (assignments, changed)
  | point :: rest, i, assignments, changed =>
    match nearest sqrt point reps k with
    | .error e => .error e
    | .ok clusterIndex =>
      if assignments[i]? ≠ some clusterIndex then
        assignLoop sqrt reps k rest (i + 1) (assignments.set i clusterIndex) true
      else
        assignLoop sqrt reps k rest (i + 1) assignments changed

/-- The sum `l.reduce((sum, p) => sum + f(p), 0)`. -/
def sumBy {β : Type} (f : β → α) (l : List β) : α :=
  l.foldl (fun sum p => sum + f p) 0

/-- Division that reports a zero divisor. -/
def checkedDiv (a b : α) : Except Err α :=
  if b = 0 then .error .divByZero else .ok (a / b)

/-- The centroid update, lines 47-53, from index `c` on with `n` rounds left. -/
def updateCentroidsLoop (points : List (Point α)) (assignments : List Int) :
    Nat → Nat → List (Point α) → Except Err (List (Point α))
  | 0, _, centroids => .ok centroids
  | n + 1, c, centroids =>
    let assigned := assignedPoints points assignments c
    if assigned.length = 0 then updateCentroidsLoop points assignments n (c + 1) centroids
    else
      match checkedDiv (sumBy (fun p => p.1) assigned) (assigned.length : α),
            checkedDiv (sumBy (fun p => p.2) assigned) (assigned.length : α) with
      | .ok meanX, .ok meanY =>
        updateCentroidsLoop points assignments n (c + 1) (centroids.set c (meanX, meanY))
      | .error e, _ => .error e
      | _, .error e => .error e

/-- The main loop of `kMeans`, lines 13-61, at iteration `iter` with `n`
iterations left. -/
def kMeansLoop (sqrt : α → α) (points : List (Point α)) (k : Int) :
    Nat → Nat → List (Point α) → List Int → List (LogRec α) →
      Except Err (MeansResult α × Status)
  | 0, _, centroids, assignments, logs => .ok (⟨assignments, centroids, logs⟩, .BudgetExhausted)
  | n + 1, iter, centroids, assignments, logs =>
    let prevCentroids := centroids
    match assignLoop sqrt centroids k points 0 assignments false with
    | .error e => .error e
    | .ok (assignments, changed) =>
      if !changed then
        .ok (⟨assignments, centroids,
          logs ++ [⟨iter, "kmeans", prevCentroids, centroids⟩]⟩, .Converged)
      else
        match updateCentroidsLoop points assignments k.toNat 0 centroids with
        | .error e => .error e
        | .ok centroids =>
          kMeansLoop sqrt points k n (iter + 1) centroids assignments
            (logs ++ [⟨iter, "kmeans", prevCentroids, centroids⟩])

/-- A run of `kMeans` together with the way its loop was left. -/
def kMeansRun (sqrt : α → α) (points : List (Point α)) (k maxIter : Int) :
    Except Err (MeansResult α × Status) :=
  kMeansLoop sqrt points k maxIter.toNat 0 (slice0 points k)
    (List.replicate points.length (-1)) []

/-- The function `kMeans(points, k, maxIter)`: the returned object, or the
error thrown. -/
def kMeans (sqrt : α → α) (points : List (Point α)) (k maxIter : Int) :
    Except Err (MeansResult α) :=
  (kMeansRun sqrt points k maxIter).map Prod.fst

/-- Lines 110-122: the search for the candidate of least cost; `bestMedoid`
starts as `medoids[m]` (possibly `undefined`) and `bestCost` as `Infinity`. -/
def bestLoop (sqrt : α → α) (assigned : List (Point α)) :
    List (Point α) → Option (Point α) → Option α → Option (Point α)
  | [], bestMedoid, _ => bestMedoid
  | candidate :: rest, bestMedoid, bestCost =>
    let cost := sumBy (fun p => distance sqrt p candidate) assigned
    if ltInf cost bestCost then bestLoop sqrt assigned rest (some candidate) (some cost)
    else bestLoop sqrt assigned rest bestMedoid bestCost

/-- The medoid update, lines 106-124, from index `m` on with `n` rounds left. -/
def updateMedoidsLoop (sqrt : α → α) (points : List (Point α)) (assignments : List Int) :
    Nat → Nat → List (Point α) → Except Err (List (Point α))
  | 0, _, medoids => .ok medoids
  | n + 1, m, medoids =>
    let assigned := assignedPoints points assignments m
    if assigned.length = 0 then updateMedoidsLoop sqrt points assignments n (m + 1) medoids
    else
      match bestLoop sqrt assigned assigned medoids[m]? none with
      | none => .error .typeError
      | some bestMedoid =>
        updateMedoidsLoop sqrt points assignments n (m + 1) (medoids.set m bestMedoid)

/-- The main loop of `kMedoids`, lines 72-132. -/
def kMedoidsLoop (sqrt : α → α) (points : List (Point α)) (k : Int) :
    Nat → Nat → List (Point α) → List Int → List (LogRec α) →
      Except Err (MedoidsResult α × Status)
  | 0, _, medoids, assignments, logs => .ok (⟨assignments, medoids, logs⟩, .BudgetExhausted)
  | n + 1, iter, medoids, assignments, logs =>
    let prevMedoids := medoids
    match assignLoop sqrt medoids k points 0 assignments false with
    | .error e => .error e
    | .ok (assignments, changed) =>
      if !changed then
        .ok (⟨assignments, medoids,
          logs ++ [⟨iter, "kmedoids", prevMedoids, medoids⟩]⟩, .Converged)
      else
        match updateMedoidsLoop sqrt points assignments k.toNat 0 medoids with
        | .error e => .error e
        | .ok medoids =>
          kMedoidsLoop sqrt points k n (iter + 1) medoids assignments
            (logs ++ [⟨iter, "kmedoids", prevMedoids, medoids⟩])

/-- A run of `kMedoids` together with the way its loop was left. -/
def kMedoidsRun (sqrt : α → α) (points : List (Point α)) (k maxIter : Int) :
    Except Err (MedoidsResult α × Status) :=
  kMedoidsLoop sqrt points k maxIter.toNat 0 (slice0 points k)
    (List.replicate points.length (-1)) []

/-- The function `kMedoids(points, k, maxIter)`: the returned object, or the
error thrown. -/
def kMedoids (sqrt : α → α) (points : List (Point α)) (k maxIter : Int) :
    Except Err (MedoidsResult α) :=
  (kMedoidsRun sqrt points k maxIter).map Prod.fst

/-! ### Specification-side definitions -/

/-- The value of `nearest` when it returns, `-1` otherwise. -/
def near (sqrt : α → α) (reps : List (Point α)) (k : Int) (p : Point α) : Int :=
  match nearest sqrt p reps k with
  | .ok c => c
  | .error _ => -1

/-- Index `b` is the least index among the first `c` representatives that
minimises the distance to `p`: no index below `c` is strictly closer, and every
index below `b` is strictly farther. -/
def FirstMin (sqrt : α → α) (p : Point α) (reps : List (Point α)) (c b : Nat) : Prop :=
  b < c ∧ ∃ rb, reps[b]? = some rb ∧
    (∀ j rj, j < c → reps[j]? = some rj → distance sqrt p rb ≤ distance sqrt p rj) ∧
    (∀ j rj, j < b → reps[j]? = some rj → distance sqrt p rb < distance sqrt p rj)

/-- The state of the scan after the first `c` representatives. -/
def ScanInv (sqrt : α → α) (p : Point α) (reps : List (Point α)) (c : Nat)
    (md : Option α) (ci : Int) : Prop :=
  (c = 0 ∧ md = none ∧ ci = -1) ∨
    ∃ (b : Nat) (rb : Point α), ci = (b : Int) ∧ reps[b]? = some rb ∧ md = some (distance sqrt p rb) ∧
      FirstMin sqrt p reps c b

/-- The mean of a list of points, as lines 50-52 compute it. -/
def meanOf (l : List (Point α)) : Point α :=
  (sumBy (fun p => p.1) l / (l.length : α), sumBy (fun p => p.2) l / (l.length : α))

/-- The medoid lines 110-122 select for a cluster `l`. -/
def medoidOf (sqrt : α → α) (l : List (Point α)) : Option (Point α) :=
  bestLoop sqrt l l none none

/-- The assignment pass as a function: the nearest representative of every point. -/
def nearestAll (sqrt : α → α) (reps : List (Point α)) (k : Int) (points : List (Point α)) :
    List Int :=
  points.map (near sqrt reps k)

/-- No representative of `reps` is strictly closer to a point than the one the
point is assigned to by `as`. -/
def NearestAmong (sqrt : α → α) (points reps : List (Point α)) (as : List Int) : Prop :=
  ∀ (i : Nat) (p : Point α), points[i]? = some p →
    ∃ (c : Nat) (rc : Point α), as[i]? = some (c : Int) ∧ reps[c]? = some rc ∧
      ∀ r ∈ reps, ¬ distance sqrt p r < distance sqrt p rc

/-- The squared Euclidean distance, the argument of the square root in
`distance`. -/
def sqDist (a b : Point α) : α :=
  (a.1 - b.1) ^ 2 + (a.2 - b.2) ^ 2

/-- The objective of a log record: the sum over the points `p` of the squared
distance from `p` to `updated[A(p)]`, where `A(p)` is the index the assignment
pass computes from the `initial` snapshot. (An index outside `updated`, which
does not occur within the preconditions, would contribute 0.) -/
def objective (sqrt : α → α) (points : List (Point α)) (k : Int) (rec : LogRec α) : α :=
  (points.map (fun p =>
    sqDist p (rec.updated.getD (near sqrt rec.initial k p).toNat p))).sum

/-- The cost of a candidate `x` for a cluster `l`, as lines 114-117 compute
it: the sum over the members `p` of `distance(p, x)`. -/
def clusterCost (sqrt : α → α) (l : List (Point α)) (x : Point α) : α :=
  sumBy (fun p => distance sqrt p x) l

/-- The point `m` is the first member of the cluster `l`, in the order of `l`,
of least cost: no member has a strictly smaller cost and every earlier member
has a strictly larger one. -/
def FirstMinCost (sqrt : α → α) (l : List (Point α)) (m : Point α) : Prop :=
  ∃ i : Nat, l[i]? = some m ∧ (∀ q ∈ l, clusterCost sqrt l m ≤ clusterCost sqrt l q) ∧
    ∀ (j : Nat) (q : Point α), j < i → l[j]? = some q →
      clusterCost sqrt l m < clusterCost sqrt l q

/-- The objective of a log record of `kMedoids`: the sum over the points `p`
of the distance from `p` to `updated[A(p)]`, where `A(p)` is the index the
assignment pass computes from the `initial` snapshot. -/
def objectiveDist (sqrt : α → α) (points : List (Point α)) (k : Int) (rec : LogRec α) : α :=
  (points.map (fun p =>
    distance sqrt p (rec.updated.getD (near sqrt rec.initial k p).toNat p))).sum

/-- The body of `kMeans`, lines 10-63, run from the given centroids instead
of the first `k` points of line 9: assignments all `-1`, empty log,
iteration 0. -/
def kMeansFrom (sqrt : α → α) (points : List (Point α)) (k maxIter : Int)
    (centroids : List (Point α)) : Except Err (MeansResult α × Status) :=
  kMeansLoop sqrt points k maxIter.toNat 0 centroids (List.replicate points.length (-1)) []

/-- The body of `kMedoids`, lines 69-134, run from the given medoids instead
of the first `k` points of line 68. -/
def kMedoidsFrom (sqrt : α → α) (points : List (Point α)) (k maxIter : Int)
    (medoids : List (Point α)) : Except Err (MedoidsResult α × Status) :=
  kMedoidsLoop sqrt points k maxIter.toNat 0 medoids (List.replicate points.length (-1)) []

/-- The assignments iteration `j` of a log starts from: all `-1` for iteration
0, afterwards those the assignment pass of the record before computed. -/
def assignmentsBefore (sqrt : α → α) (points : List (Point α)) (k : Int)
    (logs : List (LogRec α)) : Nat → List Int
  | 0 => List.replicate points.length (-1)
  | j + 1 =>
    match logs[j]? with
    | some rec => nearestAll sqrt rec.initial k points
    | none => []

/-- The runs of the main loop, as a relation: `Trace n iter reps as logs asF repsF st`
says that with `n` iterations left, at iteration `iter`, from representatives
`reps` and assignments `as`, the loop appends the records `logs` and is left
in state `st` with assignments `asF` and representatives `repsF`. The update
of the representatives is the parameter `upd`. -/
inductive Trace (sqrt : α → α) (points : List (Point α)) (k : Int) (tag : String)
    (upd : List Int → List (Point α) → Except Err (List (Point α))) :
    Nat → Nat → List (Point α) → List Int → List (LogRec α) →
      List Int → List (Point α) → Status → Prop
  | budget (iter : Nat) (reps : List (Point α)) (as : List Int) :
      Trace sqrt points k tag upd 0 iter reps as [] as reps .BudgetExhausted
  | converged (n iter : Nat) (reps : List (Point α)) (as : List Int)
      (hok : ∀ p ∈ points, nearest sqrt p reps k = .ok (near sqrt reps k p))
      (hsame : nearestAll sqrt reps k points = as) :
      Trace sqrt points k tag upd (n + 1) iter reps as [⟨iter, tag, reps, reps⟩] as reps
        .Converged
  | step (n iter : Nat) (reps reps2 : List (Point α)) (as : List Int)
      (logs : List (LogRec α)) (asF : List Int) (repsF : List (Point α)) (st : Status)
      (hok : ∀ p ∈ points, nearest sqrt p reps k = .ok (near sqrt reps k p))
      (hchanged : nearestAll sqrt reps k points ≠ as)
      (hupd : upd (nearestAll sqrt reps k points) reps = .ok reps2)
      (hrest : Trace sqrt points k tag upd n (iter + 1) reps2
        (nearestAll sqrt reps k points) logs asF repsF st) :
      Trace sqrt points k tag upd (n + 1) iter reps as (⟨iter, tag, reps, reps2⟩ :: logs)
        asF repsF st

/-- The update of `kMeans` as a function of the assignments and centroids. -/
def meansUpdate (points : List (Point α)) (k : Int) :
    List Int → List (Point α) → Except Err (List (Point α)) :=
  fun as cs => updateCentroidsLoop points as k.toNat 0 cs

/-- The update of `kMedoids` as a function of the assignments and medoids. -/
def medoidsUpdate (sqrt : α → α) (points : List (Point α)) (k : Int) :
    List Int → List (Point α) → Except Err (List (Point α)) :=
  fun as ms => updateMedoidsLoop sqrt points as k.toNat 0 ms

/-! ### The functions over machine numbers -/

/-- The arithmetic of the numbers the program computes with: the operators and
library calls `distance`, `kMeans` and `kMedoids` apply to numbers. -/
structure Arith (F : Type) where
  /-- The operator `a - b`. -/
  sub : F → F → F
  /-- The operator `a + b`. -/
  add : F → F → F
  /-- The square `a ** 2`. -/
  sq : F → F
  /-- The call `Math.sqrt(a)`. -/
  sqrt : F → F
  /-- The quotient `a / n` by an array length `n`. -/
  divNat : F → Nat → F
  /-- The literal `0`. -/
  zero : F
  /-- The comparison `a < b`. -/
  lt : F → F → Bool
  /-- The comparison `a < Infinity`. -/
  ltInfinity : F → Bool

section Machine

variable {F : Type}

/-- Lines 4-5 over the arithmetic `M`. -/
def Arith.distance (M : Arith F) (a b : Point F) : F :=
  M.sqrt (M.add (M.sq (M.sub a.1 b.1)) (M.sq (M.sub a.2 b.2)))

/-- The test `x < bound` of lines 24, 83 and 118; the bound `none` is the
start value `Infinity`. -/
def Arith.ltInf (M : Arith F) (x : F) : Option F → Bool
  | none => M.ltInfinity x
  | some m => M.lt x m

/-- Lines 22-28 (81-87) over the arithmetic `M`. -/
def Arith.nearestLoop (M : Arith F) (point : Point F) (reps : List (Point F)) :
    Nat → Nat → Option F → Int → Except Err Int
  | 0, _, _, clusterIndex => .ok clusterIndex
  | n + 1, c, minDist, clusterIndex =>
    match reps[c]? with
    | none => .error .typeError
    | some r =>
      let dist := M.distance point r
      if M.ltInf dist minDist then M.nearestLoop point reps n (c + 1) (some dist) (c : Int)
      else M.nearestLoop point reps n (c + 1) minDist clusterIndex

/-- Lines 20-28 over the arithmetic `M`. -/
def Arith.nearest (M : Arith F) (point : Point F) (reps : List (Point F)) (k : Int) :
    Except Err Int :=
  M.nearestLoop point reps k.toNat 0 none (-1)

/-- The assignment pass, lines 18-33 (77-92), over the arithmetic `M`. -/
def Arith.assignLoop (M : Arith F) (reps : List (Point F)) (k : Int) :
    List (Point F) → Nat → List Int → Bool → Except Err (List Int × Bool)
  | [], _, assignments, changed => .ok (assignments, changed)
  | point :: rest, i, assignments, changed =>
    match M.nearest point reps k with
    | .error e => .error e
    | .ok clusterIndex =>
      if assignments[i]? ≠ some clusterIndex then
        M.assignLoop reps k rest (i + 1) (assignments.set i clusterIndex) true
      else
        M.assignLoop reps k rest (i + 1) assignments changed

/-- The sum `l.reduce((sum, p) => sum + f(p), 0)` over the arithmetic `M`. -/
def Arith.sumBy {β : Type} (M : Arith F) (f : β → F) (l : List β) : F :=
  l.foldl (fun sum p => M.add sum (f p)) M.zero

/-- The quotient of a sum by a count, a zero count being reported. -/
def Arith.checkedDiv (M : Arith F) (a : F) (n : Nat) : Except Err F :=
  if n = 0 then .error .divByZero else .ok (M.divNat a n)

/-- The centroid update, lines 47-53, over the arithmetic `M`. -/
def Arith.updateCentroidsLoop (M : Arith F) (points : List (Point F))
    (assignments : List Int) : Nat → Nat → List (Point F) → Except Err (List (Point F))
  | 0, _, centroids => .ok centroids
  | n + 1, c, centroids =>
    let assigned := assignedPoints points assignments c
    if assigned.length = 0 then M.updateCentroidsLoop points assignments n (c + 1) centroids
    else
      match M.checkedDiv (M.sumBy (fun p => p.1) assigned) assigned.length,
            M.checkedDiv (M.sumBy (fun p => p.2) assigned) assigned.length with
      | .ok meanX, .ok meanY =>
        M.updateCentroidsLoop points assignments n (c + 1) (centroids.set c (meanX, meanY))
      | .error e, _ => .error e
      | _, .error e => .error e

/-- The main loop of `kMeans`, lines 13-61, over the arithmetic `M`. -/
def Arith.kMeansLoop (M : Arith F) (points : List (Point F)) (k : Int) :
    Nat → Nat → List (Point F) → List Int → List (LogRec F) →
      Except Err (MeansResult F × Status)
  | 0, _, centroids, assignments, logs => .ok (⟨assignments, centroids, logs⟩, .BudgetExhausted)
  | n + 1, iter, centroids, assignments, logs =>
    let prevCentroids := centroids
    match M.assignLoop centroids k points 0 assignments false with
    | .error e => .error e
    | .ok (assignments, changed) =>
      if !changed then
        .ok (⟨assignments, centroids,
          logs ++ [⟨iter, "kmeans", prevCentroids, centroids⟩]⟩, .Converged)
      else
        match M.updateCentroidsLoop points assignments k.toNat 0 centroids with
        | .error e => .error e
        | .ok centroids =>
          M.kMeansLoop points k n (iter + 1) centroids assignments
            (logs ++ [⟨iter, "kmeans", prevCentroids, centroids⟩])

/-- A run of `kMeans` over the arithmetic `M`, with the way its loop was left. -/
def Arith.kMeansRun (M : Arith F) (points : List (Point F)) (k maxIter : Int) :
    Except Err (MeansResult F × Status) :=
  M.kMeansLoop points k maxIter.toNat 0 (slice0 points k)
    (List.replicate points.length (-1)) []

/-- The function `kMeans(points, k, maxIter)` over the arithmetic `M`. -/
def Arith.kMeans (M : Arith F) (points : List (Point F)) (k maxIter : Int) :
    Except Err (MeansResult F) :=
  (M.kMeansRun points k maxIter).map Prod.fst

/-- Lines 110-122 over the arithmetic `M`. -/
def Arith.bestLoop (M : Arith F) (assigned : List (Point F)) :
    List (Point F) → Option (Point F) → Option F → Option (Point F)
  | [], bestMedoid, _ => bestMedoid
  | candidate :: rest, bestMedoid, bestCost =>
    let cost := M.sumBy (fun p => M.distance p candidate) assigned
    if M.ltInf cost bestCost then M.bestLoop assigned rest (some candidate) (some cost)
    else M.bestLoop assigned rest bestMedoid bestCost

/-- The medoid update, lines 106-124, over the arithmetic `M`. -/
def Arith.updateMedoidsLoop (M : Arith F) (points : List (Point F))
    (assignments : List Int) : Nat → Nat → List (Point F) → Except Err (List (Point F))
  | 0, _, medoids => .ok medoids
  | n + 1, m, medoids =>
    let assigned := assignedPoints points assignments m
    if assigned.length = 0 then M.updateMedoidsLoop points assignments n (m + 1) medoids
    else
      match M.bestLoop assigned assigned medoids[m]? none with
      | none => .error .typeError
      | some bestMedoid =>
        M.updateMedoidsLoop points assignments n (m + 1) (medoids.set m bestMedoid)

/-- The main loop of `kMedoids`, lines 72-132, over the arithmetic `M`. -/
def Arith.kMedoidsLoop (M : Arith F) (points : List (Point F)) (k : Int) :
    Nat → Nat → List (Point F) → List Int → List (LogRec F) →
      Except Err (MedoidsResult F × Status)
  | 0, _, medoids, assignments, logs => .ok (⟨assignments, medoids, logs⟩, .BudgetExhausted)
  | n + 1, iter, medoids, assignments, logs =>
    let prevMedoids := medoids
    match M.assignLoop medoids k points 0 assignments false with
    | .error e => .error e
    | .ok (assignments, changed) =>
      if !changed then
        .ok (⟨assignments, medoids,
          logs ++ [⟨iter, "kmedoids", prevMedoids, medoids⟩]⟩, .Converged)
      else
        match M.updateMedoidsLoop points assignments k.toNat 0 medoids with
        | .error e => .error e
        | .ok medoids =>
          M.kMedoidsLoop points k n (iter + 1) medoids assignments
            (logs ++ [⟨iter, "kmedoids", prevMedoids, medoids⟩])

/-- A run of `kMedoids` over the arithmetic `M`, with the way its loop was
left. -/
def Arith.kMedoidsRun (M : Arith F) (points : List (Point F)) (k maxIter : Int) :
    Except Err (MedoidsResult F × Status) :=
  M.kMedoidsLoop points k maxIter.toNat 0 (slice0 points k)
    (List.replicate points.length (-1)) []

/-- The function `kMedoids(points, k, maxIter)` over the arithmetic `M`. -/
def Arith.kMedoids (M : Arith F) (points : List (Point F)) (k maxIter : Int) :
    Except Err (MedoidsResult F) :=
  (M.kMedoidsRun points k maxIter).map Prod.fst

/-- The value of `Arith.nearest` when it returns, `-1` otherwise. -/
def Arith.near (M : Arith F) (reps : List (Point F)) (k : Int) (p : Point F) : Int :=
  match M.nearest p reps k with
  | .ok c => c
  | .error _ => -1

/-- The assignment pass over the arithmetic `M` as a function. -/
def Arith.nearestAll (M : Arith F) (reps : List (Point F)) (k : Int)
    (points : List (Point F)) : List Int :=
  points.map (M.near reps k)

end Machine

/-! ### Exact arithmetic as an instance -/

/-- Exact arithmetic in a linearly ordered field, with the square root `sqrt`:
no result is rounded, none overflows, and every number is below `Infinity`. -/
def exactArith (sqrt : α → α) : Arith α where
  sub := fun a b => a - b
  add := fun a b => a + b
  sq := fun a => a ^ 2
  sqrt := sqrt
  divNat := fun a n => a / (n : α)
  zero := 0
  lt := fun a b => decide (a < b)
  ltInfinity := fun _ => true

/-! ### IEEE 754 binary64 -/

/-- A JavaScript number, a value of IEEE 754 binary64. Every finite double is
an integer multiple of the least positive double `2 ^ (-1074)`: `fin n` is the
double `n * 2 ^ (-1074)`. The two zeros are one value `fin 0`; the program,
which subtracts, adds, squares, takes square roots, divides by a positive
count and compares with `<`, cannot tell them apart. -/
inductive F64 where
  | fin (n : Int)
  | inf
  | ninf
  | nan
  deriving DecidableEq, Repr

/-- The number of binary digits of `q`, with `fuel` rounds left. -/
def F64.sizeLoop : Nat → Nat → Nat → Nat
  | 0, _, s => s
  | fuel + 1, q, s => if q = 0 then s else F64.sizeLoop fuel (q / 2) (s + 1)

/-- The number of binary digits of `q`. -/
def F64.size (q : Nat) : Nat :=
  F64.sizeLoop q q 0

/-- Round to nearest, ties to even, of the rational `num / den` to a multiple
of `2 ^ s`. -/
def F64.roundGrid (num den s : Nat) : Nat :=
  let g := den * 2 ^ s
  let m := num / g
  let r := num % g
  if 2 * r < g then m * 2 ^ s
  else if g < 2 * r then (m + 1) * 2 ^ s
  else if m % 2 = 0 then m * 2 ^ s
  else (m + 1) * 2 ^ s

/-- The rounding of binary64 (53 significant digits, to nearest, ties to even)
of the magnitude `num / den`, in units of `2 ^ (-1074)`, with the sign
`negative`: below `2 ^ 53` units the doubles are the integers, from there on
the spacing doubles with every further binary digit, and a result of
`2 ^ 2098` units (the number `2 ^ 1024`) or more is an infinity. -/
def F64.round (negative : Bool) (num den : Nat) : F64 :=
  let n := F64.roundGrid num den (F64.size (num / den) - 53)
  if 2 ^ 2098 ≤ n then (if negative then .ninf else .inf)
  else .fin (if negative then -(n : Int) else (n : Int))

/-- The rounding of the rational `num / den`, in units of `2 ^ (-1074)`. -/
def F64.roundInt (num : Int) (den : Nat) : F64 :=
  F64.round (decide (num < 0)) num.natAbs den

/-- The operator `a + b` of binary64. -/
def F64.add : F64 → F64 → F64
  | .nan, _ => .nan
  | _, .nan => .nan
  | .inf, .ninf => .nan
  | .ninf, .inf => .nan
  | .inf, _ => .inf
  | _, .inf => .inf
  | .ninf, _ => .ninf
  | _, .ninf => .ninf
  | .fin a, .fin b => F64.roundInt (a + b) 1

/-- The operator `a - b` of binary64. -/
def F64.sub : F64 → F64 → F64
  | .nan, _ => .nan
  | _, .nan => .nan
  | .inf, .inf => .nan
  | .ninf, .ninf => .nan
  | .inf, _ => .inf
  | _, .ninf => .inf
  | .ninf, _ => .ninf
  | _, .inf => .ninf
  | .fin a, .fin b => F64.roundInt (a - b) 1

/-- The square `a ** 2` of binary64: the product of `a * 2 ^ (-1074)` with
itself is `a * a / 2 ^ 1074` units. -/
def F64.sq : F64 → F64
  | .nan => .nan
  | .inf => .inf
  | .ninf => .inf
  | .fin a => F64.roundInt (a * a) (2 ^ 1074)

/-- The integer square root, digit by digit from the digit `2 ^ b` down. -/
def F64.isqrtLoop (n : Nat) : Nat → Nat → Nat
  | 0, r => r
  | b + 1, r => if (r + 2 ^ b) ^ 2 ≤ n then F64.isqrtLoop n b (r + 2 ^ b)
      else F64.isqrtLoop n b r

/-- The integer square root: the greatest `r` with `r ^ 2 ≤ n`. -/
def F64.isqrt (n : Nat) : Nat :=
  F64.isqrtLoop n (F64.size n) 0

/-- The call `Math.sqrt(a)` of binary64, correctly rounded: the root of
`a * 2 ^ (-1074)` is `x = sqrt (a * 2 ^ 1074)` units; with `y` the integer
part of `2 * x`, the number `x` is `y / 2` when `y ^ 2 = 4 * a * 2 ^ 1074` and
lies strictly between `y / 2` and `(y + 1) / 2` otherwise, where it rounds as
`(2 * y + 1) / 4` does. -/
def F64.sqrt : F64 → F64
  | .nan => .nan
  | .inf => .inf
  | .ninf => .nan
  | .fin a =>
    if a < 0 then .nan
    else
      let n := 4 * (a.toNat * 2 ^ 1074)
      let y := F64.isqrt n
      F64.round false (2 * y + (if y ^ 2 = n then 0 else 1)) 4

/-- The quotient `a / n` of binary64 by an array length `n` (lengths are below
`2 ^ 32`, numbers that binary64 holds exactly). -/
def F64.divNat : F64 → Nat → F64
  | .nan, _ => .nan
  | .inf, _ => .inf
  | .ninf, _ => .ninf
  | .fin a, n =>
    if n = 0 then (if a = 0 then .nan else if a < 0 then .ninf else .inf)
    else F64.roundInt a n

/-- The comparison `a < b` of binary64. -/
def F64.lt : F64 → F64 → Bool
  | .nan, _ => false
  | _, .nan => false
  | .fin a, .fin b => decide (a < b)
  | .fin _, .inf => true
  | .ninf, .fin _ => true
  | .ninf, .inf => true
  | _, _ => false

/-- The arithmetic of JavaScript numbers. -/
def binary64 : Arith F64 where
  sub := F64.sub
  add := F64.add
  sq := F64.sq
  sqrt := F64.sqrt
  divNat := F64.divNat
  zero := .fin 0
  lt := F64.lt
  ltInfinity := fun a => F64.lt a .inf

/-- The double nearest to `2 ^ e`, which is `2 ^ e` itself for
`-1074 ≤ e ≤ 1023`. -/
def F64.pow2 (e : Int) : F64 :=
  F64.round false (2 ^ (e + 1074).toNat) (2 ^ (-(e + 1074)).toNat)

/-- The double `-(2 ^ e)`. -/
def F64.negPow2 (e : Int) : F64 :=
  F64.round true (2 ^ (e + 1074).toNat) (2 ^ (-(e + 1074)).toNat)

instance instDecidableEqExcept {ε β : Type} [DecidableEq ε] [DecidableEq β] :
    DecidableEq (Except ε β)
  | .ok a, .ok b => if h : a = b then isTrue (by rw [h]) else isFalse (fun e => h (by cases e; rfl))
  | .error a, .error b =>
    if h : a = b then isTrue (by rw [h]) else isFalse (fun e => h (by cases e; rfl))
  | .ok _, .error _ => isFalse (fun e => by cases e)
  | .error _, .ok _ => isFalse (fun e => by cases e)

end Defs

/-! ### The scan for the nearest representative -/

section Lemmas

variable {α : Type} [LinearOrderedField α]

theorem nearestLoop_error (sqrt : α → α) (p : Point α) (reps : List (Point α)) :
    ∀ (n c : Nat) (md : Option α) (ci : Int), c ≤ reps.length → reps.length < c + n →
      nearestLoop sqrt p reps n c md ci = .error .typeError := by
  intro n
  induction n with
  | zero => intro c md ci h1 h2; omega
  | succ n ih =>
    intro c md ci h1 h2
    unfold nearestLoop
    cases hc : reps[c]? with
    | none => rfl
    | some r =>
      have hlt : c < reps.length := (List.getElem?_eq_some_iff.1 hc).1
      simp only
      split <;> exact ih _ _ _ (by omega) (by omega)

theorem nearestLoop_spec (sqrt : α → α) (p : Point α) (reps : List (Point α)) :
    ∀ (n c : Nat) (md : Option α) (ci : Int), c + n ≤ reps.length →
      ScanInv sqrt p reps c md ci →
      ∃ res md', nearestLoop sqrt p reps n c md ci = .ok res ∧
        ScanInv sqrt p reps (c + n) md' res := by
  intro n
  induction n with
  | zero => intro c md ci _ h; exact ⟨ci, md, rfl, h⟩
  | succ n ih =>
    intro c md ci hlen hinv
    have hc : c < reps.length := by omega
    unfold nearestLoop
    rw [List.getElem?_eq_getElem hc]
    simp only
    have hstep : ∀ md2 ci2, ScanInv sqrt p reps (c + 1) md2 ci2 →
        ∃ res md', nearestLoop sqrt p reps n (c + 1) md2 ci2 = .ok res ∧
          ScanInv sqrt p reps (c + (n + 1)) md' res := by
      intro md2 ci2 h2
      have := ih (c + 1) md2 ci2 (by omega) h2
      rwa [show c + 1 + n = c + (n + 1) by omega] at this
    split
    · rename_i hlt
      apply hstep
      right
      refine ⟨c, reps[c], rfl, List.getElem?_eq_getElem hc, rfl, Nat.lt_succ_self c, reps[c],
        List.getElem?_eq_getElem hc, ?_, ?_⟩
      · intro j rj hj hrj
        rcases hinv with ⟨h0, _, _⟩ | ⟨b, rb, _, hb, hmd, hfm⟩
        · subst h0
          have : j = 0 := by omega
          subst this
          rw [List.getElem?_eq_getElem hc] at hrj
          cases hrj; exact le_refl _
        · subst hmd
          simp only [ltInf, decide_eq_true_eq] at hlt
          rcases Nat.lt_succ_iff_lt_or_eq.1 hj with hj' | hj'
          · obtain ⟨_, rb', hb', hle, _⟩ := hfm
            rw [hb] at hb'; cases hb'
            exact le_of_lt (lt_of_lt_of_le hlt (hle j rj hj' hrj))
          · subst hj'
            rw [List.getElem?_eq_getElem hc] at hrj
            cases hrj; exact le_refl _
      · intro j rj hj hrj
        rcases hinv with ⟨h0, _, _⟩ | ⟨b, rb, _, hb, hmd, hfm⟩
        · omega
        · subst hmd
          simp only [ltInf, decide_eq_true_eq] at hlt
          obtain ⟨_, rb', hb', hle, _⟩ := hfm
          rw [hb] at hb'; cases hb'
          exact lt_of_lt_of_le hlt (hle j rj hj hrj)
    · rename_i hlt
      apply hstep
      rcases hinv with ⟨_, hmd, _⟩ | ⟨b, rb, hci, hb, hmd, hfm⟩
      · subst hmd; simp [ltInf] at hlt
      · subst hmd
        simp only [ltInf, decide_eq_true_eq, not_lt] at hlt
        right
        obtain ⟨hbc, rb', hb', hle, hlt'⟩ := hfm
        rw [hb] at hb'; cases hb'
        refine ⟨b, rb, hci, hb, rfl, by omega, rb, hb, ?_, hlt'⟩
        intro j rj hj hrj
        rcases Nat.lt_succ_iff_lt_or_eq.1 hj with hj' | hj'
        · exact hle j rj hj' hrj
        · subst hj'
          rw [List.getElem?_eq_getElem hc] at hrj
          cases hrj; exact hlt

/-- With no representative to scan, the start value `-1` is returned. -/
theorem nearest_nonpos (sqrt : α → α) (p : Point α) (reps : List (Point α)) (k : Int)
    (hk : k ≤ 0) : nearest sqrt p reps k = .ok (-1) := by
  have : k.toNat = 0 := by omega
  simp [nearest, this, nearestLoop]

theorem nearest_error (sqrt : α → α) (p : Point α) (reps : List (Point α)) (k : Int)
    (hk : reps.length < k.toNat) : nearest sqrt p reps k = .error .typeError :=
  nearestLoop_error sqrt p reps k.toNat 0 none (-1) (Nat.zero_le _) (by omega)

theorem nearest_spec (sqrt : α → α) (p : Point α) (reps : List (Point α)) (k : Int)
    (hk0 : 0 < k) (hk : k.toNat ≤ reps.length) :
    ∃ b : Nat, nearest sqrt p reps k = .ok (b : Int) ∧ FirstMin sqrt p reps k.toNat b := by
  obtain ⟨res, md', hres, hinv⟩ := nearestLoop_spec sqrt p reps k.toNat 0 none (-1)
    (by omega) (Or.inl ⟨rfl, rfl, rfl⟩)
  rcases hinv with ⟨h0, _, _⟩ | ⟨b, rb, hci, _, _, hfm⟩
  · omega
  · subst hci
    refine ⟨b, hres, ?_⟩
    simpa using hfm

/-! ### The assignment pass -/

theorem near_of_ok {sqrt : α → α} {reps : List (Point α)} {k : Int} {p : Point α} {c : Int}
    (h : nearest sqrt p reps k = .ok c) : near sqrt reps k p = c := by
  simp [near, h]

theorem assignLoop_ok (sqrt : α → α) (reps : List (Point α)) (k : Int) :
    ∀ (rest : List (Point α)) (done todo : List Int) (ch : Bool) (res : List Int × Bool),
      todo.length = rest.length →
      assignLoop sqrt reps k rest done.length (done ++ todo) ch = .ok res →
      (∀ p ∈ rest, nearest sqrt p reps k = .ok (near sqrt reps k p)) ∧
        res = (done ++ rest.map (near sqrt reps k),
          ch || decide (rest.map (near sqrt reps k) ≠ todo)) := by
  intro rest
  induction rest with
  | nil =>
    intro done todo ch res hlen h
    have : todo = [] := List.length_eq_zero.1 hlen
    subst this
    simp [assignLoop] at h
    simp [← h]
  | cons p ps ih =>
    intro done todo ch res hlen h
    cases todo with
    | nil => simp at hlen
    | cons t ts =>
      have hlen' : ts.length = ps.length := by simpa using hlen
      unfold assignLoop at h
      cases hn : nearest sqrt p reps k with
      | error e => simp [hn] at h
      | ok c =>
        have hc := near_of_ok hn
        simp only [hn] at h
        have hget : (done ++ t :: ts)[done.length]? = some t := by
          rw [List.getElem?_append_right (le_refl _)]; simp
        have hset : (done ++ t :: ts).set done.length c = (done ++ [c]) ++ ts := by simp
        have hsame : done ++ t :: ts = (done ++ [t]) ++ ts := by simp
        have hl1 : ∀ x : Int, done.length + 1 = (done ++ [x]).length := by simp
        rw [hget] at h
        by_cases htc : t = c
        · subst htc
          simp only [ne_eq, not_true_eq_false, if_false] at h
          rw [hsame, hl1 t] at h
          obtain ⟨h1, h2⟩ := ih _ _ _ _ hlen' h
          refine ⟨?_, ?_⟩
          · intro q hq
            rcases List.mem_cons.1 hq with rfl | hq
            · rw [hn, hc]
            · exact h1 q hq
          · rw [h2]; simp [hc]
        · have : ¬ (some t = some c) := by simpa using htc
          simp only [ne_eq, this, not_false_eq_true, if_true] at h
          rw [hset, hl1 c] at h
          obtain ⟨h1, h2⟩ := ih _ _ _ _ hlen' h
          refine ⟨?_, ?_⟩
          · intro q hq
            rcases List.mem_cons.1 hq with rfl | hq
            · rw [hn, hc]
            · exact h1 q hq
          · rw [h2]; simp [hc]
            right; left; exact fun h => htc h.symm

theorem assignLoop_total (sqrt : α → α) (reps : List (Point α)) (k : Int) :
    ∀ (rest : List (Point α)) (i : Nat) (as : List Int) (ch : Bool),
      (∀ p ∈ rest, nearest sqrt p reps k = .ok (near sqrt reps k p)) →
      ∃ res, assignLoop sqrt reps k rest i as ch = .ok res := by
  intro rest
  induction rest with
  | nil => intro i as ch _; exact ⟨_, rfl⟩
  | cons p ps ih =>
    intro i as ch hall
    unfold assignLoop
    rw [hall p (List.mem_cons_self _ _)]
    simp only
    split <;> exact ih _ _ _ (fun q hq => hall q (List.mem_cons_of_mem _ hq))

theorem assignLoop_eq (sqrt : α → α) (reps : List (Point α)) (k : Int)
    (rest : List (Point α)) (done todo : List Int) (ch : Bool)
    (hlen : todo.length = rest.length)
    (hall : ∀ p ∈ rest, nearest sqrt p reps k = .ok (near sqrt reps k p)) :
    assignLoop sqrt reps k rest done.length (done ++ todo) ch =
      .ok (done ++ rest.map (near sqrt reps k),
        ch || decide (rest.map (near sqrt reps k) ≠ todo)) := by
  obtain ⟨res, h⟩ := assignLoop_total sqrt reps k rest done.length (done ++ todo) ch hall
  rw [h, (assignLoop_ok sqrt reps k rest done todo ch res hlen h).2]

/-! ### The update of the representatives -/

theorem checkedDiv_length (a : α) {β : Type} (l : List β) (h : ¬ l.length = 0) :
    checkedDiv a (l.length : α) = .ok (a / (l.length : α)) := by
  have : (l.length : α) ≠ 0 := Nat.cast_ne_zero.2 h
  simp [checkedDiv, this]

theorem updateCentroidsLoop_spec (points : List (Point α)) (as : List Int) :
    ∀ (n c : Nat) (cs : List (Point α)),
      ∃ cs2, updateCentroidsLoop points as n c cs = .ok cs2 ∧ cs2.length = cs.length ∧
        ∀ j, cs2[j]? =
          if c ≤ j ∧ j < c + n ∧ assignedPoints points as j ≠ [] then
            (cs[j]?).map (fun _ => meanOf (assignedPoints points as j))
          else cs[j]? := by
  intro n
  induction n with
  | zero =>
    intro c cs
    refine ⟨cs, rfl, rfl, fun j => ?_⟩
    rw [if_neg]; omega
  | succ n ih =>
    intro c cs
    unfold updateCentroidsLoop
    simp only
    by_cases hemp : (assignedPoints points as c).length = 0
    · rw [if_pos hemp]
      obtain ⟨cs2, h1, h2, h3⟩ := ih (c + 1) cs
      refine ⟨cs2, h1, h2, fun j => ?_⟩
      rw [h3 j]
      have hnil : assignedPoints points as c = [] := List.length_eq_zero.1 hemp
      by_cases hj : j = c
      · subst hj
        rw [if_neg (by omega), if_neg (by simp [hnil])]
      · have : (c + 1 ≤ j ∧ j < c + 1 + n ∧ assignedPoints points as j ≠ []) ↔
            (c ≤ j ∧ j < c + (n + 1) ∧ assignedPoints points as j ≠ []) := by
          constructor <;> rintro ⟨a, b, d⟩ <;> exact ⟨by omega, by omega, d⟩
        simp only [this]
    · rw [if_neg hemp, checkedDiv_length _ _ hemp, checkedDiv_length _ _ hemp]
      simp only
      obtain ⟨cs2, h1, h2, h3⟩ := ih (c + 1) (cs.set c
        (sumBy (fun p => p.1) (assignedPoints points as c) / ((assignedPoints points as c).length : α),
         sumBy (fun p => p.2) (assignedPoints points as c) / ((assignedPoints points as c).length : α)))
      refine ⟨cs2, h1, by simpa using h2, fun j => ?_⟩
      rw [h3 j]
      have hnil : assignedPoints points as c ≠ [] := fun h => hemp (by simp [h])
      by_cases hj : j = c
      · subst hj
        rw [if_neg (by omega), if_pos ⟨le_refl _, by omega, hnil⟩]
        rw [List.getElem?_set]
        simp only [if_true]
        by_cases hlt : j < cs.length
        · simp [hlt, meanOf, List.getElem?_eq_getElem hlt]
        · simp [hlt, List.getElem?_eq_none (not_lt.1 hlt)]
      · have : (c + 1 ≤ j ∧ j < c + 1 + n ∧ assignedPoints points as j ≠ []) ↔
            (c ≤ j ∧ j < c + (n + 1) ∧ assignedPoints points as j ≠ []) := by
          constructor <;> rintro ⟨a, b, d⟩ <;> exact ⟨by omega, by omega, d⟩
        simp only [this]
        have hs : ∀ v, (cs.set c v)[j]? = cs[j]? := fun v => by
          rw [List.getElem?_set]; simp [Ne.symm hj]
        rw [hs]

theorem bestLoop_cons_none (sqrt : α → α) (a : List (Point α)) (x : Point α)
    (xs : List (Point α)) (b : Option (Point α)) :
    bestLoop sqrt a (x :: xs) b none =
      bestLoop sqrt a xs (some x) (some (sumBy (fun p => distance sqrt p x) a)) := by
  simp [bestLoop, ltInf]

theorem bestLoop_mem (sqrt : α → α) (a : List (Point α)) :
    ∀ (cands : List (Point α)) (b : Option (Point α)) (cost : Option α),
      bestLoop sqrt a cands b cost = b ∨ ∃ x ∈ cands, bestLoop sqrt a cands b cost = some x := by
  intro cands
  induction cands with
  | nil => intro b cost; left; rfl
  | cons x xs ih =>
    intro b cost
    unfold bestLoop
    simp only
    split
    · rcases ih (some x) (some (sumBy (fun p => distance sqrt p x) a)) with h | ⟨y, hy, h⟩
      · exact Or.inr ⟨x, List.mem_cons_self _ _, h⟩
      · exact Or.inr ⟨y, List.mem_cons_of_mem _ hy, h⟩
    · rcases ih b cost with h | ⟨y, hy, h⟩
      · exact Or.inl h
      · exact Or.inr ⟨y, List.mem_cons_of_mem _ hy, h⟩

theorem bestLoop_start (sqrt : α → α) (a cands : List (Point α)) (hl : cands ≠ [])
    (b : Option (Point α)) :
    bestLoop sqrt a cands b none = bestLoop sqrt a cands none none ∧
      ∃ x ∈ cands, bestLoop sqrt a cands none none = some x := by
  obtain ⟨x, xs, rfl⟩ := List.exists_cons_of_ne_nil hl
  rw [bestLoop_cons_none, bestLoop_cons_none]
  refine ⟨rfl, ?_⟩
  rcases bestLoop_mem sqrt a xs (some x) (some (sumBy (fun p => distance sqrt p x) a))
    with h | ⟨y, hy, h⟩
  · exact ⟨x, List.mem_cons_self _ _, h⟩
  · exact ⟨y, List.mem_cons_of_mem _ hy, h⟩

/-- On a non-empty cluster the search returns a member, whatever `bestMedoid`
was at the start. -/
theorem bestLoop_medoidOf (sqrt : α → α) (l : List (Point α)) (hl : l ≠ [])
    (b : Option (Point α)) :
    bestLoop sqrt l l b none = medoidOf sqrt l ∧ ∃ x ∈ l, medoidOf sqrt l = some x :=
  bestLoop_start sqrt l l hl b

theorem updateMedoidsLoop_spec (sqrt : α → α) (points : List (Point α)) (as : List Int) :
    ∀ (n m : Nat) (ms : List (Point α)),
      ∃ ms2, updateMedoidsLoop sqrt points as n m ms = .ok ms2 ∧ ms2.length = ms.length ∧
        ∀ j, ms2[j]? =
          if m ≤ j ∧ j < m + n ∧ assignedPoints points as j ≠ [] then
            (ms[j]?).bind (fun _ => medoidOf sqrt (assignedPoints points as j))
          else ms[j]? := by
  intro n
  induction n with
  | zero =>
    intro m ms
    refine ⟨ms, rfl, rfl, fun j => ?_⟩
    rw [if_neg]; omega
  | succ n ih =>
    intro m ms
    unfold updateMedoidsLoop
    simp only
    by_cases hemp : (assignedPoints points as m).length = 0
    · rw [if_pos hemp]
      obtain ⟨ms2, h1, h2, h3⟩ := ih (m + 1) ms
      refine ⟨ms2, h1, h2, fun j => ?_⟩
      rw [h3 j]
      have hnil : assignedPoints points as m = [] := List.length_eq_zero.1 hemp
      by_cases hj : j = m
      · subst hj
        rw [if_neg (by omega), if_neg (by simp [hnil])]
      · have : (m + 1 ≤ j ∧ j < m + 1 + n ∧ assignedPoints points as j ≠ []) ↔
            (m ≤ j ∧ j < m + (n + 1) ∧ assignedPoints points as j ≠ []) := by
          constructor <;> rintro ⟨a, b, d⟩ <;> exact ⟨by omega, by omega, d⟩
        simp only [this]
    · rw [if_neg hemp]
      have hnil : assignedPoints points as m ≠ [] := fun h => hemp (by simp [h])
      obtain ⟨hb, x, hx, hmed⟩ := bestLoop_medoidOf sqrt _ hnil ms[m]?
      rw [hb, hmed]
      simp only
      obtain ⟨ms2, h1, h2, h3⟩ := ih (m + 1) (ms.set m x)
      refine ⟨ms2, h1, by simpa using h2, fun j => ?_⟩
      rw [h3 j]
      by_cases hj : j = m
      · subst hj
        rw [if_neg (by omega), if_pos ⟨le_refl _, by omega, hnil⟩]
        rw [List.getElem?_set]
        simp only [if_true]
        by_cases hlt : j < ms.length
        · simp [hlt, hmed, List.getElem?_eq_getElem hlt]
        · simp [hlt, List.getElem?_eq_none (not_lt.1 hlt)]
      · have : (m + 1 ≤ j ∧ j < m + 1 + n ∧ assignedPoints points as j ≠ []) ↔
            (m ≤ j ∧ j < m + (n + 1) ∧ assignedPoints points as j ≠ []) := by
          constructor <;> rintro ⟨a, b, d⟩ <;> exact ⟨by omega, by omega, d⟩
        simp only [this]
        have hs : ∀ v, (ms.set m v)[j]? = ms[j]? := fun v => by
          rw [List.getElem?_set]; simp [Ne.symm hj]
        rw [hs]

theorem meansUpdate_spec (points : List (Point α)) (k : Int) (as : List Int)
    (cs : List (Point α)) :
    ∃ cs2, meansUpdate points k as cs = .ok cs2 ∧ cs2.length = cs.length ∧
      ∀ j, cs2[j]? =
        if j < k.toNat ∧ assignedPoints points as j ≠ [] then
          (cs[j]?).map (fun _ => meanOf (assignedPoints points as j))
        else cs[j]? := by
  obtain ⟨cs2, h1, h2, h3⟩ := updateCentroidsLoop_spec points as k.toNat 0 cs
  refine ⟨cs2, h1, h2, fun j => ?_⟩
  rw [h3 j]; simp

theorem medoidsUpdate_spec (sqrt : α → α) (points : List (Point α)) (k : Int)
    (as : List Int) (ms : List (Point α)) :
    ∃ ms2, medoidsUpdate sqrt points k as ms = .ok ms2 ∧ ms2.length = ms.length ∧
      ∀ j, ms2[j]? =
        if j < k.toNat ∧ assignedPoints points as j ≠ [] then
          (ms[j]?).bind (fun _ => medoidOf sqrt (assignedPoints points as j))
        else ms[j]? := by
  obtain ⟨ms2, h1, h2, h3⟩ := updateMedoidsLoop_spec sqrt points as k.toNat 0 ms
  refine ⟨ms2, h1, h2, fun j => ?_⟩
  rw [h3 j]; simp

/-! ### The main loops -/

theorem kMeansLoop_trace (sqrt : α → α) (points : List (Point α)) (k : Int) :
    ∀ (n iter : Nat) (cs : List (Point α)) (as : List Int) (logs : List (LogRec α))
      (r : MeansResult α) (st : Status),
      as.length = points.length →
      kMeansLoop sqrt points k n iter cs as logs = .ok (r, st) →
      ∃ newLogs, r.logs = logs ++ newLogs ∧
        Trace sqrt points k "kmeans" (meansUpdate points k) n iter cs as newLogs
          r.assignments r.centroids st := by
  intro n
  induction n with
  | zero =>
    intro iter cs as logs r st _ h
    simp only [kMeansLoop, Except.ok.injEq, Prod.mk.injEq] at h
    obtain ⟨rfl, rfl⟩ := h
    exact ⟨[], by simp, Trace.budget _ _ _⟩
  | succ n ih =>
    intro iter cs as logs r st hlen h
    unfold kMeansLoop at h
    simp only at h
    cases ha : assignLoop sqrt cs k points 0 as false with
    | error e => simp [ha] at h
    | ok res =>
      obtain ⟨hok, hres⟩ := assignLoop_ok sqrt cs k points [] as false res hlen ha
      simp only [List.nil_append, Bool.false_or] at hres
      subst hres
      simp only [ha] at h
      by_cases hch : List.map (near sqrt cs k) points = as
      · simp only [hch, ne_eq, not_true_eq_false, decide_False, Bool.not_false, if_true,
          Except.ok.injEq, Prod.mk.injEq] at h
        obtain ⟨rfl, rfl⟩ := h
        exact ⟨_, rfl, Trace.converged _ _ _ _ hok hch⟩
      · simp only [ne_eq, hch, not_false_eq_true, decide_True, Bool.not_true,
          Bool.false_eq_true, if_false] at h
        obtain ⟨cs2, hupd, hlen2, _⟩ := meansUpdate_spec points k
          (List.map (near sqrt cs k) points) cs
        have hupd2 := hupd
        unfold meansUpdate at hupd2
        simp only [hupd2] at h
        obtain ⟨newLogs, hl, htr⟩ := ih _ _ _ _ _ _ (by simp) h
        refine ⟨⟨iter, "kmeans", cs, cs2⟩ :: newLogs, by simp [hl], ?_⟩
        exact Trace.step _ _ _ _ _ _ _ _ _ hok hch hupd htr

theorem kMedoidsLoop_trace (sqrt : α → α) (points : List (Point α)) (k : Int) :
    ∀ (n iter : Nat) (ms : List (Point α)) (as : List Int) (logs : List (LogRec α))
      (r : MedoidsResult α) (st : Status),
      as.length = points.length →
      kMedoidsLoop sqrt points k n iter ms as logs = .ok (r, st) →
      ∃ newLogs, r.logs = logs ++ newLogs ∧
        Trace sqrt points k "kmedoids" (medoidsUpdate sqrt points k) n iter ms as newLogs
          r.assignments r.medoids st := by
  intro n
  induction n with
  | zero =>
    intro iter ms as logs r st _ h
    simp only [kMedoidsLoop, Except.ok.injEq, Prod.mk.injEq] at h
    obtain ⟨rfl, rfl⟩ := h
    exact ⟨[], by simp, Trace.budget _ _ _⟩
  | succ n ih =>
    intro iter ms as logs r st hlen h
    unfold kMedoidsLoop at h
    simp only at h
    cases ha : assignLoop sqrt ms k points 0 as false with
    | error e => simp [ha] at h
    | ok res =>
      obtain ⟨hok, hres⟩ := assignLoop_ok sqrt ms k points [] as false res hlen ha
      simp only [List.nil_append, Bool.false_or] at hres
      subst hres
      simp only [ha] at h
      by_cases hch : List.map (near sqrt ms k) points = as
      · simp only [hch, ne_eq, not_true_eq_false, decide_False, Bool.not_false, if_true,
          Except.ok.injEq, Prod.mk.injEq] at h
        obtain ⟨rfl, rfl⟩ := h
        exact ⟨_, rfl, Trace.converged _ _ _ _ hok hch⟩
      · simp only [ne_eq, hch, not_false_eq_true, decide_True, Bool.not_true,
          Bool.false_eq_true, if_false] at h
        obtain ⟨ms2, hupd, hlen2, _⟩ := medoidsUpdate_spec sqrt points k
          (List.map (near sqrt ms k) points) ms
        have hupd2 := hupd
        unfold medoidsUpdate at hupd2
        simp only [hupd2] at h
        obtain ⟨newLogs, hl, htr⟩ := ih _ _ _ _ _ _ (by simp) h
        refine ⟨⟨iter, "kmedoids", ms, ms2⟩ :: newLogs, by simp [hl], ?_⟩
        exact Trace.step _ _ _ _ _ _ _ _ _ hok hch hupd htr

theorem nearest_ok (sqrt : α → α) (p : Point α) (reps : List (Point α)) (k : Int)
    (hk : k.toNat ≤ reps.length) : nearest sqrt p reps k = .ok (near sqrt reps k p) := by
  obtain ⟨res, _, hres, _⟩ := nearestLoop_spec sqrt p reps k.toNat 0 none (-1)
    (by omega) (Or.inl ⟨rfl, rfl, rfl⟩)
  have h : nearest sqrt p reps k = .ok res := hres
  rw [h, near_of_ok h]

theorem nearest_ok_all (sqrt : α → α) (points reps : List (Point α)) (k : Int)
    (h : points = [] ∨ k.toNat ≤ reps.length) :
    ∀ p ∈ points, nearest sqrt p reps k = .ok (near sqrt reps k p) := by
  intro p hp
  rcases h with h | h
  · subst h; simp at hp
  · exact nearest_ok sqrt p reps k h

theorem kMeansLoop_total (sqrt : α → α) (points : List (Point α)) (k : Int) :
    ∀ (n iter : Nat) (cs : List (Point α)) (as : List Int) (logs : List (LogRec α)),
      as.length = points.length →
      (points = [] ∨ k.toNat ≤ cs.length) →
      ∃ r st, kMeansLoop sqrt points k n iter cs as logs = .ok (r, st) := by
  intro n
  induction n with
  | zero => intro iter cs as logs _ _; exact ⟨_, _, rfl⟩
  | succ n ih =>
    intro iter cs as logs hlen hk
    unfold kMeansLoop
    simp only
    have ha := assignLoop_eq sqrt cs k points [] as false hlen
      (nearest_ok_all sqrt points cs k hk)
    simp only [List.nil_append, Bool.false_or, List.length_nil] at ha
    rw [ha]
    simp only
    split
    · exact ⟨_, _, rfl⟩
    · obtain ⟨cs2, hupd, hlen2, _⟩ := meansUpdate_spec points k
        (List.map (near sqrt cs k) points) cs
      unfold meansUpdate at hupd
      rw [hupd]
      exact ih _ _ _ _ (by simp) (by rw [hlen2]; exact hk)

theorem kMedoidsLoop_total (sqrt : α → α) (points : List (Point α)) (k : Int) :
    ∀ (n iter : Nat) (ms : List (Point α)) (as : List Int) (logs : List (LogRec α)),
      as.length = points.length →
      (points = [] ∨ k.toNat ≤ ms.length) →
      ∃ r st, kMedoidsLoop sqrt points k n iter ms as logs = .ok (r, st) := by
  intro n
  induction n with
  | zero => intro iter ms as logs _ _; exact ⟨_, _, rfl⟩
  | succ n ih =>
    intro iter ms as logs hlen hk
    unfold kMedoidsLoop
    simp only
    have ha := assignLoop_eq sqrt ms k points [] as false hlen
      (nearest_ok_all sqrt points ms k hk)
    simp only [List.nil_append, Bool.false_or, List.length_nil] at ha
    rw [ha]
    simp only
    split
    · exact ⟨_, _, rfl⟩
    · obtain ⟨ms2, hupd, hlen2, _⟩ := medoidsUpdate_spec sqrt points k
        (List.map (near sqrt ms k) points) ms
      unfold medoidsUpdate at hupd
      rw [hupd]
      exact ih _ _ _ _ (by simp) (by rw [hlen2]; exact hk)

theorem slice0_length {β : Type} (xs : List β) (k : Int) (h0 : 0 ≤ k)
    (hk : k.toNat ≤ xs.length) : (slice0 xs k).length = k.toNat := by
  unfold slice0
  rw [if_neg (by omega)]
  simp [hk]

theorem slice0_eq_take {β : Type} (xs : List β) (k : Int) (h0 : 0 ≤ k) :
    slice0 xs k = xs.take k.toNat := by
  unfold slice0
  rw [if_neg (by omega)]

/-! ### Facts read off a trace -/

/-- The record the first iteration of a trace logs. -/
theorem Trace.head {sqrt : α → α} {points : List (Point α)} {k : Int} {tag : String}
    {upd : List Int → List (Point α) → Except Err (List (Point α))}
    {n iter : Nat} {reps : List (Point α)} {as : List Int} {logs : List (LogRec α)}
    {asF : List Int} {repsF : List (Point α)} {st : Status}
    (h : Trace sqrt points k tag upd n iter reps as logs asF repsF st) :
    (n = 0 ∧ logs = []) ∨
      ∃ rec rest, logs = rec :: rest ∧ rec.iter = iter ∧ rec.type = tag ∧ rec.initial = reps ∧
        (∀ p ∈ points, nearest sqrt p reps k = .ok (near sqrt reps k p)) ∧
        ((rec.updated = reps ∧ nearestAll sqrt reps k points = as ∧ rest = []) ∨
          (upd (nearestAll sqrt reps k points) reps = .ok rec.updated ∧
            nearestAll sqrt reps k points ≠ as)) := by
  cases h with
  | budget => left; exact ⟨rfl, rfl⟩
  | converged n iter reps as hok hsame =>
    right; exact ⟨_, _, rfl, rfl, rfl, rfl, hok, Or.inl ⟨rfl, hsame, rfl⟩⟩
  | step n iter reps reps2 as logs asF repsF st hok hch hupd hrest =>
    right; exact ⟨_, _, rfl, rfl, rfl, rfl, hok, Or.inr ⟨hupd, hch⟩⟩

/-- The end of a trace: with no iteration nothing changes; otherwise the last
record holds the representatives the last assignment pass used. -/
theorem Trace.last {sqrt : α → α} {points : List (Point α)} {k : Int} {tag : String}
    {upd : List Int → List (Point α) → Except Err (List (Point α))}
    (hupd : ∀ as cs cs2, upd as cs = .ok cs2 → cs2.length = cs.length)
    {n iter : Nat} {reps : List (Point α)} {as : List Int} {logs : List (LogRec α)}
    {asF : List Int} {repsF : List (Point α)} {st : Status}
    (h : Trace sqrt points k tag upd n iter reps as logs asF repsF st) :
    repsF.length = reps.length ∧
    ((n = 0 ∧ logs = [] ∧ asF = as ∧ repsF = reps ∧ st = .BudgetExhausted) ∨
      ∃ rec, logs.getLast? = some rec ∧ rec.initial.length = reps.length ∧
        rec.updated = repsF ∧
        (∀ p ∈ points, nearest sqrt p rec.initial k = .ok (near sqrt rec.initial k p)) ∧
        asF = nearestAll sqrt rec.initial k points ∧
        (st = .Converged → rec.initial = rec.updated)) := by
  induction h with
  | budget => exact ⟨rfl, Or.inl ⟨rfl, rfl, rfl, rfl, rfl⟩⟩
  | converged n iter reps as hok hsame =>
    exact ⟨rfl, Or.inr ⟨_, rfl, rfl, rfl, hok, hsame.symm, fun _ => rfl⟩⟩
  | step n iter reps reps2 as logs asF repsF st hok hch hu hrest ih =>
    have hl2 := hupd _ _ _ hu
    obtain ⟨hlen, ih⟩ := ih
    refine ⟨by rw [hlen, hl2], Or.inr ?_⟩
    rcases ih with ⟨_, hlogs, hasF, hrepsF, hst⟩ | ⟨rec, hlast, hlen, hu2, hok2, hasF, hconv⟩
    · subst hlogs hasF hrepsF hst
      exact ⟨_, rfl, rfl, rfl, hok, rfl, fun h => by cases h⟩
    · refine ⟨rec, ?_, by rw [hlen, hl2], hu2, hok2, hasF, hconv⟩
      cases logs with
      | nil => simp at hlast
      | cons x xs => simpa [List.getLast?_cons_cons] using hlast

theorem meansUpdate_length (points : List (Point α)) (k : Int) :
    ∀ as cs cs2, meansUpdate points k as cs = .ok cs2 → cs2.length = cs.length := by
  intro as cs cs2 h
  obtain ⟨cs3, h1, h2, _⟩ := meansUpdate_spec points k as cs
  rw [h1] at h
  cases h
  exact h2

theorem medoidsUpdate_length (sqrt : α → α) (points : List (Point α)) (k : Int) :
    ∀ as ms ms2, medoidsUpdate sqrt points k as ms = .ok ms2 → ms2.length = ms.length := by
  intro as ms ms2 h
  obtain ⟨ms3, h1, h2, _⟩ := medoidsUpdate_spec sqrt points k as ms
  rw [h1] at h
  cases h
  exact h2

/-- Every run of `kMeans` that returns has a trace from the seeded centroids. -/
theorem kMeansRun_trace {sqrt : α → α} {points : List (Point α)} {k maxIter : Int}
    {r : MeansResult α} {st : Status} (h : kMeansRun sqrt points k maxIter = .ok (r, st)) :
    Trace sqrt points k "kmeans" (meansUpdate points k) maxIter.toNat 0 (slice0 points k)
      (List.replicate points.length (-1)) r.logs r.assignments r.centroids st := by
  obtain ⟨newLogs, hl, htr⟩ := kMeansLoop_trace sqrt points k _ _ _ _ _ _ _ (by simp) h
  simp only [List.nil_append] at hl
  rw [hl]; exact htr

/-- Every run of `kMedoids` that returns has a trace from the seeded medoids. -/
theorem kMedoidsRun_trace {sqrt : α → α} {points : List (Point α)} {k maxIter : Int}
    {r : MedoidsResult α} {st : Status} (h : kMedoidsRun sqrt points k maxIter = .ok (r, st)) :
    Trace sqrt points k "kmedoids" (medoidsUpdate sqrt points k) maxIter.toNat 0
      (slice0 points k) (List.replicate points.length (-1)) r.logs r.assignments r.medoids
      st := by
  obtain ⟨newLogs, hl, htr⟩ := kMedoidsLoop_trace sqrt points k _ _ _ _ _ _ _ (by simp) h
  simp only [List.nil_append] at hl
  rw [hl]; exact htr

/-- Within the preconditions `kMeans` returns. -/
theorem kMeansRun_ok (sqrt : α → α) (points : List (Point α)) (k maxIter : Int)
    (h : points = [] ∨ k ≤ points.length) :
    ∃ r st, kMeansRun sqrt points k maxIter = .ok (r, st) := by
  apply kMeansLoop_total sqrt points k _ _ _ _ _ (by simp)
  rcases h with h | h
  · exact Or.inl h
  · right
    by_cases h0 : 0 ≤ k
    · rw [slice0_length points k h0 (by omega)]
    · omega

/-- Within the preconditions `kMedoids` returns. -/
theorem kMedoidsRun_ok (sqrt : α → α) (points : List (Point α)) (k maxIter : Int)
    (h : points = [] ∨ k ≤ points.length) :
    ∃ r st, kMedoidsRun sqrt points k maxIter = .ok (r, st) := by
  apply kMedoidsLoop_total sqrt points k _ _ _ _ _ (by simp)
  rcases h with h | h
  · exact Or.inl h
  · right
    by_cases h0 : 0 ≤ k
    · rw [slice0_length points k h0 (by omega)]
    · omega

theorem kMeans_of_run {sqrt : α → α} {points : List (Point α)} {k maxIter : Int}
    {r : MeansResult α} {st : Status} (h : kMeansRun sqrt points k maxIter = .ok (r, st)) :
    kMeans sqrt points k maxIter = .ok r := by
  simp [kMeans, h, Except.map]

theorem kMedoids_of_run {sqrt : α → α} {points : List (Point α)} {k maxIter : Int}
    {r : MedoidsResult α} {st : Status} (h : kMedoidsRun sqrt points k maxIter = .ok (r, st)) :
    kMedoids sqrt points k maxIter = .ok r := by
  simp [kMedoids, h, Except.map]

/-! ### Precondition violations (C1, C2) -/

theorem assignLoop_error_of_head (sqrt : α → α) (reps : List (Point α)) (k : Int)
    (p : Point α) (ps : List (Point α)) (i : Nat) (as : List Int) (ch : Bool)
    (hk : reps.length < k.toNat) :
    assignLoop sqrt reps k (p :: ps) i as ch = .error .typeError := by
  unfold assignLoop
  rw [nearest_error sqrt p reps k hk]

theorem slice0_length_le {β : Type} (xs : List β) (k : Int) :
    (slice0 xs k).length ≤ xs.length := by
  unfold slice0
  split <;> simp

theorem near_nonpos (sqrt : α → α) (reps : List (Point α)) (k : Int) (hk : k ≤ 0)
    (p : Point α) : near sqrt reps k p = -1 :=
  near_of_ok (nearest_nonpos sqrt p reps k hk)

theorem map_near_nonpos (sqrt : α → α) (reps : List (Point α)) (k : Int) (hk : k ≤ 0)
    (points : List (Point α)) :
    points.map (near sqrt reps k) = List.replicate points.length (-1) := by
  induction points with
  | nil => rfl
  | cons p ps ih => simp [List.replicate_succ, near_nonpos sqrt reps k hk p, ih]

/-- C1 (amended). With `maxIter ≥ 1`: for a non-empty point list and
`k > points.length`, `kMeans` and `kMedoids` both fail with the `TypeError`
of the first assignment pass and return no result; for `k ≤ 0` they do not
fail but return all assignments `-1`, the representatives
`points.slice(0, k)` and a log of one record (iteration 0, `initial` equal to
`updated`). -/
theorem C1_invalid_cluster_count (sqrt : α → α) (points : List (Point α)) (k maxIter : Int)
    (hm : 1 ≤ maxIter) :
    (points ≠ [] → (points.length : Int) < k →
      kMeans sqrt points k maxIter = .error .typeError ∧
      kMedoids sqrt points k maxIter = .error .typeError) ∧
    (k ≤ 0 →
      kMeans sqrt points k maxIter = .ok ⟨List.replicate points.length (-1), slice0 points k,
        [⟨0, "kmeans", slice0 points k, slice0 points k⟩]⟩ ∧
      kMedoids sqrt points k maxIter = .ok ⟨List.replicate points.length (-1), slice0 points k,
        [⟨0, "kmedoids", slice0 points k, slice0 points k⟩]⟩) := by
  obtain ⟨n, hn⟩ : ∃ n, maxIter.toNat = n + 1 := ⟨maxIter.toNat - 1, by omega⟩
  refine ⟨fun hne hk => ?_, fun hk => ?_⟩
  · obtain ⟨p, ps, rfl⟩ := List.exists_cons_of_ne_nil hne
    have hlen : (slice0 (p :: ps) k).length < k.toNat := by
      have := slice0_length_le (p :: ps) k
      omega
    constructor
    · simp only [kMeans, kMeansRun, hn, kMeansLoop]
      rw [assignLoop_error_of_head sqrt _ k p ps _ _ _ hlen]
      rfl
    · simp only [kMedoids, kMedoidsRun, hn, kMedoidsLoop]
      rw [assignLoop_error_of_head sqrt _ k p ps _ _ _ hlen]
      rfl
  · have ha := assignLoop_eq sqrt (slice0 points k) k points []
      (List.replicate points.length (-1)) false (by simp)
      (fun p _ => by rw [nearest_nonpos sqrt p _ k hk, near_nonpos sqrt _ k hk p])
    simp only [List.nil_append, Bool.false_or, List.length_nil,
      map_near_nonpos sqrt _ k hk points, ne_eq, not_true_eq_false, decide_False] at ha
    constructor
    · simp only [kMeans, kMeansRun, hn, kMeansLoop, ha]
      rfl
    · simp only [kMedoids, kMedoidsRun, hn, kMedoidsLoop, ha]
      rfl

/-- C1, witness: one point with `k = 2` fails, one point with `k = 0` returns. -/
theorem C1_invalid_cluster_count_witness :
    (kMeans Real.sqrt [((0 : ℝ), (0 : ℝ))] 2 100 = .error .typeError ∧
      kMedoids Real.sqrt [((0 : ℝ), (0 : ℝ))] 2 100 = .error .typeError) ∧
    (kMeans Real.sqrt [((0 : ℝ), (0 : ℝ))] 0 100 =
        .ok ⟨List.replicate 1 (-1), slice0 [((0 : ℝ), (0 : ℝ))] 0,
          [⟨0, "kmeans", slice0 [((0 : ℝ), (0 : ℝ))] 0, slice0 [((0 : ℝ), (0 : ℝ))] 0⟩]⟩ ∧
      kMedoids Real.sqrt [((0 : ℝ), (0 : ℝ))] 0 100 =
        .ok ⟨List.replicate 1 (-1), slice0 [((0 : ℝ), (0 : ℝ))] 0,
          [⟨0, "kmedoids", slice0 [((0 : ℝ), (0 : ℝ))] 0, slice0 [((0 : ℝ), (0 : ℝ))] 0⟩]⟩) :=
  ⟨(C1_invalid_cluster_count Real.sqrt [((0 : ℝ), (0 : ℝ))] 2 100 (by decide)).1
      (by simp) (by decide),
    (C1_invalid_cluster_count Real.sqrt [((0 : ℝ), (0 : ℝ))] 0 100 (by decide)).2
      (by decide)⟩

/-- C1, counterexample: for the two points `[0, 0]`, `[1, 0]` and `k = 0`
(and for `k = -1`) `kMeans` and `kMedoids` return a result instead of
failing. -/
theorem C1_counterexample :
    kMeans Real.sqrt [((0 : ℝ), (0 : ℝ)), (1, 0)] 0 100 =
        .ok ⟨[-1, -1], [], [⟨0, "kmeans", [], []⟩]⟩ ∧
    kMedoids Real.sqrt [((0 : ℝ), (0 : ℝ)), (1, 0)] 0 100 =
        .ok ⟨[-1, -1], [], [⟨0, "kmedoids", [], []⟩]⟩ ∧
    kMeans Real.sqrt [((0 : ℝ), (0 : ℝ)), (1, 0)] (-1) 100 =
        .ok ⟨[-1, -1], [(0, 0)], [⟨0, "kmeans", [(0, 0)], [(0, 0)]⟩]⟩ ∧
    kMedoids Real.sqrt [((0 : ℝ), (0 : ℝ)), (1, 0)] (-1) 100 =
        .ok ⟨[-1, -1], [(0, 0)], [⟨0, "kmedoids", [(0, 0)], [(0, 0)]⟩]⟩ :=
  ⟨rfl, rfl, rfl, rfl⟩

/-- C2 (amended). On the empty point list `kMeans` and `kMedoids` do not fail,
whatever `k` and `maxIter` are: they return no assignment, no representative,
and a log that holds one record (iteration 0, empty snapshots) when
`maxIter ≥ 1` and no record otherwise. -/
theorem C2_empty_input (sqrt : α → α) (k maxIter : Int) :
    kMeans sqrt [] k maxIter =
        .ok ⟨[], [], if 1 ≤ maxIter then [⟨0, "kmeans", [], []⟩] else []⟩ ∧
    kMedoids sqrt [] k maxIter =
        .ok ⟨[], [], if 1 ≤ maxIter then [⟨0, "kmedoids", [], []⟩] else []⟩ := by
  have hs : slice0 ([] : List (Point α)) k = [] := by unfold slice0; split <;> simp
  by_cases hm : 1 ≤ maxIter
  · obtain ⟨n, hn⟩ : ∃ n, maxIter.toNat = n + 1 := ⟨maxIter.toNat - 1, by omega⟩
    simp only [kMeans, kMedoids, kMeansRun, kMedoidsRun, hn, hs, kMeansLoop, kMedoidsLoop,
      assignLoop, if_pos hm]
    exact ⟨rfl, rfl⟩
  · have hn : maxIter.toNat = 0 := by omega
    simp only [kMeans, kMedoids, kMeansRun, kMedoidsRun, hn, hs, kMeansLoop, kMedoidsLoop,
      if_neg hm]
    exact ⟨rfl, rfl⟩

/-- C2, counterexample: on the empty point list with `k = 3`, `maxIter = 100`
both functions return a result. -/
theorem C2_counterexample :
    kMeans Real.sqrt ([] : List (Point ℝ)) 3 100 = .ok ⟨[], [], [⟨0, "kmeans", [], []⟩]⟩ ∧
    kMedoids Real.sqrt ([] : List (Point ℝ)) 3 100 =
      .ok ⟨[], [], [⟨0, "kmedoids", [], []⟩]⟩ :=
  ⟨rfl, rfl⟩

/-! ### Runs within the preconditions (C3 to C7) -/

/-- What the last assignment pass leaves, for a run of at least one iteration
from `k.toNat` representatives. -/
theorem Trace.final_assignments {sqrt : α → α} {points : List (Point α)} {k : Int}
    {tag : String} {upd : List Int → List (Point α) → Except Err (List (Point α))}
    (hupd : ∀ as cs cs2, upd as cs = .ok cs2 → cs2.length = cs.length)
    {n iter : Nat} {reps : List (Point α)} {as : List Int} {logs : List (LogRec α)}
    {asF : List Int} {repsF : List (Point α)} {st : Status}
    (h : Trace sqrt points k tag upd n iter reps as logs asF repsF st)
    (hn : n ≠ 0) (hk1 : 1 ≤ k) (hlen : reps.length = k.toNat) :
    ∃ rec, logs.getLast? = some rec ∧ rec.initial.length = k.toNat ∧ rec.updated = repsF ∧
      repsF.length = k.toNat ∧
      asF.length = points.length ∧
      (st = .Converged → rec.initial = rec.updated) ∧
      ∀ (i : Nat) (p : Point α), points[i]? = some p →
        ∃ c : Nat, asF[i]? = some (c : Int) ∧ FirstMin sqrt p rec.initial k.toNat c := by
  obtain ⟨hl, hlast⟩ := Trace.last hupd h
  rcases hlast with ⟨h0, _⟩ | ⟨rec, hlast, hlen2, hu, _, hasF, hconv⟩
  · exact absurd h0 hn
  · refine ⟨rec, hlast, by rw [hlen2, hlen], hu, by rw [hl, hlen], ?_, hconv, ?_⟩
    · rw [hasF]; simp [nearestAll]
    · intro i p hp
      obtain ⟨c, hc, hfm⟩ := nearest_spec sqrt p rec.initial k (by omega)
        (by rw [hlen2, hlen])
      refine ⟨c, ?_, hfm⟩
      rw [hasF]
      simp [nearestAll, hp, near_of_ok hc]

theorem FirstMin.lt {sqrt : α → α} {p : Point α} {reps : List (Point α)} {c b : Nat}
    (h : FirstMin sqrt p reps c b) : b < c := h.1

/-- C3. For a non-empty point list, `1 ≤ k ≤ points.length` and `maxIter ≥ 1`,
`kMeans` and `kMedoids` return a result: no error branch of the embedding (the
read of an out-of-range representative, a mean over an empty cluster) is
reached. The returned arrays have the lengths all indices are bounded by: one
assignment per point, `k` representatives. -/
theorem C3_no_runtime_failure (sqrt : α → α) (points : List (Point α)) (k maxIter : Int)
    (_hne : points ≠ []) (hk1 : 1 ≤ k) (hk : k ≤ points.length) (hm : 1 ≤ maxIter) :
    (∃ r, kMeans sqrt points k maxIter = .ok r ∧
      r.assignments.length = points.length ∧ r.centroids.length = k.toNat) ∧
    (∃ r, kMedoids sqrt points k maxIter = .ok r ∧
      r.assignments.length = points.length ∧ r.medoids.length = k.toNat) := by
  have hs : (slice0 points k).length = k.toNat := slice0_length points k (by omega) (by omega)
  obtain ⟨r, st, h⟩ := kMeansRun_ok sqrt points k maxIter (Or.inr hk)
  obtain ⟨r2, st2, h2⟩ := kMedoidsRun_ok sqrt points k maxIter (Or.inr hk)
  obtain ⟨_, _, _, _, hc, ha, _⟩ := Trace.final_assignments
    (meansUpdate_length points k) (kMeansRun_trace h) (by omega) hk1 hs
  obtain ⟨_, _, _, _, hc2, ha2, _⟩ := Trace.final_assignments
    (medoidsUpdate_length sqrt points k) (kMedoidsRun_trace h2) (by omega) hk1 hs
  exact ⟨⟨r, kMeans_of_run h, ha, hc⟩, ⟨r2, kMedoids_of_run h2, ha2, hc2⟩⟩

/-- C3, witness: three points, `k = 2`, the default budget. -/
theorem C3_no_runtime_failure_witness :
    (∃ r, kMeans Real.sqrt [((1 : ℝ), (0 : ℝ)), (2, 0), (6, 0)] 2 100 = .ok r ∧
      r.assignments.length = [((1 : ℝ), (0 : ℝ)), (2, 0), (6, 0)].length ∧
      r.centroids.length = (2 : Int).toNat) ∧
    (∃ r, kMedoids Real.sqrt [((1 : ℝ), (0 : ℝ)), (2, 0), (6, 0)] 2 100 = .ok r ∧
      r.assignments.length = [((1 : ℝ), (0 : ℝ)), (2, 0), (6, 0)].length ∧
      r.medoids.length = (2 : Int).toNat) :=
  C3_no_runtime_failure Real.sqrt [((1 : ℝ), (0 : ℝ)), (2, 0), (6, 0)] 2 100
    (by simp) (by decide) (by decide) (by decide)

/-- C4 (amended). Over exact arithmetic, within the preconditions the
assignments returned by `kMeans` and by `kMedoids` have one entry per point,
each an index in `[0, k-1]` (so none is `-1`). -/
theorem C4_assignments_in_range (sqrt : α → α) (points : List (Point α)) (k maxIter : Int)
    (_hne : points ≠ []) (hk1 : 1 ≤ k) (hk : k ≤ points.length) (hm : 1 ≤ maxIter) :
    (∃ r, kMeans sqrt points k maxIter = .ok r ∧ r.assignments.length = points.length ∧
      ∀ a ∈ r.assignments, 0 ≤ a ∧ a ≤ k - 1) ∧
    (∃ r, kMedoids sqrt points k maxIter = .ok r ∧ r.assignments.length = points.length ∧
      ∀ a ∈ r.assignments, 0 ≤ a ∧ a ≤ k - 1) := by
  have hs : (slice0 points k).length = k.toNat := slice0_length points k (by omega) (by omega)
  have key : ∀ (asF : List Int) (R : List (Point α)), asF.length = points.length →
      (∀ (i : Nat) (p : Point α), points[i]? = some p →
        ∃ c : Nat, asF[i]? = some (c : Int) ∧ FirstMin sqrt p R k.toNat c) →
      ∀ a ∈ asF, 0 ≤ a ∧ a ≤ k - 1 := by
    intro asF R hlen hall a ha
    obtain ⟨i, hi, rfl⟩ := List.getElem_of_mem ha
    have hip : i < points.length := by omega
    obtain ⟨c, hc, hfm⟩ := hall i points[i] (List.getElem?_eq_getElem hip)
    rw [List.getElem?_eq_getElem hi] at hc
    have hc2 : asF[i] = (c : Int) := Option.some.inj hc
    have := hfm.lt
    rw [hc2]
    omega
  constructor
  · obtain ⟨r, st, h⟩ := kMeansRun_ok sqrt points k maxIter (Or.inr hk)
    obtain ⟨rec, _, _, _, _, hlen, _, hall⟩ := Trace.final_assignments
      (meansUpdate_length points k) (kMeansRun_trace h) (by omega) hk1 hs
    exact ⟨r, kMeans_of_run h, hlen, key _ _ hlen hall⟩
  · obtain ⟨r, st, h⟩ := kMedoidsRun_ok sqrt points k maxIter (Or.inr hk)
    obtain ⟨rec, _, _, _, _, hlen, _, hall⟩ := Trace.final_assignments
      (medoidsUpdate_length sqrt points k) (kMedoidsRun_trace h) (by omega) hk1 hs
    exact ⟨r, kMedoids_of_run h, hlen, key _ _ hlen hall⟩

/-- C4, witness: three points, `k = 2`, the default budget. -/
theorem C4_assignments_in_range_witness :
    (∃ r, kMeans Real.sqrt [((0 : ℝ), (0 : ℝ)), (1, 0), (5, 0)] 2 100 = .ok r ∧
      r.assignments.length = [((0 : ℝ), (0 : ℝ)), (1, 0), (5, 0)].length ∧
      ∀ a ∈ r.assignments, 0 ≤ a ∧ a ≤ 2 - 1) ∧
    (∃ r, kMedoids Real.sqrt [((0 : ℝ), (0 : ℝ)), (1, 0), (5, 0)] 2 100 = .ok r ∧
      r.assignments.length = [((0 : ℝ), (0 : ℝ)), (1, 0), (5, 0)].length ∧
      ∀ a ∈ r.assignments, 0 ≤ a ∧ a ≤ 2 - 1) :=
  C4_assignments_in_range Real.sqrt [((0 : ℝ), (0 : ℝ)), (1, 0), (5, 0)] 2 100
    (by simp) (by decide) (by decide) (by decide)

/-- C6 (amended). Over exact arithmetic, within the preconditions, each
returned `assignments[i]` is the least index `c` in `[0, k-1]` minimising
`distance(points[i], R[c])`, where `R`, of length `k`, is the `initial`
snapshot of the last log record: no index is strictly closer and every lower
index is strictly farther. -/
theorem C6_lowest_index_wins (sqrt : α → α) (points : List (Point α)) (k maxIter : Int)
    (_hne : points ≠ []) (hk1 : 1 ≤ k) (hk : k ≤ points.length) (hm : 1 ≤ maxIter) :
    (∃ r, kMeans sqrt points k maxIter = .ok r ∧
      ∃ rec, r.logs.getLast? = some rec ∧ rec.initial.length = k.toNat ∧
        ∀ (i : Nat) (p : Point α), points[i]? = some p →
          ∃ c : Nat, r.assignments[i]? = some (c : Int) ∧
            FirstMin sqrt p rec.initial k.toNat c) ∧
    (∃ r, kMedoids sqrt points k maxIter = .ok r ∧
      ∃ rec, r.logs.getLast? = some rec ∧ rec.initial.length = k.toNat ∧
        ∀ (i : Nat) (p : Point α), points[i]? = some p →
          ∃ c : Nat, r.assignments[i]? = some (c : Int) ∧
            FirstMin sqrt p rec.initial k.toNat c) := by
  have hs : (slice0 points k).length = k.toNat := slice0_length points k (by omega) (by omega)
  constructor
  · obtain ⟨r, st, h⟩ := kMeansRun_ok sqrt points k maxIter (Or.inr hk)
    obtain ⟨rec, hlast, hlen, _, _, _, _, hall⟩ := Trace.final_assignments
      (meansUpdate_length points k) (kMeansRun_trace h) (by omega) hk1 hs
    exact ⟨r, kMeans_of_run h, rec, hlast, hlen, hall⟩
  · obtain ⟨r, st, h⟩ := kMedoidsRun_ok sqrt points k maxIter (Or.inr hk)
    obtain ⟨rec, hlast, hlen, _, _, _, _, hall⟩ := Trace.final_assignments
      (medoidsUpdate_length sqrt points k) (kMedoidsRun_trace h) (by omega) hk1 hs
    exact ⟨r, kMedoids_of_run h, rec, hlast, hlen, hall⟩

/-- C6, witness: three points, `k = 2`, the default budget. -/
theorem C6_lowest_index_wins_witness :
    (∃ r, kMeans Real.sqrt [((0 : ℝ), (0 : ℝ)), (1, 0), (5, 0)] 2 100 = .ok r ∧
      ∃ rec, r.logs.getLast? = some rec ∧ rec.initial.length = (2 : Int).toNat ∧
        ∀ (i : Nat) (p : Point ℝ), [((0 : ℝ), (0 : ℝ)), (1, 0), (5, 0)][i]? = some p →
          ∃ c : Nat, r.assignments[i]? = some (c : Int) ∧
            FirstMin Real.sqrt p rec.initial (2 : Int).toNat c) ∧
    (∃ r, kMedoids Real.sqrt [((0 : ℝ), (0 : ℝ)), (1, 0), (5, 0)] 2 100 = .ok r ∧
      ∃ rec, r.logs.getLast? = some rec ∧ rec.initial.length = (2 : Int).toNat ∧
        ∀ (i : Nat) (p : Point ℝ), [((0 : ℝ), (0 : ℝ)), (1, 0), (5, 0)][i]? = some p →
          ∃ c : Nat, r.assignments[i]? = some (c : Int) ∧
            FirstMin Real.sqrt p rec.initial (2 : Int).toNat c) :=
  C6_lowest_index_wins Real.sqrt [((0 : ℝ), (0 : ℝ)), (1, 0), (5, 0)] 2 100
    (by simp) (by decide) (by decide) (by decide)

theorem FirstMin.nearestAmong {sqrt : α → α} {points R : List (Point α)} {as : List Int}
    {K : Nat} (hlen : R.length = K)
    (h : ∀ (i : Nat) (p : Point α), points[i]? = some p →
      ∃ c : Nat, as[i]? = some (c : Int) ∧ FirstMin sqrt p R K c) :
    NearestAmong sqrt points R as := by
  intro i p hp
  obtain ⟨c, hc, _, rc, hrc, hmin, _⟩ := h i p hp
  refine ⟨c, rc, hc, hrc, fun r hr => not_lt.2 ?_⟩
  obtain ⟨j, hj, rfl⟩ := List.getElem_of_mem hr
  exact hmin j R[j] (by omega) (List.getElem?_eq_getElem hj)

/-- C5 (amended). Over exact arithmetic, within the preconditions, each
returned `assignments[i]` is the index of a representative nearest to
`points[i]` among the representatives of the `initial` snapshot of the last
log record (those the last assignment pass used); when the run converged
these are the returned final representatives, so that no returned
representative is strictly closer. -/
theorem C5_nearest_representative (sqrt : α → α) (points : List (Point α))
    (k maxIter : Int) (_hne : points ≠ []) (hk1 : 1 ≤ k) (hk : k ≤ points.length)
    (hm : 1 ≤ maxIter) :
    (∃ r st, kMeansRun sqrt points k maxIter = .ok (r, st) ∧
      kMeans sqrt points k maxIter = .ok r ∧
      ∃ rec, r.logs.getLast? = some rec ∧
        NearestAmong sqrt points rec.initial r.assignments ∧
        (st = .Converged → NearestAmong sqrt points r.centroids r.assignments)) ∧
    (∃ r st, kMedoidsRun sqrt points k maxIter = .ok (r, st) ∧
      kMedoids sqrt points k maxIter = .ok r ∧
      ∃ rec, r.logs.getLast? = some rec ∧
        NearestAmong sqrt points rec.initial r.assignments ∧
        (st = .Converged → NearestAmong sqrt points r.medoids r.assignments)) := by
  have hs : (slice0 points k).length = k.toNat := slice0_length points k (by omega) (by omega)
  constructor
  · obtain ⟨r, st, h⟩ := kMeansRun_ok sqrt points k maxIter (Or.inr hk)
    obtain ⟨rec, hlast, hlen, hu, _, _, hconv, hall⟩ := Trace.final_assignments
      (meansUpdate_length points k) (kMeansRun_trace h) (by omega) hk1 hs
    have hn := FirstMin.nearestAmong hlen hall
    refine ⟨r, st, h, kMeans_of_run h, rec, hlast, hn, fun hst => ?_⟩
    rw [← hu, ← hconv hst]; exact hn
  · obtain ⟨r, st, h⟩ := kMedoidsRun_ok sqrt points k maxIter (Or.inr hk)
    obtain ⟨rec, hlast, hlen, hu, _, _, hconv, hall⟩ := Trace.final_assignments
      (medoidsUpdate_length sqrt points k) (kMedoidsRun_trace h) (by omega) hk1 hs
    have hn := FirstMin.nearestAmong hlen hall
    refine ⟨r, st, h, kMedoids_of_run h, rec, hlast, hn, fun hst => ?_⟩
    rw [← hu, ← hconv hst]; exact hn

/-- On the first axis the distance is the absolute difference. -/
theorem distance_axis (a b : ℝ) : distance Real.sqrt (a, 0) (b, 0) = |a - b| := by
  simp [distance, Real.sqrt_sq_eq_abs]

/-- The run of `kMeans` on `[1,0], [2,0], [6,0]` with `k = 2` and a budget of
one iteration. -/
theorem kMeansRun_budget_example :
    kMeansRun Real.sqrt [((1 : ℝ), (0 : ℝ)), (2, 0), (6, 0)] 2 1 =
      .ok (⟨[0, 1, 1], [(1, 0), (4, 0)],
        [⟨0, "kmeans", [(1, 0), (2, 0)], [(1, 0), (4, 0)]⟩]⟩, .BudgetExhausted) := by
  have n0 : nearest Real.sqrt ((1 : ℝ), (0 : ℝ)) [(1, 0), (2, 0)] 2 = .ok 0 := by
    simp only [nearest, nearestLoop, ltInf]
    norm_num [distance_axis]
  have n1 : nearest Real.sqrt ((2 : ℝ), (0 : ℝ)) [(1, 0), (2, 0)] 2 = .ok 1 := by
    simp only [nearest, nearestLoop, ltInf]
    norm_num [distance_axis]
  have n2 : nearest Real.sqrt ((6 : ℝ), (0 : ℝ)) [(1, 0), (2, 0)] 2 = .ok 1 := by
    simp only [nearest, nearestLoop, ltInf]
    norm_num [distance_axis]
  have ha : assignLoop Real.sqrt [((1 : ℝ), (0 : ℝ)), (2, 0)] 2
      [((1 : ℝ), (0 : ℝ)), (2, 0), (6, 0)] 0 [-1, -1, -1] false = .ok ([0, 1, 1], true) := by
    simp [assignLoop, n0, n1, n2]
  have hu : updateCentroidsLoop [((1 : ℝ), (0 : ℝ)), (2, 0), (6, 0)] [0, 1, 1] 2 0
      [(1, 0), (2, 0)] = .ok [(1, 0), (4, 0)] := by
    simp [updateCentroidsLoop, assignedPoints, filterIdx, sumBy, checkedDiv]
    norm_num
  have hs : slice0 [((1 : ℝ), (0 : ℝ)), (2, 0), (6, 0)] 2 = [(1, 0), (2, 0)] := by
    simp [slice0]
  simp only [kMeansRun, hs]
  show kMeansLoop Real.sqrt _ 2 1 0 _ [-1, -1, -1] [] = _
  simp only [kMeansLoop, ha]
  simp [hu]

/-- C5, witness: three points, `k = 2`, the default budget. -/
theorem C5_nearest_representative_witness :
    (∃ r st, kMeansRun Real.sqrt [((1 : ℝ), (0 : ℝ)), (2, 0), (6, 0)] 2 100 = .ok (r, st) ∧
      kMeans Real.sqrt [((1 : ℝ), (0 : ℝ)), (2, 0), (6, 0)] 2 100 = .ok r ∧
      ∃ rec, r.logs.getLast? = some rec ∧
        NearestAmong Real.sqrt [((1 : ℝ), (0 : ℝ)), (2, 0), (6, 0)] rec.initial
          r.assignments ∧
        (st = .Converged →
          NearestAmong Real.sqrt [((1 : ℝ), (0 : ℝ)), (2, 0), (6, 0)] r.centroids
            r.assignments)) ∧
    (∃ r st, kMedoidsRun Real.sqrt [((1 : ℝ), (0 : ℝ)), (2, 0), (6, 0)] 2 100 = .ok (r, st) ∧
      kMedoids Real.sqrt [((1 : ℝ), (0 : ℝ)), (2, 0), (6, 0)] 2 100 = .ok r ∧
      ∃ rec, r.logs.getLast? = some rec ∧
        NearestAmong Real.sqrt [((1 : ℝ), (0 : ℝ)), (2, 0), (6, 0)] rec.initial
          r.assignments ∧
        (st = .Converged →
          NearestAmong Real.sqrt [((1 : ℝ), (0 : ℝ)), (2, 0), (6, 0)] r.medoids
            r.assignments)) :=
  C5_nearest_representative Real.sqrt [((1 : ℝ), (0 : ℝ)), (2, 0), (6, 0)] 2 100
    (by simp) (by decide) (by decide) (by decide)

/-- C7. Within the preconditions the first log record of `kMeans` and of
`kMedoids` is that of iteration 0 and its `initial` snapshot is the first `k`
input points in input order: it has length `k` and its entry `i` is
`points[i]`. -/
theorem C7_seeded_from_first_k (sqrt : α → α) (points : List (Point α)) (k maxIter : Int)
    (hk1 : 1 ≤ k) (hk : k ≤ points.length) (hm : 1 ≤ maxIter) :
    (∃ r, kMeans sqrt points k maxIter = .ok r ∧
      ∃ rec, r.logs[0]? = some rec ∧ rec.iter = 0 ∧ rec.initial = points.take k.toNat ∧
        rec.initial.length = k.toNat ∧
        ∀ i : Nat, i < k.toNat → rec.initial[i]? = points[i]?) ∧
    (∃ r, kMedoids sqrt points k maxIter = .ok r ∧
      ∃ rec, r.logs[0]? = some rec ∧ rec.iter = 0 ∧ rec.initial = points.take k.toNat ∧
        rec.initial.length = k.toNat ∧
        ∀ i : Nat, i < k.toNat → rec.initial[i]? = points[i]?) := by
  have hs : slice0 points k = points.take k.toNat := slice0_eq_take points k (by omega)
  have hlen : (points.take k.toNat).length = k.toNat := by
    rw [List.length_take]; omega
  have hget : ∀ i : Nat, i < k.toNat → (points.take k.toNat)[i]? = points[i]? :=
    fun i hi => by rw [List.getElem?_take, if_pos hi]
  constructor
  · obtain ⟨r, st, h⟩ := kMeansRun_ok sqrt points k maxIter (Or.inr hk)
    rcases Trace.head (kMeansRun_trace h) with ⟨h0, _⟩ | ⟨rec, rest, hl, hit, _, hinit, _⟩
    · omega
    · refine ⟨r, kMeans_of_run h, rec, by rw [hl]; simp, hit, by rw [hinit, hs], ?_, ?_⟩
      · rw [hinit, hs, hlen]
      · rw [hinit, hs]; exact hget
  · obtain ⟨r, st, h⟩ := kMedoidsRun_ok sqrt points k maxIter (Or.inr hk)
    rcases Trace.head (kMedoidsRun_trace h) with ⟨h0, _⟩ | ⟨rec, rest, hl, hit, _, hinit, _⟩
    · omega
    · refine ⟨r, kMedoids_of_run h, rec, by rw [hl]; simp, hit, by rw [hinit, hs], ?_, ?_⟩
      · rw [hinit, hs, hlen]
      · rw [hinit, hs]; exact hget

/-- C7, witness: three points, `k = 2`, the default budget. -/
theorem C7_seeded_from_first_k_witness :
    (∃ r, kMeans Real.sqrt [((1 : ℝ), (0 : ℝ)), (2, 0), (6, 0)] 2 100 = .ok r ∧
      ∃ rec, r.logs[0]? = some rec ∧ rec.iter = 0 ∧
        rec.initial = [((1 : ℝ), (0 : ℝ)), (2, 0), (6, 0)].take (2 : Int).toNat ∧
        rec.initial.length = (2 : Int).toNat ∧
        ∀ i : Nat, i < (2 : Int).toNat →
          rec.initial[i]? = [((1 : ℝ), (0 : ℝ)), (2, 0), (6, 0)][i]?) ∧
    (∃ r, kMedoids Real.sqrt [((1 : ℝ), (0 : ℝ)), (2, 0), (6, 0)] 2 100 = .ok r ∧
      ∃ rec, r.logs[0]? = some rec ∧ rec.iter = 0 ∧
        rec.initial = [((1 : ℝ), (0 : ℝ)), (2, 0), (6, 0)].take (2 : Int).toNat ∧
        rec.initial.length = (2 : Int).toNat ∧
        ∀ i : Nat, i < (2 : Int).toNat →
          rec.initial[i]? = [((1 : ℝ), (0 : ℝ)), (2, 0), (6, 0)][i]?) :=
  C7_seeded_from_first_k Real.sqrt [((1 : ℝ), (0 : ℝ)), (2, 0), (6, 0)] 2 100
    (by decide) (by decide) (by decide)

/-! ### Converged runs (C8) and medoid membership (C9) -/

theorem Trace.converged_last {sqrt : α → α} {points : List (Point α)} {k : Int}
    {tag : String} {upd : List Int → List (Point α) → Except Err (List (Point α))}
    (hupd : ∀ as cs cs2, upd as cs = .ok cs2 → cs2.length = cs.length)
    {n iter : Nat} {reps : List (Point α)} {as : List Int} {logs : List (LogRec α)}
    {asF : List Int} {repsF : List (Point α)}
    (h : Trace sqrt points k tag upd n iter reps as logs asF repsF .Converged) :
    ∃ rec, logs.getLast? = some rec ∧ rec.initial = rec.updated ∧ rec.updated = repsF := by
  rcases (Trace.last hupd h).2 with ⟨_, _, _, _, hst⟩ | ⟨rec, hlast, _, hu, _, _, hconv⟩
  · cases hst
  · exact ⟨rec, hlast, hconv rfl, hu⟩

/-- C8. For every run of `kMeans` or `kMedoids` that is left in state
`Converged` (an assignment pass changed no assignment), the last log record
has `initial` equal to `updated`, and both equal the returned final
representatives. -/
theorem C8_converged_record (sqrt : α → α) (points : List (Point α)) (k maxIter : Int) :
    (∀ r, kMeansRun sqrt points k maxIter = .ok (r, .Converged) →
      kMeans sqrt points k maxIter = .ok r ∧
      ∃ rec, r.logs.getLast? = some rec ∧ rec.initial = rec.updated ∧
        rec.updated = r.centroids) ∧
    (∀ r, kMedoidsRun sqrt points k maxIter = .ok (r, .Converged) →
      kMedoids sqrt points k maxIter = .ok r ∧
      ∃ rec, r.logs.getLast? = some rec ∧ rec.initial = rec.updated ∧
        rec.updated = r.medoids) :=
  ⟨fun _ h => ⟨kMeans_of_run h,
      Trace.converged_last (meansUpdate_length points k) (kMeansRun_trace h)⟩,
    fun _ h => ⟨kMedoids_of_run h,
      Trace.converged_last (medoidsUpdate_length sqrt points k) (kMedoidsRun_trace h)⟩⟩

/-- The run of `kMeans` on `[1,0], [3,0]` with `k = 1`: it converges at
iteration 1. -/
theorem kMeansRun_converged_example :
    kMeansRun Real.sqrt [((1 : ℝ), (0 : ℝ)), (3, 0)] 1 100 =
      .ok (⟨[0, 0], [(2, 0)],
        [⟨0, "kmeans", [(1, 0)], [(2, 0)]⟩, ⟨1, "kmeans", [(2, 0)], [(2, 0)]⟩]⟩,
        .Converged) := by
  have n1 : ∀ p c : Point ℝ, nearest Real.sqrt p [c] 1 = .ok 0 := by
    intro p c; simp [nearest, nearestLoop, ltInf]
  have ha : ∀ c : Point ℝ, assignLoop Real.sqrt [c] 1
      [((1 : ℝ), (0 : ℝ)), (3, 0)] 0 [-1, -1] false = .ok ([0, 0], true) := by
    intro c; simp [assignLoop, n1]
  have ha2 : ∀ c : Point ℝ, assignLoop Real.sqrt [c] 1
      [((1 : ℝ), (0 : ℝ)), (3, 0)] 0 [0, 0] false = .ok ([0, 0], false) := by
    intro c; simp [assignLoop, n1]
  have hu : updateCentroidsLoop [((1 : ℝ), (0 : ℝ)), (3, 0)] [0, 0] 1 0
      [(1, 0)] = .ok [(2, 0)] := by
    simp [updateCentroidsLoop, assignedPoints, filterIdx, sumBy, checkedDiv]
    norm_num
  have hs : slice0 [((1 : ℝ), (0 : ℝ)), (3, 0)] 1 = [(1, 0)] := by
    simp [slice0]
  simp only [kMeansRun, hs]
  have hu2 : updateCentroidsLoop [((1 : ℝ), (0 : ℝ)), (3, 0)] [0, 0] (Int.toNat 1) 0
      [(1, 0)] = .ok [(2, 0)] := hu
  show kMeansLoop Real.sqrt _ 1 100 0 _ [-1, -1] [] = _
  rw [kMeansLoop]
  simp only [ha, hu2, Bool.not_true, Bool.false_eq_true, if_false]
  rw [kMeansLoop]
  simp [ha2]

/-- The run of `kMedoids` on `[1,0], [3,0]` with `k = 1`: it converges at
iteration 1. -/
theorem kMedoidsRun_converged_example :
    kMedoidsRun Real.sqrt [((1 : ℝ), (0 : ℝ)), (3, 0)] 1 100 =
      .ok (⟨[0, 0], [(1, 0)],
        [⟨0, "kmedoids", [(1, 0)], [(1, 0)]⟩, ⟨1, "kmedoids", [(1, 0)], [(1, 0)]⟩]⟩,
        .Converged) := by
  have n1 : ∀ p c : Point ℝ, nearest Real.sqrt p [c] 1 = .ok 0 := by
    intro p c; simp [nearest, nearestLoop, ltInf]
  have ha : ∀ c : Point ℝ, assignLoop Real.sqrt [c] 1
      [((1 : ℝ), (0 : ℝ)), (3, 0)] 0 [-1, -1] false = .ok ([0, 0], true) := by
    intro c; simp [assignLoop, n1]
  have ha2 : ∀ c : Point ℝ, assignLoop Real.sqrt [c] 1
      [((1 : ℝ), (0 : ℝ)), (3, 0)] 0 [0, 0] false = .ok ([0, 0], false) := by
    intro c; simp [assignLoop, n1]
  have hu : updateMedoidsLoop Real.sqrt [((1 : ℝ), (0 : ℝ)), (3, 0)] [0, 0] 1 0
      [(1, 0)] = .ok [(1, 0)] := by
    simp [updateMedoidsLoop, assignedPoints, filterIdx, bestLoop, sumBy, ltInf,
      distance_axis]
    norm_num
  have hs : slice0 [((1 : ℝ), (0 : ℝ)), (3, 0)] 1 = [(1, 0)] := by
    simp [slice0]
  simp only [kMedoidsRun, hs]
  have hu2 : updateMedoidsLoop Real.sqrt [((1 : ℝ), (0 : ℝ)), (3, 0)] [0, 0] (Int.toNat 1) 0
      [(1, 0)] = .ok [(1, 0)] := hu
  show kMedoidsLoop Real.sqrt _ 1 100 0 _ [-1, -1] [] = _
  rw [kMedoidsLoop]
  simp only [ha, hu2, Bool.not_true, Bool.false_eq_true, if_false]
  rw [kMedoidsLoop]
  simp [ha2]

/-- C8, witness: the converged runs on `[1,0], [3,0]` with `k = 1`. -/
theorem C8_converged_record_witness :
    (∃ r, kMeans Real.sqrt [((1 : ℝ), (0 : ℝ)), (3, 0)] 1 100 = .ok r ∧
      ∃ rec, r.logs.getLast? = some rec ∧ rec.initial = rec.updated ∧
        rec.updated = r.centroids) ∧
    (∃ r, kMedoids Real.sqrt [((1 : ℝ), (0 : ℝ)), (3, 0)] 1 100 = .ok r ∧
      ∃ rec, r.logs.getLast? = some rec ∧ rec.initial = rec.updated ∧
        rec.updated = r.medoids) :=
  ⟨⟨_, (C8_converged_record Real.sqrt [((1 : ℝ), (0 : ℝ)), (3, 0)] 1 100).1 _
      kMeansRun_converged_example⟩,
    ⟨_, (C8_converged_record Real.sqrt [((1 : ℝ), (0 : ℝ)), (3, 0)] 1 100).2 _
      kMedoidsRun_converged_example⟩⟩

theorem filterIdx_mem {β : Type} (pred : Nat → Bool) :
    ∀ (l : List β) (i : Nat) (x : β), x ∈ filterIdx pred l i → x ∈ l := by
  intro l
  induction l with
  | nil => intro i x h; simp [filterIdx] at h
  | cons y ys ih =>
    intro i x h
    unfold filterIdx at h
    split at h
    · rcases List.mem_cons.1 h with rfl | h
      · exact List.mem_cons_self _ _
      · exact List.mem_cons_of_mem _ (ih _ _ h)
    · exact List.mem_cons_of_mem _ (ih _ _ h)

theorem assignedPoints_mem {β : Type} (points : List β) (as : List Int) (c : Nat) (x : β)
    (h : x ∈ assignedPoints points as c) : x ∈ points :=
  filterIdx_mem _ points 0 x h

theorem slice0_mem {β : Type} (xs : List β) (k : Int) (x : β) (h : x ∈ slice0 xs k) :
    x ∈ xs := by
  unfold slice0 at h
  split at h <;> exact List.mem_of_mem_take h

/-- The medoid update only ever writes input points. -/
theorem medoidsUpdate_mem (sqrt : α → α) (points : List (Point α)) (k : Int)
    (as : List Int) (ms ms2 : List (Point α))
    (h : medoidsUpdate sqrt points k as ms = .ok ms2) (hms : ∀ x ∈ ms, x ∈ points) :
    ∀ x ∈ ms2, x ∈ points := by
  obtain ⟨ms3, h1, _, h3⟩ := medoidsUpdate_spec sqrt points k as ms
  rw [h1] at h
  cases h
  intro x hx
  obtain ⟨j, hj⟩ := List.mem_iff_getElem?.1 hx
  rw [h3 j] at hj
  split at hj
  · rename_i hc
    obtain ⟨_, y, hy, hmed⟩ := bestLoop_medoidOf sqrt _ hc.2 none
    cases hm : ms[j]? with
    | none => simp [hm] at hj
    | some m =>
      simp only [hm, Option.some_bind, hmed, Option.some.injEq] at hj
      subst hj
      exact assignedPoints_mem _ _ _ _ hy
  · exact hms x (List.mem_iff_getElem?.2 ⟨j, hj⟩)

/-- If the update keeps the representatives inside a set of points, every
snapshot of a trace stays inside it. -/
theorem Trace.mem_points {sqrt : α → α} {points : List (Point α)} {k : Int} {tag : String}
    {upd : List Int → List (Point α) → Except Err (List (Point α))}
    (hupd : ∀ as cs cs2, upd as cs = .ok cs2 → (∀ x ∈ cs, x ∈ points) →
      ∀ x ∈ cs2, x ∈ points)
    {n iter : Nat} {reps : List (Point α)} {as : List Int} {logs : List (LogRec α)}
    {asF : List Int} {repsF : List (Point α)} {st : Status}
    (h : Trace sqrt points k tag upd n iter reps as logs asF repsF st)
    (hreps : ∀ x ∈ reps, x ∈ points) :
    (∀ x ∈ repsF, x ∈ points) ∧
      ∀ rec ∈ logs, (∀ x ∈ rec.initial, x ∈ points) ∧ (∀ x ∈ rec.updated, x ∈ points) := by
  induction h with
  | budget => exact ⟨hreps, fun rec hrec => by simp at hrec⟩
  | converged n iter reps as hok hsame =>
    refine ⟨hreps, fun rec hrec => ?_⟩
    rw [List.mem_singleton] at hrec
    subst hrec
    exact ⟨hreps, hreps⟩
  | step n iter reps reps2 as logs asF repsF st hok hch hu hrest ih =>
    have h2 := hupd _ _ _ hu hreps
    obtain ⟨ihF, ihL⟩ := ih h2
    refine ⟨ihF, fun rec hrec => ?_⟩
    rcases List.mem_cons.1 hrec with rfl | hrec
    · exact ⟨hreps, h2⟩
    · exact ihL rec hrec

/-- C9. For `1 ≤ k ≤ points.length` and every `maxIter ≥ 0`, `kMedoids`
returns, and every medoid it returns, like every representative of every
`initial` and `updated` snapshot of its log, is equal to some input point. -/
theorem C9_medoids_are_input_points (sqrt : α → α) (points : List (Point α))
    (k maxIter : Int) (_hk1 : 1 ≤ k) (hk : k ≤ points.length) (_hm : 0 ≤ maxIter) :
    ∃ r, kMedoids sqrt points k maxIter = .ok r ∧
      (∀ m ∈ r.medoids, m ∈ points) ∧
      ∀ rec ∈ r.logs, (∀ m ∈ rec.initial, m ∈ points) ∧ (∀ m ∈ rec.updated, m ∈ points) := by
  obtain ⟨r, st, h⟩ := kMedoidsRun_ok sqrt points k maxIter (Or.inr hk)
  obtain ⟨h1, h2⟩ := Trace.mem_points (medoidsUpdate_mem sqrt points k)
    (kMedoidsRun_trace h) (slice0_mem points k)
  exact ⟨r, kMedoids_of_run h, h1, h2⟩

/-- C9, witness: three points, `k = 2`, the default budget. -/
theorem C9_medoids_are_input_points_witness :
    ∃ r, kMedoids Real.sqrt [((1 : ℝ), (0 : ℝ)), (2, 0), (6, 0)] 2 100 = .ok r ∧
      (∀ m ∈ r.medoids, m ∈ [((1 : ℝ), (0 : ℝ)), (2, 0), (6, 0)]) ∧
      ∀ rec ∈ r.logs, (∀ m ∈ rec.initial, m ∈ [((1 : ℝ), (0 : ℝ)), (2, 0), (6, 0)]) ∧
        (∀ m ∈ rec.updated, m ∈ [((1 : ℝ), (0 : ℝ)), (2, 0), (6, 0)]) :=
  C9_medoids_are_input_points Real.sqrt [((1 : ℝ), (0 : ℝ)), (2, 0), (6, 0)] 2 100
    (by decide) (by decide) (by decide)

/-! ### The objective of `kMeans` does not increase (C10) -/

theorem foldl_add_eq {β : Type} (f : β → α) (l : List β) (a : α) :
    l.foldl (fun sum p => sum + f p) a = a + (l.map f).sum := by
  induction l generalizing a with
  | nil => simp
  | cons x xs ih => simp [ih, add_assoc]

theorem sumBy_eq_sum {β : Type} (f : β → α) (l : List β) : sumBy f l = (l.map f).sum := by
  simp [sumBy, foldl_add_eq]

theorem sum_sq_sub {β : Type} (f : β → α) (l : List β) (x : α) :
    (l.map (fun p => (f p - x) ^ 2)).sum =
      (l.map (fun p => (f p) ^ 2)).sum - 2 * x * (l.map f).sum + (l.length : α) * x ^ 2 := by
  induction l with
  | nil => simp
  | cons y ys ih =>
    simp only [List.map_cons, List.sum_cons, ih, List.length_cons, Nat.cast_succ]
    ring

/-- The mean minimises the sum of squared deviations. -/
theorem sum_sq_mean_le {β : Type} (f : β → α) (l : List β) (hl : l ≠ []) (x : α) :
    (l.map (fun p => (f p - (l.map f).sum / (l.length : α)) ^ 2)).sum ≤
      (l.map (fun p => (f p - x) ^ 2)).sum := by
  have hn : (0 : α) < (l.length : α) := by
    have : 0 < l.length := List.length_pos.2 hl
    exact_mod_cast this
  rw [sum_sq_sub, sum_sq_sub]
  have key : (l.length : α) * x ^ 2 - 2 * x * (l.map f).sum -
      ((l.length : α) * ((l.map f).sum / (l.length : α)) ^ 2 -
        2 * ((l.map f).sum / (l.length : α)) * (l.map f).sum) =
      ((l.length : α) * x - (l.map f).sum) ^ 2 / (l.length : α) := by
    field_simp
    ring
  have hnn : 0 ≤ ((l.length : α) * x - (l.map f).sum) ^ 2 / (l.length : α) :=
    div_nonneg (sq_nonneg _) hn.le
  linarith

theorem sum_sqDist {l : List (Point α)} (x : Point α) :
    (l.map (fun p => sqDist p x)).sum =
      (l.map (fun p => (p.1 - x.1) ^ 2)).sum + (l.map (fun p => (p.2 - x.2) ^ 2)).sum := by
  induction l with
  | nil => simp
  | cons y ys ih =>
    rw [List.map_cons, List.sum_cons, ih]
    simp only [List.map_cons, List.sum_cons, sqDist]
    ring

/-- The mean of a cluster minimises its sum of squared distances. -/
theorem sum_sqDist_meanOf_le (l : List (Point α)) (hl : l ≠ []) (x : Point α) :
    (l.map (fun p => sqDist p (meanOf l))).sum ≤ (l.map (fun p => sqDist p x)).sum := by
  rw [sum_sqDist, sum_sqDist]
  simp only [meanOf, sumBy_eq_sum]
  exact add_le_add (sum_sq_mean_le (fun p => p.1) l hl x.1)
    (sum_sq_mean_le (fun p => p.2) l hl x.2)

/-- A sum over points splits into the sums over the clusters. -/
theorem sum_by_cluster (g : Point α → Nat) (K : Nat) (F : Point α → Nat → α) :
    ∀ (l : List (Point α)), (∀ p ∈ l, g p < K) →
      (l.map (fun p => F p (g p))).sum =
        ∑ c in Finset.range K, ((l.filter (fun p => decide (g p = c))).map
          (fun p => F p c)).sum := by
  intro l
  induction l with
  | nil => intro _; simp
  | cons y ys ih =>
    intro h
    have hy : g y < K := h y (List.mem_cons_self _ _)
    have ih2 := ih (fun p hp => h p (List.mem_cons_of_mem _ hp))
    simp only [List.map_cons, List.sum_cons, ih2]
    have : ∀ c ∈ Finset.range K,
        (((y :: ys).filter (fun p => decide (g p = c))).map (fun p => F p c)).sum =
          (if g y = c then F y c else 0) +
            ((ys.filter (fun p => decide (g p = c))).map (fun p => F p c)).sum := by
      intro c _
      by_cases hc : g y = c
      · simp [List.filter_cons, hc]
      · simp [List.filter_cons, hc]
    rw [Finset.sum_congr rfl this, Finset.sum_add_distrib, Finset.sum_ite_eq,
      if_pos (Finset.mem_range.2 hy)]

theorem filterIdx_map_eq_filter {β : Type} (h : β → Int) (c : Int) :
    ∀ (l : List β) (pre : List Int),
      filterIdx (fun i => decide ((pre ++ l.map h)[i]? = some c)) l pre.length =
        l.filter (fun p => decide (h p = c)) := by
  intro l
  induction l with
  | nil => intro pre; rfl
  | cons y ys ih =>
    intro pre
    have hget : (pre ++ (y :: ys).map h)[pre.length]? = some (h y) := by
      rw [List.getElem?_append_right (le_refl _)]; simp
    have hrest := ih (pre ++ [h y])
    simp only [List.length_append, List.length_singleton, List.append_assoc,
      List.singleton_append] at hrest
    have hget2 : (pre ++ h y :: ys.map h)[pre.length]? = some (h y) := by
      simpa using hget
    unfold filterIdx
    simp only [List.filter_cons, List.map_cons, hrest, hget2, Option.some.injEq]

/-- After an assignment pass the cluster of index `c` is the list of the
points whose nearest representative is `c`, in input order. -/
theorem assignedPoints_map {β : Type} (h : β → Int) (points : List β) (c : Nat) :
    assignedPoints points (points.map h) c = points.filter (fun p => decide (h p = (c : Int))) := by
  have := filterIdx_map_eq_filter h (c : Int) points []
  simpa [assignedPoints] using this

/-- The centroid update does not increase the sum of squared distances of the
points to the centroids they are assigned to. -/
theorem meansUpdate_objective_le (points : List (Point α)) (k : Int) (h : Point α → Int)
    (cs cs2 : List (Point α)) (hh : ∀ p ∈ points, 0 ≤ h p ∧ (h p).toNat < k.toNat)
    (hlen : cs.length = k.toNat)
    (hu : meansUpdate points k (points.map h) cs = .ok cs2) :
    (points.map (fun p => sqDist p (cs2.getD (h p).toNat p))).sum ≤
      (points.map (fun p => sqDist p (cs.getD (h p).toNat p))).sum := by
  obtain ⟨cs3, h1, _, h3⟩ := meansUpdate_spec points k (points.map h) cs
  rw [h1] at hu
  have hu2 : cs3 = cs2 := by simpa using hu
  subst hu2
  rw [sum_by_cluster (fun p => (h p).toNat) k.toNat (fun p c => sqDist p (cs3.getD c p))
      points (fun p hp => (hh p hp).2),
    sum_by_cluster (fun p => (h p).toNat) k.toNat (fun p c => sqDist p (cs.getD c p))
      points (fun p hp => (hh p hp).2)]
  apply Finset.sum_le_sum
  intro c hc
  have hcK : c < k.toNat := Finset.mem_range.1 hc
  have hcl : assignedPoints points (points.map h) c =
      points.filter (fun p => decide ((h p).toNat = c)) := by
    rw [assignedPoints_map]
    apply List.filter_congr
    intro p hp
    have := (hh p hp).1
    have hiff : (h p = (c : Int)) ↔ ((h p).toNat = c) := by omega
    simp [hiff]
  have hspec := h3 c
  rw [hcl] at hspec
  by_cases hnil : points.filter (fun p => decide ((h p).toNat = c)) = []
  · rw [hnil]; simp
  · have hclt : c < cs.length := by omega
    rw [if_pos ⟨hcK, hnil⟩, List.getElem?_eq_getElem hclt] at hspec
    simp only [Option.map_some'] at hspec
    simp only [List.getD_eq_getElem?_getD, hspec, List.getElem?_eq_getElem hclt,
      Option.getD_some]
    exact sum_sqDist_meanOf_le _ hnil cs[c]

theorem distance_eq_sqrt_sqDist (sqrt : α → α) (a b : Point α) :
    distance sqrt a b = sqrt (sqDist a b) := rfl

theorem sqDist_nonneg (a b : Point α) : 0 ≤ sqDist a b :=
  add_nonneg (sq_nonneg _) (sq_nonneg _)

/-- Moving every point to its nearest representative does not increase the sum
of squared distances, the square root being strictly increasing. -/
theorem nearest_objective_le (sqrt : α → α)
    (hsqrt : ∀ x y : α, 0 ≤ x → x < y → sqrt x < sqrt y)
    (points : List (Point α)) (k : Int) (hk1 : 1 ≤ k) (cs : List (Point α))
    (hlen : cs.length = k.toNat) (g : Point α → Nat) (hg : ∀ p ∈ points, g p < k.toNat) :
    (points.map (fun p => sqDist p (cs.getD (near sqrt cs k p).toNat p))).sum ≤
      (points.map (fun p => sqDist p (cs.getD (g p) p))).sum := by
  apply List.sum_le_sum
  intro p hp
  obtain ⟨b, hb, _, rb, hrb, hmin, _⟩ := nearest_spec sqrt p cs k (by omega) (by omega)
  have hgp : g p < cs.length := by have := hg p hp; omega
  have hle := hmin (g p) cs[g p] (hg p hp) (List.getElem?_eq_getElem hgp)
  simp only [near_of_ok hb, Int.toNat_ofNat, List.getD_eq_getElem?_getD, hrb,
    List.getElem?_eq_getElem hgp, Option.getD_some]
  by_contra hlt
  rw [not_le] at hlt
  have := hsqrt _ _ (sqDist_nonneg _ _) hlt
  have hd : distance sqrt p cs[g p] < distance sqrt p rb := this
  exact absurd hle (not_le.2 hd)

theorem near_range (sqrt : α → α) (p : Point α) (cs : List (Point α)) (k : Int)
    (hk1 : 1 ≤ k) (hlen : cs.length = k.toNat) :
    0 ≤ near sqrt cs k p ∧ (near sqrt cs k p).toNat < k.toNat := by
  obtain ⟨b, hb, hlt, _⟩ := nearest_spec sqrt p cs k (by omega) (by omega)
  rw [near_of_ok hb]
  exact ⟨by omega, by simpa using hlt⟩

/-- Every snapshot of a trace has as many representatives as the trace
started with. -/
theorem Trace.lengths {sqrt : α → α} {points : List (Point α)} {k : Int} {tag : String}
    {upd : List Int → List (Point α) → Except Err (List (Point α))}
    (hupd : ∀ as cs cs2, upd as cs = .ok cs2 → cs2.length = cs.length)
    {n iter : Nat} {reps : List (Point α)} {as : List Int} {logs : List (LogRec α)}
    {asF : List Int} {repsF : List (Point α)} {st : Status}
    (h : Trace sqrt points k tag upd n iter reps as logs asF repsF st) :
    ∀ rec ∈ logs, rec.initial.length = reps.length ∧ rec.updated.length = reps.length := by
  induction h with
  | budget => intro rec hrec; simp at hrec
  | converged n iter reps as hok hsame =>
    intro rec hrec
    rw [List.mem_singleton] at hrec
    subst hrec
    exact ⟨rfl, rfl⟩
  | step n iter reps reps2 as logs asF repsF st hok hch hu hrest ih =>
    have hl2 := hupd _ _ _ hu
    intro rec hrec
    rcases List.mem_cons.1 hrec with rfl | hrec
    · exact ⟨rfl, hl2⟩
    · obtain ⟨h1, h2⟩ := ih rec hrec
      exact ⟨by rw [h1, hl2], by rw [h2, hl2]⟩

/-- Along a trace of `kMeans` the objective of a record is at most that of
the record before it. -/
theorem Trace.objective_mono {sqrt : α → α}
    (hsqrt : ∀ x y : α, 0 ≤ x → x < y → sqrt x < sqrt y)
    {points : List (Point α)} {k : Int} (hk1 : 1 ≤ k)
    {n iter : Nat} {reps : List (Point α)} {as : List Int} {logs : List (LogRec α)}
    {asF : List Int} {repsF : List (Point α)} {st : Status}
    (h : Trace sqrt points k "kmeans" (meansUpdate points k) n iter reps as logs asF repsF st)
    (hlen : reps.length = k.toNat) :
    ∀ (j : Nat) (rec1 rec2 : LogRec α), logs[j]? = some rec1 → logs[j + 1]? = some rec2 →
      objective sqrt points k rec2 ≤ objective sqrt points k rec1 := by
  induction h with
  | budget => intro j rec1 rec2 h1; simp at h1
  | converged n iter reps as hok hsame => intro j rec1 rec2 _ h2; simp at h2
  | step n iter reps reps2 as logs asF repsF st hok hch hu hrest ih =>
    have hlen2 : reps2.length = k.toNat := by
      rw [meansUpdate_length points k _ _ _ hu, hlen]
    intro j rec1 rec2 h1 h2
    cases j with
    | succ j => exact ih hlen2 j rec1 rec2 (by simpa using h1) (by simpa using h2)
    | zero =>
      have e1 : rec1 = ⟨iter, "kmeans", reps, reps2⟩ := by simpa using h1.symm
      subst e1
      rcases Trace.head hrest with ⟨_, hnil⟩ | ⟨rec, rest, hl, _, _, hinit, _, hcase⟩
      · subst hnil; simp at h2
      · subst hl
        have e2 : rec2 = rec := by simpa using h2.symm
        subst e2
        have hstep : (points.map (fun p =>
            sqDist p (reps2.getD (near sqrt reps2 k p).toNat p))).sum ≤
            (points.map (fun p => sqDist p (reps2.getD (near sqrt reps k p).toNat p))).sum :=
          nearest_objective_le sqrt hsqrt points k hk1 reps2 hlen2
            (fun p => (near sqrt reps k p).toNat)
            (fun p _ => (near_range sqrt p reps k hk1 hlen).2)
        rcases hcase with ⟨hupd, hsame, _⟩ | ⟨hupd, _⟩
        · have hnear : ∀ p ∈ points, near sqrt reps2 k p = near sqrt reps k p :=
            List.map_inj_left.1 hsame
          apply le_of_eq
          simp only [objective, hinit, hupd]
          congr 1
          apply List.map_congr_left
          intro p hp
          rw [hnear p hp]
        · refine le_trans ?_ hstep
          simp only [objective, hinit]
          exact meansUpdate_objective_le points k (near sqrt reps2 k) reps2 rec2.updated
            (fun p _ => near_range sqrt p reps2 k hk1 hlen2) hlen2 hupd

/-- C10. Over exact arithmetic with a strictly increasing square root (as the
real one is), `kMeans` within the preconditions returns, and for every pair of
consecutive log records `j`, `j + 1` the objective `J` (the sum over the
points of the squared distance to `updated[A(i)]`, `A` the assignment computed
from `initial`) satisfies `J (j + 1) ≤ J j`; every index `A(i)` used is inside
`updated`. -/
theorem C10_objective_non_increasing (sqrt : α → α)
    (hsqrt : ∀ x y : α, 0 ≤ x → x < y → sqrt x < sqrt y)
    (points : List (Point α)) (k maxIter : Int)
    (_hne : points ≠ []) (hk1 : 1 ≤ k) (hk : k ≤ points.length) (_hm : 1 ≤ maxIter) :
    ∃ r, kMeans sqrt points k maxIter = .ok r ∧
      (∀ (j : Nat) (rec1 rec2 : LogRec α), r.logs[j]? = some rec1 →
        r.logs[j + 1]? = some rec2 →
        objective sqrt points k rec2 ≤ objective sqrt points k rec1) ∧
      ∀ rec ∈ r.logs, ∀ p ∈ points,
        0 ≤ near sqrt rec.initial k p ∧
          (near sqrt rec.initial k p).toNat < rec.updated.length := by
  have hs : (slice0 points k).length = k.toNat := slice0_length points k (by omega) (by omega)
  obtain ⟨r, st, h⟩ := kMeansRun_ok sqrt points k maxIter (Or.inr hk)
  have htr := kMeansRun_trace h
  refine ⟨r, kMeans_of_run h, Trace.objective_mono hsqrt hk1 htr hs, ?_⟩
  intro rec hrec p _
  obtain ⟨h1, h2⟩ := Trace.lengths (meansUpdate_length points k) htr rec hrec
  have := near_range sqrt p rec.initial k hk1 (by rw [h1, hs])
  rw [h2, hs]
  exact this

/-- C10, witness: the real square root on three points, `k = 2`. -/
theorem C10_objective_non_increasing_witness :
    ∃ r, kMeans Real.sqrt [((1 : ℝ), (0 : ℝ)), (2, 0), (6, 0)] 2 100 = .ok r ∧
      (∀ (j : Nat) (rec1 rec2 : LogRec ℝ), r.logs[j]? = some rec1 →
        r.logs[j + 1]? = some rec2 →
        objective Real.sqrt [((1 : ℝ), (0 : ℝ)), (2, 0), (6, 0)] 2 rec2 ≤
          objective Real.sqrt [((1 : ℝ), (0 : ℝ)), (2, 0), (6, 0)] 2 rec1) ∧
      ∀ rec ∈ r.logs, ∀ p ∈ [((1 : ℝ), (0 : ℝ)), (2, 0), (6, 0)],
        0 ≤ near Real.sqrt rec.initial 2 p ∧
          (near Real.sqrt rec.initial 2 p).toNat < rec.updated.length :=
  C10_objective_non_increasing Real.sqrt (fun _ _ hx hxy => Real.sqrt_lt_sqrt hx hxy)
    [((1 : ℝ), (0 : ℝ)), (2, 0), (6, 0)] 2 100 (by simp) (by decide) (by decide) (by decide)

/-! ### The shape of the log (C11, C20) -/

/-- The records of a trace are numbered from the iteration it starts at, and
there are no more of them than iterations left. -/
theorem Trace.iters {sqrt : α → α} {points : List (Point α)} {k : Int} {tag : String}
    {upd : List Int → List (Point α) → Except Err (List (Point α))}
    {n iter : Nat} {reps : List (Point α)} {as : List Int} {logs : List (LogRec α)}
    {asF : List Int} {repsF : List (Point α)} {st : Status}
    (h : Trace sqrt points k tag upd n iter reps as logs asF repsF st) :
    logs.length ≤ n ∧ (n ≠ 0 → logs ≠ []) ∧
      (st = .BudgetExhausted → logs.length = n) ∧
      ∀ (j : Nat) (rec : LogRec α), logs[j]? = some rec → rec.iter = iter + j ∧ rec.type = tag := by
  induction h with
  | budget => exact ⟨le_refl _, fun h => absurd rfl h, fun _ => rfl, fun j rec h => by simp at h⟩
  | converged n iter reps as hok hsame =>
    refine ⟨by simp, fun _ => by simp, fun h => (by cases h), fun j rec h => ?_⟩
    cases j with
    | zero =>
      have : rec = ⟨iter, tag, reps, reps⟩ := by simpa using h.symm
      subst this; exact ⟨rfl, rfl⟩
    | succ j => simp at h
  | step n iter reps reps2 as logs asF repsF st hok hch hu hrest ih =>
    obtain ⟨h1, _, h3, h4⟩ := ih
    refine ⟨by simpa using h1, fun _ => by simp, fun hst => by simp [h3 hst],
      fun j rec h => ?_⟩
    cases j with
    | zero =>
      have : rec = ⟨iter, tag, reps, reps2⟩ := by simpa using h.symm
      subst this; exact ⟨rfl, rfl⟩
    | succ j =>
      obtain ⟨h5, h6⟩ := h4 j rec (by simpa using h)
      exact ⟨by rw [h5]; omega, h6⟩

/-- Consecutive records of a trace are chained: the later one starts from the
representatives the earlier one ends with. -/
theorem Trace.chain {sqrt : α → α} {points : List (Point α)} {k : Int} {tag : String}
    {upd : List Int → List (Point α) → Except Err (List (Point α))}
    {n iter : Nat} {reps : List (Point α)} {as : List Int} {logs : List (LogRec α)}
    {asF : List Int} {repsF : List (Point α)} {st : Status}
    (h : Trace sqrt points k tag upd n iter reps as logs asF repsF st) :
    ∀ (j : Nat) (rec1 rec2 : LogRec α), logs[j]? = some rec1 → logs[j + 1]? = some rec2 →
      rec2.initial = rec1.updated := by
  induction h with
  | budget => intro j rec1 rec2 h1; simp at h1
  | converged n iter reps as hok hsame => intro j rec1 rec2 _ h2; simp at h2
  | step n iter reps reps2 as logs asF repsF st hok hch hu hrest ih =>
    intro j rec1 rec2 h1 h2
    cases j with
    | succ j => exact ih j rec1 rec2 (by simpa using h1) (by simpa using h2)
    | zero =>
      have e1 : rec1 = ⟨iter, tag, reps, reps2⟩ := by simpa using h1.symm
      subst e1
      rcases Trace.head hrest with ⟨_, hnil⟩ | ⟨rec, rest, hl, _, _, hinit, _⟩
      · subst hnil; simp at h2
      · subst hl
        have e2 : rec2 = rec := by simpa using h2.symm
        subst e2
        exact hinit

/-- C11. Within the preconditions the log of `kMeans` and of `kMedoids` is
non-empty, has at most `maxIter` records, and its `j`-th record has
`iter = j`: the records are numbered 0, 1, 2, ... without gap, and a run that
exhausts its budget has logged exactly `maxIter` records. -/
theorem C11_log_numbering (sqrt : α → α) (points : List (Point α)) (k maxIter : Int)
    (_hne : points ≠ []) (_hk1 : 1 ≤ k) (hk : k ≤ points.length) (hm : 1 ≤ maxIter) :
    (∃ r st, kMeansRun sqrt points k maxIter = .ok (r, st) ∧
      kMeans sqrt points k maxIter = .ok r ∧
      r.logs ≠ [] ∧ (r.logs.length : Int) ≤ maxIter ∧
      (st = .BudgetExhausted → (r.logs.length : Int) = maxIter) ∧
      ∀ (j : Nat) (rec : LogRec α), r.logs[j]? = some rec → rec.iter = j) ∧
    (∃ r st, kMedoidsRun sqrt points k maxIter = .ok (r, st) ∧
      kMedoids sqrt points k maxIter = .ok r ∧
      r.logs ≠ [] ∧ (r.logs.length : Int) ≤ maxIter ∧
      (st = .BudgetExhausted → (r.logs.length : Int) = maxIter) ∧
      ∀ (j : Nat) (rec : LogRec α), r.logs[j]? = some rec → rec.iter = j) := by
  constructor
  · obtain ⟨r, st, h⟩ := kMeansRun_ok sqrt points k maxIter (Or.inr hk)
    obtain ⟨h1, h2, h3, h4⟩ := Trace.iters (kMeansRun_trace h)
    refine ⟨r, st, h, kMeans_of_run h, h2 (by omega), by omega, fun hst => ?_, fun j rec hj => ?_⟩
    · have := h3 hst; omega
    · have := (h4 j rec hj).1; omega
  · obtain ⟨r, st, h⟩ := kMedoidsRun_ok sqrt points k maxIter (Or.inr hk)
    obtain ⟨h1, h2, h3, h4⟩ := Trace.iters (kMedoidsRun_trace h)
    refine ⟨r, st, h, kMedoids_of_run h, h2 (by omega), by omega, fun hst => ?_,
      fun j rec hj => ?_⟩
    · have := h3 hst; omega
    · have := (h4 j rec hj).1; omega

/-- C11, witness: three points, `k = 2`, the default budget. -/
theorem C11_log_numbering_witness :
    (∃ r st, kMeansRun Real.sqrt [((1 : ℝ), (0 : ℝ)), (2, 0), (6, 0)] 2 100 = .ok (r, st) ∧
      kMeans Real.sqrt [((1 : ℝ), (0 : ℝ)), (2, 0), (6, 0)] 2 100 = .ok r ∧
      r.logs ≠ [] ∧ (r.logs.length : Int) ≤ 100 ∧
      (st = .BudgetExhausted → (r.logs.length : Int) = 100) ∧
      ∀ (j : Nat) (rec : LogRec ℝ), r.logs[j]? = some rec → rec.iter = j) ∧
    (∃ r st, kMedoidsRun Real.sqrt [((1 : ℝ), (0 : ℝ)), (2, 0), (6, 0)] 2 100 = .ok (r, st) ∧
      kMedoids Real.sqrt [((1 : ℝ), (0 : ℝ)), (2, 0), (6, 0)] 2 100 = .ok r ∧
      r.logs ≠ [] ∧ (r.logs.length : Int) ≤ 100 ∧
      (st = .BudgetExhausted → (r.logs.length : Int) = 100) ∧
      ∀ (j : Nat) (rec : LogRec ℝ), r.logs[j]? = some rec → rec.iter = j) :=
  C11_log_numbering Real.sqrt [((1 : ℝ), (0 : ℝ)), (2, 0), (6, 0)] 2 100
    (by simp) (by decide) (by decide) (by decide)

/-- C20 (amended). For every run of `kMeans` or `kMedoids` that returns,
consecutive log records are chained (`logs[j+1].initial` equals
`logs[j].updated`) and every snapshot has as many representatives as
`points.slice(0, k)`, which is exactly `k` whenever `0 ≤ k ≤ points.length`. -/
theorem C20_log_chain (sqrt : α → α) (points : List (Point α)) (k maxIter : Int) :
    (∀ r st, kMeansRun sqrt points k maxIter = .ok (r, st) →
      (∀ (j : Nat) (rec1 rec2 : LogRec α), r.logs[j]? = some rec1 →
        r.logs[j + 1]? = some rec2 → rec2.initial = rec1.updated) ∧
      (∀ rec ∈ r.logs, rec.initial.length = (slice0 points k).length ∧
        rec.updated.length = (slice0 points k).length) ∧
      (0 ≤ k → k ≤ points.length → ∀ rec ∈ r.logs,
        (rec.initial.length : Int) = k ∧ (rec.updated.length : Int) = k)) ∧
    (∀ r st, kMedoidsRun sqrt points k maxIter = .ok (r, st) →
      (∀ (j : Nat) (rec1 rec2 : LogRec α), r.logs[j]? = some rec1 →
        r.logs[j + 1]? = some rec2 → rec2.initial = rec1.updated) ∧
      (∀ rec ∈ r.logs, rec.initial.length = (slice0 points k).length ∧
        rec.updated.length = (slice0 points k).length) ∧
      (0 ≤ k → k ≤ points.length → ∀ rec ∈ r.logs,
        (rec.initial.length : Int) = k ∧ (rec.updated.length : Int) = k)) := by
  have key : ∀ logs : List (LogRec α),
      (∀ rec ∈ logs, rec.initial.length = (slice0 points k).length ∧
        rec.updated.length = (slice0 points k).length) →
      0 ≤ k → k ≤ points.length → ∀ rec ∈ logs,
        (rec.initial.length : Int) = k ∧ (rec.updated.length : Int) = k := by
    intro logs hl h0 hk rec hrec
    obtain ⟨h1, h2⟩ := hl rec hrec
    have hs := slice0_length points k h0 (by omega)
    rw [h1, h2, hs]
    omega
  constructor
  · intro r st h
    have htr := kMeansRun_trace h
    have hl := Trace.lengths (meansUpdate_length points k) htr
    exact ⟨Trace.chain htr, hl, key _ hl⟩
  · intro r st h
    have htr := kMedoidsRun_trace h
    have hl := Trace.lengths (medoidsUpdate_length sqrt points k) htr
    exact ⟨Trace.chain htr, hl, key _ hl⟩

/-- C20, witness: the runs on `[1,0], [3,0]` with `k = 1`, of two records
each. -/
theorem C20_log_chain_witness :
    (∃ r, kMeans Real.sqrt [((1 : ℝ), (0 : ℝ)), (3, 0)] 1 100 = .ok r ∧
      r.logs.length = 2 ∧
      (∀ (j : Nat) (rec1 rec2 : LogRec ℝ), r.logs[j]? = some rec1 →
        r.logs[j + 1]? = some rec2 → rec2.initial = rec1.updated) ∧
      ∀ rec ∈ r.logs, (rec.initial.length : Int) = 1 ∧ (rec.updated.length : Int) = 1) ∧
    (∃ r, kMedoids Real.sqrt [((1 : ℝ), (0 : ℝ)), (3, 0)] 1 100 = .ok r ∧
      r.logs.length = 2 ∧
      (∀ (j : Nat) (rec1 rec2 : LogRec ℝ), r.logs[j]? = some rec1 →
        r.logs[j + 1]? = some rec2 → rec2.initial = rec1.updated) ∧
      ∀ rec ∈ r.logs, (rec.initial.length : Int) = 1 ∧ (rec.updated.length : Int) = 1) :=
  ⟨⟨_, kMeans_of_run kMeansRun_converged_example, rfl,
      ((C20_log_chain Real.sqrt [((1 : ℝ), (0 : ℝ)), (3, 0)] 1 100).1 _ _
        kMeansRun_converged_example).1,
      ((C20_log_chain Real.sqrt [((1 : ℝ), (0 : ℝ)), (3, 0)] 1 100).1 _ _
        kMeansRun_converged_example).2.2 (by decide) (by decide)⟩,
    ⟨_, kMedoids_of_run kMedoidsRun_converged_example, rfl,
      ((C20_log_chain Real.sqrt [((1 : ℝ), (0 : ℝ)), (3, 0)] 1 100).2 _ _
        kMedoidsRun_converged_example).1,
      ((C20_log_chain Real.sqrt [((1 : ℝ), (0 : ℝ)), (3, 0)] 1 100).2 _ _
        kMedoidsRun_converged_example).2.2 (by decide) (by decide)⟩⟩

/-- C20, counterexample: on the empty point list with `k = 3` both functions
return a log whose only record holds snapshots of 0 representatives, and on
`[1,0], [3,0]` with `k = -1` snapshots of 1 representative. -/
theorem C20_counterexample :
    (∃ r, kMeans Real.sqrt ([] : List (Point ℝ)) 3 100 = .ok r ∧
      ∃ rec ∈ r.logs, (rec.initial.length : Int) ≠ 3 ∧ (rec.updated.length : Int) ≠ 3) ∧
    (∃ r, kMedoids Real.sqrt ([] : List (Point ℝ)) 3 100 = .ok r ∧
      ∃ rec ∈ r.logs, (rec.initial.length : Int) ≠ 3 ∧ (rec.updated.length : Int) ≠ 3) ∧
    (∃ r, kMeans Real.sqrt [((1 : ℝ), (0 : ℝ)), (3, 0)] (-1) 100 = .ok r ∧
      ∃ rec ∈ r.logs, rec.initial.length = 1 ∧ rec.updated.length = 1) :=
  ⟨⟨⟨[], [], [⟨0, "kmeans", [], []⟩]⟩, rfl, ⟨0, "kmeans", [], []⟩, by simp, by decide,
      by decide⟩,
    ⟨⟨[], [], [⟨0, "kmedoids", [], []⟩]⟩, rfl, ⟨0, "kmedoids", [], []⟩, by simp, by decide,
      by decide⟩,
    ⟨⟨[-1, -1], [(1, 0)], [⟨0, "kmeans", [(1, 0)], [(1, 0)]⟩]⟩, rfl,
      ⟨0, "kmeans", [(1, 0)], [(1, 0)]⟩, by simp, rfl, rfl⟩⟩

/-! ### The update of a changed iteration (C16, C17) -/

/-- A record whose assignment pass changed an assignment (with respect to the
assignments `prev` the iteration started from) holds the update of its
`initial` snapshot under the assignments of that pass. -/
theorem Trace.changed {sqrt : α → α} {points : List (Point α)} {k : Int} {tag : String}
    {upd : List Int → List (Point α) → Except Err (List (Point α))}
    {n iter : Nat} {reps : List (Point α)} {as : List Int} {logs : List (LogRec α)}
    {asF : List Int} {repsF : List (Point α)} {st : Status}
    (h : Trace sqrt points k tag upd n iter reps as logs asF repsF st) :
    ∀ (j : Nat) (rec : LogRec α) (prev : List Int), logs[j]? = some rec →
      ((j = 0 ∧ prev = as) ∨ ∃ (i : Nat) (recp : LogRec α), j = i + 1 ∧
        logs[i]? = some recp ∧ prev = nearestAll sqrt recp.initial k points) →
      nearestAll sqrt rec.initial k points ≠ prev →
      (∀ p ∈ points, nearest sqrt p rec.initial k = .ok (near sqrt rec.initial k p)) ∧
        upd (nearestAll sqrt rec.initial k points) rec.initial = .ok rec.updated := by
  induction h with
  | budget => intro j rec prev h1; simp at h1
  | converged n iter reps as hok hsame =>
    intro j rec prev h1 hprev hch
    cases j with
    | succ j => simp at h1
    | zero =>
      have e1 : rec = ⟨iter, tag, reps, reps⟩ := by simpa using h1.symm
      subst e1
      rcases hprev with ⟨_, hp⟩ | ⟨i, _, hi, _⟩
      · subst hp; exact absurd hsame hch
      · omega
  | step n iter reps reps2 as logs asF repsF st hok hch hu hrest ih =>
    intro j rec prev h1 hprev hch2
    cases j with
    | zero =>
      have e1 : rec = ⟨iter, tag, reps, reps2⟩ := by simpa using h1.symm
      subst e1
      exact ⟨hok, hu⟩
    | succ j =>
      have h1b : logs[j]? = some rec := by simpa using h1
      apply ih j rec prev h1b _ hch2
      rcases hprev with ⟨h0, _⟩ | ⟨i, recp, hi, hrecp, hp⟩
      · omega
      · have hij : i = j := by omega
        subst hij
        cases i with
        | zero =>
          have e2 : recp = ⟨iter, tag, reps, reps2⟩ := by simpa using hrecp.symm
          subst e2
          exact Or.inl ⟨rfl, hp⟩
        | succ i =>
          exact Or.inr ⟨i, recp, rfl, by simpa using hrecp, hp⟩

/-- The state of the search of lines 110-122 after the candidates `pre`. -/
theorem bestLoop_firstMin (sqrt : α → α) (a : List (Point α)) :
    ∀ (cands pre : List (Point α)) (best : Option (Point α)) (cost : Option α),
      ((pre = [] ∧ cost = none) ∨
        ∃ (i : Nat) (m : Point α), best = some m ∧ cost = some (clusterCost sqrt a m) ∧
          pre[i]? = some m ∧ (∀ q ∈ pre, clusterCost sqrt a m ≤ clusterCost sqrt a q) ∧
          ∀ (j : Nat) (q : Point α), j < i → pre[j]? = some q →
            clusterCost sqrt a m < clusterCost sqrt a q) →
      (pre ++ cands = [] ∨
        ∃ (i : Nat) (m : Point α), bestLoop sqrt a cands best cost = some m ∧
          (pre ++ cands)[i]? = some m ∧
          (∀ q ∈ pre ++ cands, clusterCost sqrt a m ≤ clusterCost sqrt a q) ∧
          ∀ (j : Nat) (q : Point α), j < i → (pre ++ cands)[j]? = some q →
            clusterCost sqrt a m < clusterCost sqrt a q) := by
  intro cands
  induction cands with
  | nil =>
    intro pre best cost h
    rcases h with ⟨h0, _⟩ | ⟨i, m, hb, _, hi, hmin, hfirst⟩
    · left; simp [h0]
    · right
      refine ⟨i, m, by simp [bestLoop, hb], by simpa using hi, by simpa using hmin, ?_⟩
      simpa using hfirst
  | cons x xs ih =>
    intro pre best cost h
    right
    have hx : (pre ++ [x])[pre.length]? = some x := by
      rw [List.getElem?_append_right (le_refl _)]; simp
    have happ : pre ++ x :: xs = (pre ++ [x]) ++ xs := by simp
    have hne : (pre ++ [x]) ++ xs ≠ [] := by simp
    have hleft : ∀ (j : Nat), j < pre.length → (pre ++ [x])[j]? = pre[j]? :=
      fun j hj => List.getElem?_append_left hj
    rw [happ]
    unfold bestLoop
    simp only
    split
    · rename_i hlt
      have hinv : ∃ (i : Nat) (m : Point α), some x = some m ∧
          some (sumBy (fun p => distance sqrt p x) a) = some (clusterCost sqrt a m) ∧
          (pre ++ [x])[i]? = some m ∧
          (∀ q ∈ pre ++ [x], clusterCost sqrt a m ≤ clusterCost sqrt a q) ∧
          ∀ (j : Nat) (q : Point α), j < i → (pre ++ [x])[j]? = some q →
            clusterCost sqrt a m < clusterCost sqrt a q := by
        refine ⟨pre.length, x, rfl, rfl, hx, ?_, ?_⟩
        · intro q hq
          rcases List.mem_append.1 hq with hq | hq
          · rcases h with ⟨h0, _⟩ | ⟨i, m, _, hc, _, hmin, _⟩
            · subst h0; simp at hq
            · subst hc
              simp only [ltInf, decide_eq_true_eq] at hlt
              exact le_of_lt (lt_of_lt_of_le hlt (hmin q hq))
          · have : q = x := by simpa using hq
            subst this; exact le_refl _
        · intro j q hj hq
          rw [hleft j hj] at hq
          rcases h with ⟨h0, _⟩ | ⟨i, m, _, hc, _, hmin, _⟩
          · subst h0; simp at hj
          · subst hc
            simp only [ltInf, decide_eq_true_eq] at hlt
            exact lt_of_lt_of_le hlt (hmin q (List.getElem?_mem hq))
      rcases ih (pre ++ [x]) _ _ (Or.inr hinv) with h0 | h1
      · exact absurd h0 hne
      · exact h1
    · rename_i hlt
      rcases h with ⟨_, hc⟩ | ⟨i, m, hb, hc, hi, hmin, hfirst⟩
      · subst hc; simp [ltInf] at hlt
      · subst hc
        simp only [ltInf, decide_eq_true_eq, not_lt] at hlt
        have hil : i < pre.length := (List.getElem?_eq_some_iff.1 hi).1
        have hinv : ∃ (i : Nat) (m2 : Point α), best = some m2 ∧
            some (clusterCost sqrt a m) = some (clusterCost sqrt a m2) ∧
            (pre ++ [x])[i]? = some m2 ∧
            (∀ q ∈ pre ++ [x], clusterCost sqrt a m2 ≤ clusterCost sqrt a q) ∧
            ∀ (j : Nat) (q : Point α), j < i → (pre ++ [x])[j]? = some q →
              clusterCost sqrt a m2 < clusterCost sqrt a q := by
          refine ⟨i, m, hb, rfl, by rw [hleft i hil]; exact hi, ?_, ?_⟩
          · intro q hq
            rcases List.mem_append.1 hq with hq | hq
            · exact hmin q hq
            · have : q = x := by simpa using hq
              subst this; exact hlt
          · intro j q hj hq
            rw [hleft j (by omega)] at hq
            exact hfirst j q hj hq
        rcases ih (pre ++ [x]) _ _ (Or.inr hinv) with h0 | h1
        · exact absurd h0 hne
        · exact h1

/-- On a non-empty cluster the search selects the first member of least cost. -/
theorem medoidOf_firstMinCost (sqrt : α → α) (l : List (Point α)) (hl : l ≠ []) :
    ∃ m, medoidOf sqrt l = some m ∧ FirstMinCost sqrt l m := by
  rcases bestLoop_firstMin sqrt l l [] none none (Or.inl ⟨rfl, rfl⟩) with h0 | ⟨i, m, h1, h2, h3, h4⟩
  · simp at h0; exact absurd h0 hl
  · simp only [List.nil_append] at h2 h3 h4
    exact ⟨m, h1, i, h2, h3, h4⟩

theorem assignmentsBefore_length (sqrt : α → α) (points : List (Point α)) (k : Int)
    (logs : List (LogRec α)) (hp : points = []) (j : Nat) :
    assignmentsBefore sqrt points k logs j = [] := by
  subst hp
  cases j with
  | zero => rfl
  | succ j =>
    simp only [assignmentsBefore]
    cases logs[j]? <;> simp [nearestAll]

theorem assignmentsBefore_prev (sqrt : α → α) (points : List (Point α)) (k : Int)
    (logs : List (LogRec α)) (j : Nat) (rec : LogRec α) (h : logs[j]? = some rec) :
    (j = 0 ∧ assignmentsBefore sqrt points k logs j = List.replicate points.length (-1)) ∨
      ∃ (i : Nat) (recp : LogRec α), j = i + 1 ∧ logs[i]? = some recp ∧
        assignmentsBefore sqrt points k logs j = nearestAll sqrt recp.initial k points := by
  cases j with
  | zero => left; exact ⟨rfl, rfl⟩
  | succ i =>
    right
    have hi : i < logs.length := by
      have := (List.getElem?_eq_some_iff.1 h).1
      omega
    refine ⟨i, logs[i], rfl, List.getElem?_eq_getElem hi, ?_⟩
    simp [assignmentsBefore, List.getElem?_eq_getElem hi]

theorem nearest_ok_bound (sqrt : α → α) (points reps : List (Point α)) (k : Int)
    (hne : points ≠ [])
    (hok : ∀ p ∈ points, nearest sqrt p reps k = .ok (near sqrt reps k p)) :
    k.toNat ≤ reps.length := by
  by_contra hlt
  obtain ⟨p, ps, rfl⟩ := List.exists_cons_of_ne_nil hne
  have h1 := hok p (List.mem_cons_self _ _)
  rw [nearest_error sqrt p reps k (by omega)] at h1
  cases h1

/-- What a changed iteration logs, for a trace started from all `-1`. -/
theorem Trace.changed_record {sqrt : α → α} {points : List (Point α)} {k : Int}
    {tag : String} {upd : List Int → List (Point α) → Except Err (List (Point α))}
    {n : Nat} {reps : List (Point α)} {logs : List (LogRec α)}
    {asF : List Int} {repsF : List (Point α)} {st : Status}
    (h : Trace sqrt points k tag upd n 0 reps (List.replicate points.length (-1)) logs
      asF repsF st)
    (j : Nat) (rec : LogRec α) (hj : logs[j]? = some rec)
    (hch : nearestAll sqrt rec.initial k points ≠ assignmentsBefore sqrt points k logs j) :
    points ≠ [] ∧ k.toNat ≤ rec.initial.length ∧
      upd (nearestAll sqrt rec.initial k points) rec.initial = .ok rec.updated := by
  have hne : points ≠ [] := by
    intro hp
    apply hch
    rw [assignmentsBefore_length sqrt points k logs hp j]
    simp [nearestAll, hp]
  have hprev : (j = 0 ∧ assignmentsBefore sqrt points k logs j =
      List.replicate points.length (-1)) ∨
      ∃ (i : Nat) (recp : LogRec α), j = i + 1 ∧ logs[i]? = some recp ∧
        assignmentsBefore sqrt points k logs j = nearestAll sqrt recp.initial k points :=
    assignmentsBefore_prev sqrt points k logs j rec hj
  obtain ⟨hok, hu⟩ := Trace.changed h j rec _ hj hprev hch
  exact ⟨hne, nearest_ok_bound sqrt points rec.initial k hne hok, hu⟩

/-- C16. In every iteration of `kMeans` whose assignment pass changed an
assignment, the logged record satisfies for every index `c` in `[0, k-1]`: if
the cluster of `c` (the points that pass assigned to `c`) is non-empty,
`updated[c]` is its coordinate-wise arithmetic mean `meanOf`; otherwise
`updated[c]` is `initial[c]`. -/
theorem C16_centroid_update (sqrt : α → α) (points : List (Point α)) (k maxIter : Int)
    (r : MeansResult α) (st : Status)
    (hrun : kMeansRun sqrt points k maxIter = .ok (r, st))
    (j : Nat) (rec : LogRec α) (hrec : r.logs[j]? = some rec)
    (hchanged : nearestAll sqrt rec.initial k points ≠
      assignmentsBefore sqrt points k r.logs j) :
    ∀ c : Nat, (c : Int) < k →
      c < rec.initial.length ∧
      (assignedPoints points (nearestAll sqrt rec.initial k points) c ≠ [] →
        rec.updated[c]? =
          some (meanOf (assignedPoints points (nearestAll sqrt rec.initial k points) c))) ∧
      (assignedPoints points (nearestAll sqrt rec.initial k points) c = [] →
        rec.updated[c]? = rec.initial[c]?) := by
  obtain ⟨_, hK, hu⟩ := Trace.changed_record (kMeansRun_trace hrun) j rec hrec hchanged
  obtain ⟨cs2, h1, _, h3⟩ := meansUpdate_spec points k
    (nearestAll sqrt rec.initial k points) rec.initial
  rw [h1] at hu
  have e : cs2 = rec.updated := by simpa using hu
  subst e
  intro c hc
  have hcK : c < k.toNat := by omega
  have hcl : c < rec.initial.length := by omega
  refine ⟨hcl, fun hne => ?_, fun hnil => ?_⟩
  · rw [h3 c, if_pos ⟨hcK, hne⟩, List.getElem?_eq_getElem hcl]
    rfl
  · rw [h3 c, if_neg (fun h => h.2 hnil)]

/-- C17. In every iteration of `kMedoids` whose assignment pass changed an
assignment, the logged record satisfies for every index `m` in `[0, k-1]`: if
the cluster of `m` is non-empty, `updated[m]` is the first member of the
cluster, in input order, of least total distance to the members (no member
costs strictly less, every earlier member costs strictly more); otherwise
`updated[m]` is `initial[m]`. -/
theorem C17_medoid_update (sqrt : α → α) (points : List (Point α)) (k maxIter : Int)
    (r : MedoidsResult α) (st : Status)
    (hrun : kMedoidsRun sqrt points k maxIter = .ok (r, st))
    (j : Nat) (rec : LogRec α) (hrec : r.logs[j]? = some rec)
    (hchanged : nearestAll sqrt rec.initial k points ≠
      assignmentsBefore sqrt points k r.logs j) :
    ∀ m : Nat, (m : Int) < k →
      m < rec.initial.length ∧
      (assignedPoints points (nearestAll sqrt rec.initial k points) m ≠ [] →
        ∃ x, rec.updated[m]? = some x ∧
          FirstMinCost sqrt (assignedPoints points (nearestAll sqrt rec.initial k points) m)
            x) ∧
      (assignedPoints points (nearestAll sqrt rec.initial k points) m = [] →
        rec.updated[m]? = rec.initial[m]?) := by
  obtain ⟨_, hK, hu⟩ := Trace.changed_record (kMedoidsRun_trace hrun) j rec hrec hchanged
  obtain ⟨ms2, h1, _, h3⟩ := medoidsUpdate_spec sqrt points k
    (nearestAll sqrt rec.initial k points) rec.initial
  rw [h1] at hu
  have e : ms2 = rec.updated := by simpa using hu
  subst e
  intro m hm
  have hmK : m < k.toNat := by omega
  have hml : m < rec.initial.length := by omega
  refine ⟨hml, fun hne => ?_, fun hnil => ?_⟩
  · obtain ⟨x, hx, hfm⟩ := medoidOf_firstMinCost sqrt _ hne
    refine ⟨x, ?_, hfm⟩
    rw [h3 m, if_pos ⟨hmK, hne⟩, List.getElem?_eq_getElem hml]
    simpa using hx
  · rw [h3 m, if_neg (fun h => h.2 hnil)]

/-! ### Fixed points of the update (C12, C13, C14, C15, C18) -/

/-- A converged trace ends with representatives that reproduce the final
assignments; unless it converged at once, they are the result of an update
under these assignments. -/
theorem Trace.converged_fixed {sqrt : α → α} {points : List (Point α)} {k : Int}
    {tag : String} {upd : List Int → List (Point α) → Except Err (List (Point α))}
    {n iter : Nat} {reps : List (Point α)} {as : List Int} {logs : List (LogRec α)}
    {asF : List Int} {repsF : List (Point α)} {st : Status}
    (h : Trace sqrt points k tag upd n iter reps as logs asF repsF st)
    (hst : st = .Converged) :
    (∀ p ∈ points, nearest sqrt p repsF k = .ok (near sqrt repsF k p)) ∧
      nearestAll sqrt repsF k points = asF ∧
      ((repsF = reps ∧ asF = as ∧ 1 ≤ n) ∨ (2 ≤ n ∧ ∃ cs, upd asF cs = .ok repsF)) := by
  induction h with
  | budget => cases hst
  | converged n iter reps as hok hsame =>
    exact ⟨hok, hsame, Or.inl ⟨rfl, rfl, by omega⟩⟩
  | step n iter reps reps2 as logs asF repsF st hok hch hu hrest ih =>
    obtain ⟨h1, h2, h3⟩ := ih hst
    refine ⟨h1, h2, Or.inr ?_⟩
    rcases h3 with ⟨e1, e2, hn⟩ | ⟨hn, cs, hcs⟩
    · subst e1 e2
      exact ⟨by omega, reps, hu⟩
    · exact ⟨by omega, cs, hcs⟩

/-- Updating twice under the same assignments is updating once. -/
theorem meansUpdate_idem (points : List (Point α)) (k : Int) (as : List Int)
    (cs cs2 : List (Point α)) (h : meansUpdate points k as cs = .ok cs2) :
    meansUpdate points k as cs2 = .ok cs2 := by
  obtain ⟨cs3, h1, _, h3⟩ := meansUpdate_spec points k as cs
  rw [h1] at h
  have e : cs3 = cs2 := by simpa using h
  subst e
  obtain ⟨cs4, h4, _, h6⟩ := meansUpdate_spec points k as cs3
  rw [h4]
  congr 1
  apply List.ext_getElem?
  intro j
  rw [h6 j]
  split
  · rename_i hc
    rw [h3 j, if_pos hc]
    cases cs[j]? <;> rfl
  · rfl

/-- Updating the medoids twice under the same assignments is updating once. -/
theorem medoidsUpdate_idem (sqrt : α → α) (points : List (Point α)) (k : Int)
    (as : List Int) (ms ms2 : List (Point α))
    (h : medoidsUpdate sqrt points k as ms = .ok ms2) :
    medoidsUpdate sqrt points k as ms2 = .ok ms2 := by
  obtain ⟨ms3, h1, _, h3⟩ := medoidsUpdate_spec sqrt points k as ms
  rw [h1] at h
  have e : ms3 = ms2 := by simpa using h
  subst e
  obtain ⟨ms4, h4, _, h6⟩ := medoidsUpdate_spec sqrt points k as ms3
  rw [h4]
  congr 1
  apply List.ext_getElem?
  intro j
  rw [h6 j]
  split
  · rename_i hc
    obtain ⟨_, x, _, hx⟩ := bestLoop_medoidOf sqrt _ hc.2 none
    rw [h3 j, if_pos hc, hx]
    cases ms[j]? <;> rfl
  · rfl

/-- A trace whose first update reaches a fixed point `M`: it logs one record
when a single iteration is left, and otherwise exactly two, converging in its
second iteration. -/
theorem Trace.two_phase {sqrt : α → α} {points : List (Point α)} {k : Int}
    {tag : String} {upd : List Int → List (Point α) → Except Err (List (Point α))}
    {n iter : Nat} {reps M : List (Point α)} {as : List Int} {logs : List (LogRec α)}
    {asF : List Int} {repsF : List (Point α)} {st : Status}
    (h : Trace sqrt points k tag upd n iter reps as logs asF repsF st)
    (hA : nearestAll sqrt reps k points ≠ as)
    (hu1 : upd (nearestAll sqrt reps k points) reps = .ok M)
    (hM : nearestAll sqrt M k points = nearestAll sqrt reps k points) :
    (n = 0 ∧ logs = [] ∧ asF = as ∧ repsF = reps ∧ st = .BudgetExhausted) ∨
    (n = 1 ∧ logs = [⟨iter, tag, reps, M⟩] ∧ asF = nearestAll sqrt reps k points ∧
      repsF = M ∧ st = .BudgetExhausted) ∨
    (2 ≤ n ∧ logs = [⟨iter, tag, reps, M⟩, ⟨iter + 1, tag, M, M⟩] ∧
      asF = nearestAll sqrt reps k points ∧ repsF = M ∧ st = .Converged) := by
  cases h with
  | budget => exact Or.inl ⟨rfl, rfl, rfl, rfl, rfl⟩
  | converged n iter reps as hok hsame => exact absurd hsame hA
  | step n iter reps reps2 as logs asF repsF st hok hch hu hrest =>
    rw [hu1] at hu
    have e : M = reps2 := by simpa using hu
    subst e
    right
    cases hrest with
    | budget => exact Or.inl ⟨rfl, rfl, rfl, rfl, rfl⟩
    | converged n iter reps as hok hsame =>
      exact Or.inr ⟨by omega, rfl, rfl, rfl, rfl⟩
    | step n iter reps reps3 as logs asF repsF st hok2 hch2 hu2 hrest2 =>
      exact absurd hM hch2

theorem filterIdx_eq_nil {β : Type} (pred : Nat → Bool) (hp : ∀ i, pred i = false) :
    ∀ (l : List β) (i : Nat), filterIdx pred l i = [] := by
  intro l
  induction l with
  | nil => intro i; rfl
  | cons x xs ih => intro i; simp [filterIdx, hp i, ih]

/-- Before the first assignment pass every cluster is empty. -/
theorem assignedPoints_unassigned {β : Type} (points : List β) (n c : Nat) :
    assignedPoints points (List.replicate n (-1)) c = [] := by
  apply filterIdx_eq_nil
  intro i
  simp only [decide_eq_false_iff_not]
  intro h
  have hm := List.getElem?_mem h
  have := List.eq_of_mem_replicate hm
  omega

/-- The representatives a converged trace from all `-1` ends with are a fixed
point of the update on every non-empty cluster. -/
theorem Trace.converged_clusters {sqrt : α → α} {points : List (Point α)} {k : Int}
    {tag : String} {upd : List Int → List (Point α) → Except Err (List (Point α))}
    (hlen : ∀ as cs cs2, upd as cs = .ok cs2 → cs2.length = cs.length)
    {n iter : Nat} {reps : List (Point α)} {logs : List (LogRec α)}
    {asF : List Int} {repsF : List (Point α)}
    (h : Trace sqrt points k tag upd n iter reps (List.replicate points.length (-1)) logs
      asF repsF .Converged)
    (c : Nat) (hc : (c : Int) < k) (hcl : assignedPoints points asF c ≠ []) :
    c < repsF.length ∧ ∃ cs, cs.length = repsF.length ∧ upd asF cs = .ok repsF := by
  obtain ⟨hok, _, h3⟩ := Trace.converged_fixed h rfl
  have hne : points ≠ [] := by
    intro hp
    apply hcl
    subst hp
    rfl
  have hK := nearest_ok_bound sqrt points repsF k hne hok
  rcases h3 with ⟨_, e2, _⟩ | ⟨_, cs, hcs⟩
  · subst e2
    exact absurd (assignedPoints_unassigned points _ c) hcl
  · exact ⟨by omega, cs, (hlen _ _ _ hcs).symm, hcs⟩

/-- C18. For every converged run the returned representatives are a fixed
point of the update under the returned assignments: in `kMeans` every centroid
with a non-empty cluster is the mean of the points assigned to it, and in
`kMedoids` every medoid with a non-empty cluster is the first member of its
cluster of least total distance. -/
theorem C18_converged_fixed_point (sqrt : α → α) (points : List (Point α))
    (k maxIter : Int) :
    (∀ r, kMeansRun sqrt points k maxIter = .ok (r, .Converged) →
      ∀ c : Nat, (c : Int) < k → assignedPoints points r.assignments c ≠ [] →
        r.centroids[c]? = some (meanOf (assignedPoints points r.assignments c))) ∧
    (∀ r, kMedoidsRun sqrt points k maxIter = .ok (r, .Converged) →
      ∀ c : Nat, (c : Int) < k → assignedPoints points r.assignments c ≠ [] →
        ∃ x, r.medoids[c]? = some x ∧
          FirstMinCost sqrt (assignedPoints points r.assignments c) x) := by
  constructor
  · intro r h c hc hcl
    obtain ⟨hlt, cs, hlen, hu⟩ := Trace.converged_clusters (meansUpdate_length points k)
      (kMeansRun_trace h) c hc hcl
    obtain ⟨cs2, h1, _, h3⟩ := meansUpdate_spec points k r.assignments cs
    rw [h1] at hu
    have e : cs2 = r.centroids := by simpa using hu
    subst e
    have hcs : c < cs.length := by omega
    rw [h3 c, if_pos ⟨by omega, hcl⟩, List.getElem?_eq_getElem hcs]
    rfl
  · intro r h c hc hcl
    obtain ⟨hlt, ms, hlen, hu⟩ := Trace.converged_clusters
      (medoidsUpdate_length sqrt points k) (kMedoidsRun_trace h) c hc hcl
    obtain ⟨ms2, h1, _, h3⟩ := medoidsUpdate_spec sqrt points k r.assignments ms
    rw [h1] at hu
    have e : ms2 = r.medoids := by simpa using hu
    subst e
    have hms : c < ms.length := by omega
    obtain ⟨x, hx, hfm⟩ := medoidOf_firstMinCost sqrt _ hcl
    refine ⟨x, ?_, hfm⟩
    rw [h3 c, if_pos ⟨by omega, hcl⟩, List.getElem?_eq_getElem hms]
    simpa using hx

/-- C18, witness: the converged runs on `[1,0], [3,0]` with `k = 1`, whose
only cluster holds both points. -/
theorem C18_converged_fixed_point_witness :
    [((2 : ℝ), (0 : ℝ))][0]? =
        some (meanOf (assignedPoints [((1 : ℝ), (0 : ℝ)), (3, 0)] [0, 0] 0)) ∧
    ∃ x, [((1 : ℝ), (0 : ℝ))][0]? = some x ∧
      FirstMinCost Real.sqrt (assignedPoints [((1 : ℝ), (0 : ℝ)), (3, 0)] [0, 0] 0) x :=
  ⟨(C18_converged_fixed_point Real.sqrt [((1 : ℝ), (0 : ℝ)), (3, 0)] 1 100).1 _
      kMeansRun_converged_example 0 (by decide) (by simp [assignedPoints, filterIdx]),
    (C18_converged_fixed_point Real.sqrt [((1 : ℝ), (0 : ℝ)), (3, 0)] 1 100).2 _
      kMedoidsRun_converged_example 0 (by decide) (by simp [assignedPoints, filterIdx])⟩

/-! ### A single cluster (C14, C15) -/

theorem nearestAll_ne_unassigned (sqrt : α → α) (points reps : List (Point α)) (k : Int)
    (hne : points ≠ []) (hk1 : 1 ≤ k) (hlen : reps.length = k.toNat) :
    nearestAll sqrt reps k points ≠ List.replicate points.length (-1) := by
  obtain ⟨p, ps, rfl⟩ := List.exists_cons_of_ne_nil hne
  intro h
  have h0 := (near_range sqrt p reps k hk1 hlen).1
  simp only [nearestAll, List.map_cons, List.length_cons, List.replicate_succ,
    List.cons.injEq] at h
  omega

theorem nearestAll_k_one (sqrt : α → α) (points reps : List (Point α))
    (hlen : reps.length = 1) :
    nearestAll sqrt reps 1 points = List.replicate points.length 0 := by
  have hn : ∀ p, near sqrt reps 1 p = 0 := by
    intro p
    have := near_range sqrt p reps 1 (le_refl _) (by simpa using hlen)
    have h1 : (1 : Int).toNat = 1 := rfl
    omega
  unfold nearestAll
  induction points with
  | nil => rfl
  | cons p ps ih => simp [List.replicate_succ, hn p, ih]

theorem assignedPoints_all {β : Type} (points : List β) :
    assignedPoints points (List.replicate points.length 0) 0 = points := by
  have h := assignedPoints_map (fun _ : β => (0 : Int)) points 0
  have hm : points.map (fun _ : β => (0 : Int)) = List.replicate points.length 0 := by
    induction points with
    | nil => rfl
    | cons p ps ih => simp [List.replicate_succ]
  rw [hm] at h
  rw [h]
  simp

theorem list_eq_singleton {β : Type} (l : List β) (x : β) (hlen : l.length = 1)
    (h0 : l[0]? = some x) : l = [x] := by
  cases l with
  | nil => simp at hlen
  | cons y ys =>
    cases ys with
    | nil => simpa using h0
    | cons z zs => simp at hlen

theorem meansUpdate_k_one (points reps : List (Point α)) (hne : points ≠ [])
    (hlen : reps.length = 1) :
    meansUpdate points 1 (List.replicate points.length 0) reps = .ok [meanOf points] := by
  obtain ⟨cs2, h1, h2, h3⟩ := meansUpdate_spec points 1 (List.replicate points.length 0) reps
  rw [h1]
  congr 1
  apply list_eq_singleton _ _ (by rw [h2, hlen])
  have h0 : (0 : Nat) < reps.length := by omega
  rw [h3 0, assignedPoints_all, if_pos ⟨by decide, hne⟩, List.getElem?_eq_getElem h0]
  rfl

theorem medoidsUpdate_k_one (sqrt : α → α) (points reps : List (Point α)) (m : Point α)
    (hm : medoidOf sqrt points = some m) (hne : points ≠ []) (hlen : reps.length = 1) :
    medoidsUpdate sqrt points 1 (List.replicate points.length 0) reps = .ok [m] := by
  obtain ⟨ms2, h1, h2, h3⟩ := medoidsUpdate_spec sqrt points 1
    (List.replicate points.length 0) reps
  rw [h1]
  congr 1
  apply list_eq_singleton _ _ (by rw [h2, hlen])
  have h0 : (0 : Nat) < reps.length := by omega
  rw [h3 0, assignedPoints_all, if_pos ⟨by decide, hne⟩, List.getElem?_eq_getElem h0]
  simpa using hm

/-- The end of a trace with a single cluster. -/
theorem Trace.k_one {sqrt : α → α} {points : List (Point α)} {tag : String}
    {upd : List Int → List (Point α) → Except Err (List (Point α))}
    {n : Nat} {reps : List (Point α)} {logs : List (LogRec α)} {M : Point α}
    {asF : List Int} {repsF : List (Point α)} {st : Status}
    (h : Trace sqrt points 1 tag upd n 0 reps (List.replicate points.length (-1)) logs
      asF repsF st)
    (hne : points ≠ []) (hn : n ≠ 0) (hlen : reps.length = 1)
    (hupd : ∀ cs : List (Point α), cs.length = 1 →
      upd (List.replicate points.length 0) cs = .ok [M]) :
    asF = List.replicate points.length 0 ∧ repsF = [M] := by
  have hA := nearestAll_ne_unassigned sqrt points reps 1 hne (le_refl _) (by simpa using hlen)
  have hu1 := hupd reps hlen
  rw [← nearestAll_k_one sqrt points reps hlen] at hu1
  have hM : nearestAll sqrt [M] 1 points = nearestAll sqrt reps 1 points := by
    rw [nearestAll_k_one sqrt points reps hlen, nearestAll_k_one sqrt points [M] rfl]
  rcases Trace.two_phase h hA hu1 hM with ⟨h0, _⟩ | ⟨_, _, h1, h2, _⟩ | ⟨_, _, h1, h2, _⟩
  · exact absurd h0 hn
  · exact ⟨by rw [h1, nearestAll_k_one sqrt points reps hlen], h2⟩
  · exact ⟨by rw [h1, nearestAll_k_one sqrt points reps hlen], h2⟩

/-- C14. Over exact arithmetic, for a non-empty point list, `k = 1` and
`maxIter ≥ 1`, `kMeans` returns assignments all equal to 0 and the single
centroid whose coordinates are the arithmetic means of the coordinates of all
input points. -/
theorem C14_single_centroid (sqrt : α → α) (points : List (Point α)) (maxIter : Int)
    (hne : points ≠ []) (hm : 1 ≤ maxIter) :
    ∃ r, kMeans sqrt points 1 maxIter = .ok r ∧
      r.assignments = List.replicate points.length 0 ∧
      r.centroids = [((points.map (fun p => p.1)).sum / (points.length : α),
        (points.map (fun p => p.2)).sum / (points.length : α))] := by
  have hpos : 0 < points.length := List.length_pos.2 hne
  obtain ⟨r, st, h⟩ := kMeansRun_ok sqrt points 1 maxIter (Or.inr (by omega))
  have hs : (slice0 points 1).length = 1 :=
    slice0_length points 1 (by decide) (by simpa using hpos)
  obtain ⟨h1, h2⟩ := Trace.k_one (kMeansRun_trace h) hne (by omega) hs
    (fun cs hcs => meansUpdate_k_one points cs hne hcs)
  refine ⟨r, kMeans_of_run h, h1, ?_⟩
  rw [h2, meanOf, sumBy_eq_sum, sumBy_eq_sum]

/-- C14, witness: the points `[1,0], [2,0], [6,0]`. -/
theorem C14_single_centroid_witness :
    ∃ r, kMeans Real.sqrt [((1 : ℝ), (0 : ℝ)), (2, 0), (6, 0)] 1 100 = .ok r ∧
      r.assignments = List.replicate [((1 : ℝ), (0 : ℝ)), (2, 0), (6, 0)].length 0 ∧
      r.centroids = [(([((1 : ℝ), (0 : ℝ)), (2, 0), (6, 0)].map (fun p => p.1)).sum /
          ([((1 : ℝ), (0 : ℝ)), (2, 0), (6, 0)].length : ℝ),
        ([((1 : ℝ), (0 : ℝ)), (2, 0), (6, 0)].map (fun p => p.2)).sum /
          ([((1 : ℝ), (0 : ℝ)), (2, 0), (6, 0)].length : ℝ))] :=
  C14_single_centroid Real.sqrt [((1 : ℝ), (0 : ℝ)), (2, 0), (6, 0)] 100
    (by simp) (by decide)

/-- C15 (amended). Over exact arithmetic, for a non-empty point list, `k = 1`
and `maxIter ≥ 1`, `kMedoids` returns assignments all equal to 0 and a single
medoid, the first input point of least total distance to all input points: no
input point has a strictly smaller total distance, and every earlier one has a
strictly larger one. -/
theorem C15_single_medoid (sqrt : α → α) (points : List (Point α)) (maxIter : Int)
    (hne : points ≠ []) (hm : 1 ≤ maxIter) :
    ∃ r m, kMedoids sqrt points 1 maxIter = .ok r ∧
      r.assignments = List.replicate points.length 0 ∧
      r.medoids = [m] ∧ FirstMinCost sqrt points m := by
  have hpos : 0 < points.length := List.length_pos.2 hne
  obtain ⟨r, st, h⟩ := kMedoidsRun_ok sqrt points 1 maxIter (Or.inr (by omega))
  have hs : (slice0 points 1).length = 1 :=
    slice0_length points 1 (by decide) (by simpa using hpos)
  obtain ⟨m, hmed, hfm⟩ := medoidOf_firstMinCost sqrt points hne
  obtain ⟨h1, h2⟩ := Trace.k_one (kMedoidsRun_trace h) hne (by omega) hs
    (fun cs hcs => medoidsUpdate_k_one sqrt points cs m hmed hne hcs)
  exact ⟨r, m, kMedoids_of_run h, h1, h2, hfm⟩

/-- C15, witness: the points `[1,0], [2,0], [6,0]`. -/
theorem C15_single_medoid_witness :
    ∃ r m, kMedoids Real.sqrt [((1 : ℝ), (0 : ℝ)), (2, 0), (6, 0)] 1 100 = .ok r ∧
      r.assignments = List.replicate [((1 : ℝ), (0 : ℝ)), (2, 0), (6, 0)].length 0 ∧
      r.medoids = [m] ∧ FirstMinCost Real.sqrt [((1 : ℝ), (0 : ℝ)), (2, 0), (6, 0)] m :=
  C15_single_medoid Real.sqrt [((1 : ℝ), (0 : ℝ)), (2, 0), (6, 0)] 100
    (by simp) (by decide)

/-! ### As many clusters as points (C13) -/

theorem sqDist_self (a : Point α) : sqDist a a = 0 := by
  simp [sqDist]

theorem sqDist_pos {a b : Point α} (h : a ≠ b) : 0 < sqDist a b := by
  by_contra hle
  rw [not_lt] at hle
  have h1 : (a.1 - b.1) ^ 2 = 0 :=
    le_antisymm (le_trans (le_add_of_nonneg_right (sq_nonneg _)) hle) (sq_nonneg _)
  have h2 : (a.2 - b.2) ^ 2 = 0 :=
    le_antisymm (le_trans (le_add_of_nonneg_left (sq_nonneg _)) hle) (sq_nonneg _)
  apply h
  have e1 : a.1 = b.1 := by
    have := pow_eq_zero_iff (two_ne_zero) |>.1 h1
    exact sub_eq_zero.1 this
  have e2 : a.2 = b.2 := by
    have := pow_eq_zero_iff (two_ne_zero) |>.1 h2
    exact sub_eq_zero.1 this
  exact Prod.ext e1 e2

/-- Among pairwise distinct representatives a point that is one of them is
nearest to itself. -/
theorem near_self (sqrt : α → α) (hsqrt : ∀ x y : α, 0 ≤ x → x < y → sqrt x < sqrt y)
    (points : List (Point α)) (hnd : points.Nodup) (k : Int) (hk1 : 1 ≤ k)
    (hk : k.toNat = points.length) (i : Nat) (hi : i < points.length) :
    near sqrt points k points[i] = (i : Int) := by
  obtain ⟨b, hb, hbK, rb, hrb, hmin, _⟩ := nearest_spec sqrt points[i] points k
    (by omega) (by omega)
  rw [near_of_ok hb]
  have hbl : b < points.length := by omega
  rw [List.getElem?_eq_getElem hbl] at hrb
  have erb : points[b] = rb := by simpa using hrb
  subst erb
  have hle := hmin i points[i] (by omega) (List.getElem?_eq_getElem hi)
  have heq : points[b] = points[i] := by
    by_contra hne
    have hpos : sqDist points[i] points[i] < sqDist points[i] points[b] := by
      rw [sqDist_self]
      exact sqDist_pos (fun h => hne h.symm)
    have hlt : distance sqrt points[i] points[i] < distance sqrt points[i] points[b] :=
      hsqrt _ _ (sqDist_nonneg _ _) hpos
    exact absurd hle (not_le.2 hlt)
  have := (List.Nodup.getElem_inj_iff hnd).1 heq
  omega

/-- With the points themselves as representatives, all distinct, the cluster
of index `j` is the single point `points[j]`. -/
theorem assignedPoints_self (sqrt : α → α)
    (hsqrt : ∀ x y : α, 0 ≤ x → x < y → sqrt x < sqrt y)
    (points : List (Point α)) (hnd : points.Nodup) (k : Int) (hk1 : 1 ≤ k)
    (hk : k.toNat = points.length) (j : Nat) (hj : j < points.length) :
    assignedPoints points (nearestAll sqrt points k points) j = [points[j]] := by
  unfold nearestAll
  rw [assignedPoints_map]
  have hcongr : points.filter (fun p => decide (near sqrt points k p = (j : Int))) =
      points.filter (fun p => decide (p = points[j])) := by
    apply List.filter_congr
    intro p hp
    obtain ⟨i, hi, rfl⟩ := List.getElem_of_mem hp
    rw [near_self sqrt hsqrt points hnd k hk1 hk i hi]
    have hiff : ((i : Int) = (j : Int)) ↔ points[i] = points[j] := by
      rw [List.Nodup.getElem_inj_iff hnd]
      omega
    simp [hiff]
  rw [hcongr, List.filter_eq,
    List.count_eq_one_of_mem hnd (List.getElem_mem hj)]
  rfl

theorem meanOf_singleton (x : Point α) : meanOf [x] = x := by
  simp [meanOf, sumBy]

theorem medoidOf_singleton (sqrt : α → α) (x : Point α) : medoidOf sqrt [x] = some x := by
  simp [medoidOf, bestLoop, ltInf]

theorem meansUpdate_self (sqrt : α → α)
    (hsqrt : ∀ x y : α, 0 ≤ x → x < y → sqrt x < sqrt y)
    (points : List (Point α)) (hnd : points.Nodup) (k : Int) (hk1 : 1 ≤ k)
    (hk : k.toNat = points.length) :
    meansUpdate points k (nearestAll sqrt points k points) points = .ok points := by
  obtain ⟨cs2, h1, _, h3⟩ := meansUpdate_spec points k (nearestAll sqrt points k points) points
  rw [h1]
  congr 1
  apply List.ext_getElem?
  intro j
  rw [h3 j]
  by_cases hj : j < points.length
  · rw [assignedPoints_self sqrt hsqrt points hnd k hk1 hk j hj,
      if_pos ⟨by omega, by simp⟩, meanOf_singleton, List.getElem?_eq_getElem hj]
    rfl
  · rw [List.getElem?_eq_none (not_lt.1 hj)]
    split <;> rfl

theorem medoidsUpdate_self (sqrt : α → α)
    (hsqrt : ∀ x y : α, 0 ≤ x → x < y → sqrt x < sqrt y)
    (points : List (Point α)) (hnd : points.Nodup) (k : Int) (hk1 : 1 ≤ k)
    (hk : k.toNat = points.length) :
    medoidsUpdate sqrt points k (nearestAll sqrt points k points) points = .ok points := by
  obtain ⟨ms2, h1, _, h3⟩ := medoidsUpdate_spec sqrt points k
    (nearestAll sqrt points k points) points
  rw [h1]
  congr 1
  apply List.ext_getElem?
  intro j
  rw [h3 j]
  by_cases hj : j < points.length
  · rw [assignedPoints_self sqrt hsqrt points hnd k hk1 hk j hj,
      if_pos ⟨by omega, by simp⟩, medoidOf_singleton, List.getElem?_eq_getElem hj]
    rfl
  · rw [List.getElem?_eq_none (not_lt.1 hj)]
    split <;> rfl

theorem nearestAll_self_getElem (sqrt : α → α)
    (hsqrt : ∀ x y : α, 0 ≤ x → x < y → sqrt x < sqrt y)
    (points : List (Point α)) (hnd : points.Nodup) (k : Int) (hk1 : 1 ≤ k)
    (hk : k.toNat = points.length) (i : Nat) (hi : i < points.length) :
    (nearestAll sqrt points k points)[i]? = some (i : Int) := by
  simp [nearestAll, List.getElem?_eq_getElem hi, near_self sqrt hsqrt points hnd k hk1 hk i hi]

/-- A trace from pairwise distinct points that are their own representatives:
the first pass assigns every point to itself, the update changes nothing, and
the second pass, if there is one, converges. -/
theorem Trace.self_clusters {sqrt : α → α} {points : List (Point α)} {k : Int}
    {tag : String} {upd : List Int → List (Point α) → Except Err (List (Point α))}
    {n : Nat} {logs : List (LogRec α)}
    {asF : List Int} {repsF : List (Point α)} {st : Status}
    (h : Trace sqrt points k tag upd n 0 points (List.replicate points.length (-1)) logs
      asF repsF st)
    (hsqrt : ∀ x y : α, 0 ≤ x → x < y → sqrt x < sqrt y)
    (hnd : points.Nodup) (hne : points ≠ []) (hk1 : 1 ≤ k) (hk : k.toNat = points.length)
    (hn : n ≠ 0)
    (hupd : upd (nearestAll sqrt points k points) points = .ok points) :
    (∀ i : Nat, i < points.length → asF[i]? = some (i : Int)) ∧ repsF = points ∧
    (n = 1 → st = .BudgetExhausted ∧ logs = [⟨0, tag, points, points⟩]) ∧
    (2 ≤ n → st = .Converged ∧
      logs = [⟨0, tag, points, points⟩, ⟨1, tag, points, points⟩]) := by
  have hA := nearestAll_ne_unassigned sqrt points points k hne hk1 hk.symm
  have hidx := nearestAll_self_getElem sqrt hsqrt points hnd k hk1 hk
  rcases Trace.two_phase h hA hupd rfl with ⟨h0, _⟩ | ⟨h1, hl, ha, hr, hs⟩ | ⟨h2, hl, ha, hr, hs⟩
  · exact absurd h0 hn
  · exact ⟨fun i hi => by rw [ha]; exact hidx i hi, hr, fun _ => ⟨hs, hl⟩,
      fun h2 => by omega⟩
  · exact ⟨fun i hi => by rw [ha]; exact hidx i hi, hr, fun h1 => by omega,
      fun _ => ⟨hs, hl⟩⟩

/-- C13 (amended). Over exact arithmetic with a strictly increasing square
root, for a non-empty list of pairwise distinct points, `k = points.length`
and `maxIter ≥ 1`, `kMeans` and `kMedoids` return `assignments[i] = i` and the
points themselves as representatives. Iteration 0 does not converge (its pass
changes every assignment from `-1`): with `maxIter = 1` the run exhausts its
budget with the single record of iteration 0, and with `maxIter ≥ 2` it
converges at iteration 1 with two records; every snapshot is the point list. -/
theorem C13_singleton_clusters (sqrt : α → α)
    (hsqrt : ∀ x y : α, 0 ≤ x → x < y → sqrt x < sqrt y)
    (points : List (Point α)) (maxIter : Int)
    (hnd : points.Nodup) (hne : points ≠ []) (hm : 1 ≤ maxIter) :
    (∃ r st, kMeansRun sqrt points points.length maxIter = .ok (r, st) ∧
      kMeans sqrt points points.length maxIter = .ok r ∧
      (∀ i : Nat, i < points.length → r.assignments[i]? = some (i : Int)) ∧
      r.centroids = points ∧
      (maxIter = 1 → st = .BudgetExhausted ∧ r.logs = [⟨0, "kmeans", points, points⟩]) ∧
      (2 ≤ maxIter → st = .Converged ∧
        r.logs = [⟨0, "kmeans", points, points⟩, ⟨1, "kmeans", points, points⟩])) ∧
    (∃ r st, kMedoidsRun sqrt points points.length maxIter = .ok (r, st) ∧
      kMedoids sqrt points points.length maxIter = .ok r ∧
      (∀ i : Nat, i < points.length → r.assignments[i]? = some (i : Int)) ∧
      r.medoids = points ∧
      (maxIter = 1 → st = .BudgetExhausted ∧ r.logs = [⟨0, "kmedoids", points, points⟩]) ∧
      (2 ≤ maxIter → st = .Converged ∧
        r.logs = [⟨0, "kmedoids", points, points⟩, ⟨1, "kmedoids", points, points⟩])) := by
  have hpos : 0 < points.length := List.length_pos.2 hne
  have hk1 : (1 : Int) ≤ (points.length : Int) := by omega
  have hk : ((points.length : Int)).toNat = points.length := by simp
  have hs : slice0 points (points.length : Int) = points := by
    rw [slice0_eq_take points _ (by omega), hk, List.take_length]
  constructor
  · obtain ⟨r, st, h⟩ := kMeansRun_ok sqrt points points.length maxIter (Or.inr (le_refl _))
    have htr := kMeansRun_trace h
    rw [hs] at htr
    obtain ⟨h1, h2, h3, h4⟩ := Trace.self_clusters htr hsqrt hnd hne hk1 hk (by omega)
      (meansUpdate_self sqrt hsqrt points hnd _ hk1 hk)
    exact ⟨r, st, h, kMeans_of_run h, h1, h2, fun hm1 => h3 (by omega),
      fun hm2 => h4 (by omega)⟩
  · obtain ⟨r, st, h⟩ := kMedoidsRun_ok sqrt points points.length maxIter (Or.inr (le_refl _))
    have htr := kMedoidsRun_trace h
    rw [hs] at htr
    obtain ⟨h1, h2, h3, h4⟩ := Trace.self_clusters htr hsqrt hnd hne hk1 hk (by omega)
      (medoidsUpdate_self sqrt hsqrt points hnd _ hk1 hk)
    exact ⟨r, st, h, kMedoids_of_run h, h1, h2, fun hm1 => h3 (by omega),
      fun hm2 => h4 (by omega)⟩

/-- C13, witness: the real square root on the two points `[1,0], [3,0]`. -/
theorem C13_singleton_clusters_witness :
    (∃ r st, kMeansRun Real.sqrt [((1 : ℝ), (0 : ℝ)), (3, 0)]
        [((1 : ℝ), (0 : ℝ)), (3, 0)].length 100 = .ok (r, st) ∧
      kMeans Real.sqrt [((1 : ℝ), (0 : ℝ)), (3, 0)]
        [((1 : ℝ), (0 : ℝ)), (3, 0)].length 100 = .ok r ∧
      (∀ i : Nat, i < [((1 : ℝ), (0 : ℝ)), (3, 0)].length →
        r.assignments[i]? = some (i : Int)) ∧
      r.centroids = [((1 : ℝ), (0 : ℝ)), (3, 0)] ∧
      ((100 : Int) = 1 → st = .BudgetExhausted ∧
        r.logs = [⟨0, "kmeans", [((1 : ℝ), (0 : ℝ)), (3, 0)],
          [((1 : ℝ), (0 : ℝ)), (3, 0)]⟩]) ∧
      ((2 : Int) ≤ 100 → st = .Converged ∧
        r.logs = [⟨0, "kmeans", [((1 : ℝ), (0 : ℝ)), (3, 0)], [((1 : ℝ), (0 : ℝ)), (3, 0)]⟩,
          ⟨1, "kmeans", [((1 : ℝ), (0 : ℝ)), (3, 0)], [((1 : ℝ), (0 : ℝ)), (3, 0)]⟩])) ∧
    (∃ r st, kMedoidsRun Real.sqrt [((1 : ℝ), (0 : ℝ)), (3, 0)]
        [((1 : ℝ), (0 : ℝ)), (3, 0)].length 100 = .ok (r, st) ∧
      kMedoids Real.sqrt [((1 : ℝ), (0 : ℝ)), (3, 0)]
        [((1 : ℝ), (0 : ℝ)), (3, 0)].length 100 = .ok r ∧
      (∀ i : Nat, i < [((1 : ℝ), (0 : ℝ)), (3, 0)].length →
        r.assignments[i]? = some (i : Int)) ∧
      r.medoids = [((1 : ℝ), (0 : ℝ)), (3, 0)] ∧
      ((100 : Int) = 1 → st = .BudgetExhausted ∧
        r.logs = [⟨0, "kmedoids", [((1 : ℝ), (0 : ℝ)), (3, 0)],
          [((1 : ℝ), (0 : ℝ)), (3, 0)]⟩]) ∧
      ((2 : Int) ≤ 100 → st = .Converged ∧
        r.logs = [⟨0, "kmedoids", [((1 : ℝ), (0 : ℝ)), (3, 0)],
            [((1 : ℝ), (0 : ℝ)), (3, 0)]⟩,
          ⟨1, "kmedoids", [((1 : ℝ), (0 : ℝ)), (3, 0)], [((1 : ℝ), (0 : ℝ)), (3, 0)]⟩])) :=
  C13_singleton_clusters Real.sqrt (fun _ _ hx hxy => Real.sqrt_lt_sqrt hx hxy)
    [((1 : ℝ), (0 : ℝ)), (3, 0)] 100 (by simp) (by simp) (by decide)

/-- The run of `kMeans` on the two points `[1,0], [3,0]` with `k = 2`. -/
theorem kMeansRun_two_points_example :
    kMeansRun Real.sqrt [((1 : ℝ), (0 : ℝ)), (3, 0)] 2 100 =
      .ok (⟨[0, 1], [(1, 0), (3, 0)],
        [⟨0, "kmeans", [(1, 0), (3, 0)], [(1, 0), (3, 0)]⟩,
          ⟨1, "kmeans", [(1, 0), (3, 0)], [(1, 0), (3, 0)]⟩]⟩, .Converged) := by
  have n0 : nearest Real.sqrt ((1 : ℝ), (0 : ℝ)) [(1, 0), (3, 0)] 2 = .ok 0 := by
    simp only [nearest, nearestLoop, ltInf]
    norm_num [distance_axis]
  have n1 : nearest Real.sqrt ((3 : ℝ), (0 : ℝ)) [(1, 0), (3, 0)] 2 = .ok 1 := by
    simp only [nearest, nearestLoop, ltInf]
    norm_num [distance_axis]
  have ha : assignLoop Real.sqrt [((1 : ℝ), (0 : ℝ)), (3, 0)] 2
      [((1 : ℝ), (0 : ℝ)), (3, 0)] 0 [-1, -1] false = .ok ([0, 1], true) := by
    simp [assignLoop, n0, n1]
  have ha2 : assignLoop Real.sqrt [((1 : ℝ), (0 : ℝ)), (3, 0)] 2
      [((1 : ℝ), (0 : ℝ)), (3, 0)] 0 [0, 1] false = .ok ([0, 1], false) := by
    simp [assignLoop, n0, n1]
  have hu : updateCentroidsLoop [((1 : ℝ), (0 : ℝ)), (3, 0)] [0, 1] (Int.toNat 2) 0
      [(1, 0), (3, 0)] = .ok [(1, 0), (3, 0)] := by
    show updateCentroidsLoop [((1 : ℝ), (0 : ℝ)), (3, 0)] [0, 1] 2 0 [(1, 0), (3, 0)] = _
    simp [updateCentroidsLoop, assignedPoints, filterIdx, sumBy, checkedDiv]
  have hs : slice0 [((1 : ℝ), (0 : ℝ)), (3, 0)] 2 = [(1, 0), (3, 0)] := by
    simp [slice0]
  simp only [kMeansRun, hs]
  show kMeansLoop Real.sqrt _ 2 100 0 _ [-1, -1] [] = _
  rw [kMeansLoop]
  simp only [ha, hu, Bool.not_true, Bool.false_eq_true, if_false]
  rw [kMeansLoop]
  simp [ha2]

/-- The run of `kMedoids` on the two points `[1,0], [3,0]` with `k = 2`. -/
theorem kMedoidsRun_two_points_example :
    kMedoidsRun Real.sqrt [((1 : ℝ), (0 : ℝ)), (3, 0)] 2 100 =
      .ok (⟨[0, 1], [(1, 0), (3, 0)],
        [⟨0, "kmedoids", [(1, 0), (3, 0)], [(1, 0), (3, 0)]⟩,
          ⟨1, "kmedoids", [(1, 0), (3, 0)], [(1, 0), (3, 0)]⟩]⟩, .Converged) := by
  have n0 : nearest Real.sqrt ((1 : ℝ), (0 : ℝ)) [(1, 0), (3, 0)] 2 = .ok 0 := by
    simp only [nearest, nearestLoop, ltInf]
    norm_num [distance_axis]
  have n1 : nearest Real.sqrt ((3 : ℝ), (0 : ℝ)) [(1, 0), (3, 0)] 2 = .ok 1 := by
    simp only [nearest, nearestLoop, ltInf]
    norm_num [distance_axis]
  have ha : assignLoop Real.sqrt [((1 : ℝ), (0 : ℝ)), (3, 0)] 2
      [((1 : ℝ), (0 : ℝ)), (3, 0)] 0 [-1, -1] false = .ok ([0, 1], true) := by
    simp [assignLoop, n0, n1]
  have ha2 : assignLoop Real.sqrt [((1 : ℝ), (0 : ℝ)), (3, 0)] 2
      [((1 : ℝ), (0 : ℝ)), (3, 0)] 0 [0, 1] false = .ok ([0, 1], false) := by
    simp [assignLoop, n0, n1]
  have hu : updateMedoidsLoop Real.sqrt [((1 : ℝ), (0 : ℝ)), (3, 0)] [0, 1] (Int.toNat 2) 0
      [(1, 0), (3, 0)] = .ok [(1, 0), (3, 0)] := by
    show updateMedoidsLoop Real.sqrt [((1 : ℝ), (0 : ℝ)), (3, 0)] [0, 1] 2 0
      [(1, 0), (3, 0)] = _
    simp [updateMedoidsLoop, assignedPoints, filterIdx, bestLoop, ltInf]
  have hs : slice0 [((1 : ℝ), (0 : ℝ)), (3, 0)] 2 = [(1, 0), (3, 0)] := by
    simp [slice0]
  simp only [kMedoidsRun, hs]
  show kMedoidsLoop Real.sqrt _ 2 100 0 _ [-1, -1] [] = _
  rw [kMedoidsLoop]
  simp only [ha, hu, Bool.not_true, Bool.false_eq_true, if_false]
  rw [kMedoidsLoop]
  simp [ha2]

/-! ### Running again from the converged representatives (C12) -/

/-- What a converged trace within the preconditions leaves: representatives
that reproduce the final assignments and that the update maps to themselves. -/
theorem Trace.converged_state {sqrt : α → α} {points : List (Point α)} {k : Int}
    {tag : String} {upd : List Int → List (Point α) → Except Err (List (Point α))}
    (hlen : ∀ as cs cs2, upd as cs = .ok cs2 → cs2.length = cs.length)
    (hidem : ∀ as cs cs2, upd as cs = .ok cs2 → upd as cs2 = .ok cs2)
    {n : Nat} {reps : List (Point α)} {logs : List (LogRec α)}
    {asF : List Int} {repsF : List (Point α)}
    (h : Trace sqrt points k tag upd n 0 reps (List.replicate points.length (-1)) logs
      asF repsF .Converged)
    (hne : points ≠ []) (hk1 : 1 ≤ k) (hreps : reps.length = k.toNat) :
    2 ≤ n ∧ repsF.length = k.toNat ∧ nearestAll sqrt repsF k points = asF ∧
      asF ≠ List.replicate points.length (-1) ∧ upd asF repsF = .ok repsF := by
  have hl : repsF.length = k.toNat := by rw [(Trace.last hlen h).1, hreps]
  obtain ⟨_, hnear, h3⟩ := Trace.converged_fixed h rfl
  have hA := nearestAll_ne_unassigned sqrt points repsF k hne hk1 hl
  rw [hnear] at hA
  rcases h3 with ⟨_, e2, _⟩ | ⟨hn, cs, hcs⟩
  · exact absurd e2 hA
  · exact ⟨hn, hl, hnear, hA, hidem _ _ _ hcs⟩

/-- The loop of `kMeans` run again from the centroids of a converged run. -/
theorem kMeansFrom_converged (sqrt : α → α) (points : List (Point α)) (k maxIter : Int)
    (hne : points ≠ []) (hk1 : 1 ≤ k) (hk : k ≤ points.length) (r : MeansResult α)
    (hrun : kMeansRun sqrt points k maxIter = .ok (r, .Converged)) :
    kMeansFrom sqrt points k maxIter r.centroids =
      .ok (⟨r.assignments, r.centroids,
        [⟨0, "kmeans", r.centroids, r.centroids⟩, ⟨1, "kmeans", r.centroids, r.centroids⟩]⟩,
        .Converged) := by
  have hs : (slice0 points k).length = k.toNat := slice0_length points k (by omega) (by omega)
  obtain ⟨hn, hl, hnear, hA, hfix⟩ := Trace.converged_state (meansUpdate_length points k)
    (meansUpdate_idem points k) (kMeansRun_trace hrun) hne hk1 hs
  obtain ⟨r2, st2, h2⟩ := kMeansLoop_total sqrt points k maxIter.toNat 0 r.centroids
    (List.replicate points.length (-1)) [] (by simp) (Or.inr (by omega))
  obtain ⟨newLogs, hlogs, htr⟩ := kMeansLoop_trace sqrt points k _ _ _ _ _ _ _ (by simp) h2
  rw [← hnear] at hA hfix
  rcases Trace.two_phase htr hA hfix rfl with ⟨h0, _⟩ | ⟨h1, _⟩ | ⟨_, e1, e2, e3, e4⟩
  · omega
  · omega
  · unfold kMeansFrom
    rw [h2]
    cases r2
    simp only [List.nil_append] at hlogs e1 e2 e3
    simp only [Except.ok.injEq, Prod.mk.injEq, MeansResult.mk.injEq]
    exact ⟨⟨e2.trans hnear, e3, hlogs.trans e1⟩, e4⟩

/-- The loop of `kMedoids` run again from the medoids of a converged run. -/
theorem kMedoidsFrom_converged (sqrt : α → α) (points : List (Point α)) (k maxIter : Int)
    (hne : points ≠ []) (hk1 : 1 ≤ k) (hk : k ≤ points.length) (r : MedoidsResult α)
    (hrun : kMedoidsRun sqrt points k maxIter = .ok (r, .Converged)) :
    kMedoidsFrom sqrt points k maxIter r.medoids =
      .ok (⟨r.assignments, r.medoids,
        [⟨0, "kmedoids", r.medoids, r.medoids⟩, ⟨1, "kmedoids", r.medoids, r.medoids⟩]⟩,
        .Converged) := by
  have hs : (slice0 points k).length = k.toNat := slice0_length points k (by omega) (by omega)
  obtain ⟨hn, hl, hnear, hA, hfix⟩ := Trace.converged_state
    (medoidsUpdate_length sqrt points k) (medoidsUpdate_idem sqrt points k)
    (kMedoidsRun_trace hrun) hne hk1 hs
  obtain ⟨r2, st2, h2⟩ := kMedoidsLoop_total sqrt points k maxIter.toNat 0 r.medoids
    (List.replicate points.length (-1)) [] (by simp) (Or.inr (by omega))
  obtain ⟨newLogs, hlogs, htr⟩ := kMedoidsLoop_trace sqrt points k _ _ _ _ _ _ _ (by simp) h2
  rw [← hnear] at hA hfix
  rcases Trace.two_phase htr hA hfix rfl with ⟨h0, _⟩ | ⟨h1, _⟩ | ⟨_, e1, e2, e3, e4⟩
  · omega
  · omega
  · unfold kMedoidsFrom
    rw [h2]
    cases r2
    simp only [List.nil_append] at hlogs e1 e2 e3
    simp only [Except.ok.injEq, Prod.mk.injEq, MedoidsResult.mk.injEq]
    exact ⟨⟨e2.trans hnear, e3, hlogs.trans e1⟩, e4⟩

/-- The seed of `kMeans` is the only difference to `kMeansFrom`. -/
theorem kMeansRun_eq_from (sqrt : α → α) (points : List (Point α)) (k maxIter : Int) :
    kMeansRun sqrt points k maxIter = kMeansFrom sqrt points k maxIter (slice0 points k) :=
  rfl

/-- The seed of `kMedoids` is the only difference to `kMedoidsFrom`. -/
theorem kMedoidsRun_eq_from (sqrt : α → α) (points : List (Point α)) (k maxIter : Int) :
    kMedoidsRun sqrt points k maxIter = kMedoidsFrom sqrt points k maxIter (slice0 points k) :=
  rfl

/-- C12 (amended). For every converged run of `kMeans` or `kMedoids` with
non-empty points and `1 ≤ k ≤ points.length`, running the loop again from the
converged representatives (assignments reset to `-1`, as the engine always
does) converges at iteration 1, not 0: the second run's log has exactly two
records, of iterations 0 and 1, each with `initial` and `updated` equal to the
converged representatives, and its assignments and representatives are those
of the first run. -/
theorem C12_rerun_from_converged (sqrt : α → α) (points : List (Point α))
    (k maxIter : Int) (hne : points ≠ []) (hk1 : 1 ≤ k) (hk : k ≤ points.length) :
    (∀ r, kMeansRun sqrt points k maxIter = .ok (r, .Converged) →
      kMeansFrom sqrt points k maxIter r.centroids =
        .ok (⟨r.assignments, r.centroids,
          [⟨0, "kmeans", r.centroids, r.centroids⟩,
            ⟨1, "kmeans", r.centroids, r.centroids⟩]⟩, .Converged)) ∧
    (∀ r, kMedoidsRun sqrt points k maxIter = .ok (r, .Converged) →
      kMedoidsFrom sqrt points k maxIter r.medoids =
        .ok (⟨r.assignments, r.medoids,
          [⟨0, "kmedoids", r.medoids, r.medoids⟩,
            ⟨1, "kmedoids", r.medoids, r.medoids⟩]⟩, .Converged)) :=
  ⟨kMeansFrom_converged sqrt points k maxIter hne hk1 hk,
    kMedoidsFrom_converged sqrt points k maxIter hne hk1 hk⟩

/-- C12, witness: the converged runs on `[1,0], [3,0]` with `k = 1`. -/
theorem C12_rerun_from_converged_witness :
    kMeansFrom Real.sqrt [((1 : ℝ), (0 : ℝ)), (3, 0)] 1 100 [(2, 0)] =
        .ok (⟨[0, 0], [(2, 0)],
          [⟨0, "kmeans", [(2, 0)], [(2, 0)]⟩, ⟨1, "kmeans", [(2, 0)], [(2, 0)]⟩]⟩,
          .Converged) ∧
    kMedoidsFrom Real.sqrt [((1 : ℝ), (0 : ℝ)), (3, 0)] 1 100 [(1, 0)] =
        .ok (⟨[0, 0], [(1, 0)],
          [⟨0, "kmedoids", [(1, 0)], [(1, 0)]⟩, ⟨1, "kmedoids", [(1, 0)], [(1, 0)]⟩]⟩,
          .Converged) :=
  ⟨(C12_rerun_from_converged Real.sqrt [((1 : ℝ), (0 : ℝ)), (3, 0)] 1 100
      (by simp) (by decide) (by decide)).1 _ kMeansRun_converged_example,
    (C12_rerun_from_converged Real.sqrt [((1 : ℝ), (0 : ℝ)), (3, 0)] 1 100
      (by simp) (by decide) (by decide)).2 _ kMedoidsRun_converged_example⟩

/-- C12, counterexample: `kMedoids` on `[1,0], [3,0]` with `k = 1` converges
with the medoid `[1,0]`, which is also its seed `points.slice(0, 1)`; run
again from this medoid the loop logs two records and converges at iteration
1, not 0. -/
theorem C12_counterexample :
    ∃ r, kMedoidsRun Real.sqrt [((1 : ℝ), (0 : ℝ)), (3, 0)] 1 100 = .ok (r, .Converged) ∧
      r.medoids = slice0 [((1 : ℝ), (0 : ℝ)), (3, 0)] 1 ∧
      ∃ r2, kMedoidsFrom Real.sqrt [((1 : ℝ), (0 : ℝ)), (3, 0)] 1 100 r.medoids =
          .ok (r2, .Converged) ∧
        r2.logs.length = 2 ∧ r2.logs.map (fun rec => rec.iter) = [0, 1] := by
  refine ⟨_, kMedoidsRun_converged_example, by simp [slice0],
    ⟨[0, 0], [(1, 0)],
      [⟨0, "kmedoids", [(1, 0)], [(1, 0)]⟩, ⟨1, "kmedoids", [(1, 0)], [(1, 0)]⟩]⟩,
    ?_, rfl, rfl⟩
  have hs : slice0 [((1 : ℝ), (0 : ℝ)), (3, 0)] 1 = [(1, 0)] := by simp [slice0]
  have h := kMedoidsRun_eq_from Real.sqrt [((1 : ℝ), (0 : ℝ)), (3, 0)] 1 100
  rw [hs, kMedoidsRun_converged_example] at h
  exact h.symm

/-! ### The total distance of `kMedoids` does not increase (C19) -/

/-- The cluster of an index after an assignment pass, as a filter of the
points. -/
theorem assignedPoints_nearestAll (sqrt : α → α) (points reps : List (Point α)) (k : Int)
    (hk1 : 1 ≤ k) (hlen : reps.length = k.toNat) (c : Nat) :
    assignedPoints points (nearestAll sqrt reps k points) c =
      points.filter (fun p => decide ((near sqrt reps k p).toNat = c)) := by
  unfold nearestAll
  rw [assignedPoints_map]
  apply List.filter_congr
  intro p _
  have := (near_range sqrt p reps k hk1 hlen).1
  have hiff : (near sqrt reps k p = (c : Int)) ↔ ((near sqrt reps k p).toNat = c) := by omega
  simp [hiff]

/-- Moving every point to its nearest representative does not increase the sum
of distances. -/
theorem nearest_dist_le (sqrt : α → α) (points : List (Point α)) (k : Int) (hk1 : 1 ≤ k)
    (cs : List (Point α)) (hlen : cs.length = k.toNat) (g : Point α → Nat)
    (hg : ∀ p ∈ points, g p < k.toNat) :
    (points.map (fun p => distance sqrt p (cs.getD (near sqrt cs k p).toNat p))).sum ≤
      (points.map (fun p => distance sqrt p (cs.getD (g p) p))).sum := by
  apply List.sum_le_sum
  intro p hp
  obtain ⟨b, hb, _, rb, hrb, hmin, _⟩ := nearest_spec sqrt p cs k (by omega) (by omega)
  have hgp : g p < cs.length := by have := hg p hp; omega
  have hle := hmin (g p) cs[g p] (hg p hp) (List.getElem?_eq_getElem hgp)
  simp only [near_of_ok hb, Int.toNat_ofNat, List.getD_eq_getElem?_getD, hrb,
    List.getElem?_eq_getElem hgp, Option.getD_some]
  exact hle

/-- A medoid that is an input point and whose cluster is not empty belongs to
its own cluster, the square root being strictly increasing. -/
theorem medoid_mem_cluster (sqrt : α → α)
    (hsqrt : ∀ x y : α, 0 ≤ x → x < y → sqrt x < sqrt y)
    (points : List (Point α)) (k : Int) (hk1 : 1 ≤ k) (ms : List (Point α))
    (hlen : ms.length = k.toNat) (hms : ∀ x ∈ ms, x ∈ points)
    (c : Nat) (hc : c < ms.length)
    (hcl : points.filter (fun p => decide ((near sqrt ms k p).toNat = c)) ≠ []) :
    ms[c] ∈ points.filter (fun p => decide ((near sqrt ms k p).toNat = c)) := by
  obtain ⟨q, qs, hq⟩ := List.exists_cons_of_ne_nil hcl
  have hqm : q ∈ points.filter (fun p => decide ((near sqrt ms k p).toNat = c)) := by
    rw [hq]; exact List.mem_cons_self _ _
  obtain ⟨_, hqc⟩ := List.mem_filter.1 hqm
  have hqc2 : (near sqrt ms k q).toNat = c := by simpa using hqc
  -- the facts about the point `q` of the cluster
  obtain ⟨bq, hbq, _, rq, hrq, _, hfirstq⟩ := nearest_spec sqrt q ms k (by omega) (by omega)
  rw [near_of_ok hbq, Int.toNat_ofNat] at hqc2
  subst hqc2
  rw [List.getElem?_eq_getElem hc] at hrq
  have erq : ms[bq] = rq := by simpa using hrq
  subst erq
  have hdiff : ∀ (j : Nat) (rj : Point α), j < bq → ms[j]? = some rj → rj ≠ ms[bq] := by
    intro j rj hj hrj heq
    have h1 := hfirstq j rj hj hrj
    rw [heq] at h1
    exact lt_irrefl _ h1
  -- the medoid itself
  have hv : ms[bq] ∈ points := hms _ (List.getElem_mem hc)
  obtain ⟨b, hb, hbK, rb, hrb, hmin, hfirst⟩ := nearest_spec sqrt ms[bq] ms k
    (by omega) (by omega)
  have hbl : b < ms.length := by omega
  rw [List.getElem?_eq_getElem hbl] at hrb
  have erb : ms[b] = rb := by simpa using hrb
  subst erb
  have hle := hmin bq ms[bq] (by omega) (List.getElem?_eq_getElem hc)
  have heq : ms[b] = ms[bq] := by
    by_contra hne
    have hpos : sqDist ms[bq] ms[bq] < sqDist ms[bq] ms[b] := by
      rw [sqDist_self]
      exact sqDist_pos (fun h => hne h.symm)
    have hlt : distance sqrt ms[bq] ms[bq] < distance sqrt ms[bq] ms[b] :=
      hsqrt _ _ (sqDist_nonneg _ _) hpos
    exact absurd hle (not_le.2 hlt)
  have hbeq : b = bq := by
    rcases Nat.lt_trichotomy b bq with hlt | heq2 | hgt
    · exact absurd heq (hdiff b ms[b] hlt (List.getElem?_eq_getElem hbl))
    · exact heq2
    · have h1 := hfirst bq ms[bq] hgt (List.getElem?_eq_getElem hc)
      rw [heq] at h1
      exact absurd h1 (lt_irrefl _)
  subst hbeq
  apply List.mem_filter.2
  refine ⟨hv, ?_⟩
  simp [near_of_ok hb]

/-- The medoid update does not increase the sum of the distances of the points
to the medoids they are assigned to, when the assignments are those of the
pass over these medoids and the medoids are input points. -/
theorem medoidsUpdate_dist_le (sqrt : α → α)
    (hsqrt : ∀ x y : α, 0 ≤ x → x < y → sqrt x < sqrt y)
    (points : List (Point α)) (k : Int) (hk1 : 1 ≤ k) (ms ms2 : List (Point α))
    (hlen : ms.length = k.toNat) (hms : ∀ x ∈ ms, x ∈ points)
    (hu : medoidsUpdate sqrt points k (nearestAll sqrt ms k points) ms = .ok ms2) :
    (points.map (fun p => distance sqrt p (ms2.getD (near sqrt ms k p).toNat p))).sum ≤
      (points.map (fun p => distance sqrt p (ms.getD (near sqrt ms k p).toNat p))).sum := by
  obtain ⟨ms3, h1, _, h3⟩ := medoidsUpdate_spec sqrt points k (nearestAll sqrt ms k points) ms
  rw [h1] at hu
  have hu2 : ms3 = ms2 := by simpa using hu
  subst hu2
  have hh : ∀ p ∈ points, (near sqrt ms k p).toNat < k.toNat :=
    fun p _ => (near_range sqrt p ms k hk1 hlen).2
  rw [sum_by_cluster (fun p => (near sqrt ms k p).toNat) k.toNat
      (fun p c => distance sqrt p (ms3.getD c p)) points hh,
    sum_by_cluster (fun p => (near sqrt ms k p).toNat) k.toNat
      (fun p c => distance sqrt p (ms.getD c p)) points hh]
  apply Finset.sum_le_sum
  intro c hc
  have hcK : c < k.toNat := Finset.mem_range.1 hc
  have hspec := h3 c
  rw [assignedPoints_nearestAll sqrt points ms k hk1 hlen c] at hspec
  by_cases hnil : points.filter (fun p => decide ((near sqrt ms k p).toNat = c)) = []
  · rw [hnil]; simp
  · have hclt : c < ms.length := by omega
    obtain ⟨m, hmed, i, _, hmin, _⟩ := medoidOf_firstMinCost sqrt _ hnil
    rw [if_pos ⟨hcK, hnil⟩, List.getElem?_eq_getElem hclt, hmed] at hspec
    simp only [Option.some_bind] at hspec
    simp only [List.getD_eq_getElem?_getD, hspec, List.getElem?_eq_getElem hclt,
      Option.getD_some]
    have hmem := medoid_mem_cluster sqrt hsqrt points k hk1 ms hlen hms c hclt hnil
    have := hmin ms[c] hmem
    simpa [clusterCost, sumBy_eq_sum] using this

/-- Along a trace of `kMedoids` whose medoids are input points the total
distance of a record is at most that of the record before it. -/
theorem Trace.objectiveDist_mono {sqrt : α → α}
    (hsqrt : ∀ x y : α, 0 ≤ x → x < y → sqrt x < sqrt y)
    {points : List (Point α)} {k : Int} (hk1 : 1 ≤ k)
    {n iter : Nat} {reps : List (Point α)} {as : List Int} {logs : List (LogRec α)}
    {asF : List Int} {repsF : List (Point α)} {st : Status}
    (h : Trace sqrt points k "kmedoids" (medoidsUpdate sqrt points k) n iter reps as logs
      asF repsF st)
    (hlen : reps.length = k.toNat) (hreps : ∀ x ∈ reps, x ∈ points) :
    ∀ (j : Nat) (rec1 rec2 : LogRec α), logs[j]? = some rec1 → logs[j + 1]? = some rec2 →
      objectiveDist sqrt points k rec2 ≤ objectiveDist sqrt points k rec1 := by
  induction h with
  | budget => intro j rec1 rec2 h1; simp at h1
  | converged n iter reps as hok hsame => intro j rec1 rec2 _ h2; simp at h2
  | step n iter reps reps2 as logs asF repsF st hok hch hu hrest ih =>
    have hlen2 : reps2.length = k.toNat := by
      rw [medoidsUpdate_length sqrt points k _ _ _ hu, hlen]
    have hreps2 : ∀ x ∈ reps2, x ∈ points := medoidsUpdate_mem sqrt points k _ _ _ hu hreps
    intro j rec1 rec2 h1 h2
    cases j with
    | succ j => exact ih hlen2 hreps2 j rec1 rec2 (by simpa using h1) (by simpa using h2)
    | zero =>
      have e1 : rec1 = ⟨iter, "kmedoids", reps, reps2⟩ := by simpa using h1.symm
      subst e1
      rcases Trace.head hrest with ⟨_, hnil⟩ | ⟨rec, rest, hl, _, _, hinit, _, hcase⟩
      · subst hnil; simp at h2
      · subst hl
        have e2 : rec2 = rec := by simpa using h2.symm
        subst e2
        have hstep : (points.map (fun p =>
            distance sqrt p (reps2.getD (near sqrt reps2 k p).toNat p))).sum ≤
            (points.map (fun p =>
              distance sqrt p (reps2.getD (near sqrt reps k p).toNat p))).sum :=
          nearest_dist_le sqrt points k hk1 reps2 hlen2
            (fun p => (near sqrt reps k p).toNat)
            (fun p _ => (near_range sqrt p reps k hk1 hlen).2)
        rcases hcase with ⟨hupd, hsame, _⟩ | ⟨hupd, _⟩
        · have hnear : ∀ p ∈ points, near sqrt reps2 k p = near sqrt reps k p :=
            List.map_inj_left.1 hsame
          apply le_of_eq
          simp only [objectiveDist, hinit, hupd]
          congr 1
          apply List.map_congr_left
          intro p hp
          rw [hnear p hp]
        · refine le_trans ?_ hstep
          simp only [objectiveDist, hinit]
          exact medoidsUpdate_dist_le sqrt hsqrt points k hk1 reps2 rec2.updated hlen2
            hreps2 hupd

/-- C19 (amended). Over exact arithmetic with a strictly increasing square
root, `kMedoids` within the preconditions returns, and for every pair of
consecutive log records `j`, `j + 1` the total distance `D` (the sum over the
points of the distance to `updated[A(i)]`, `A` the assignment computed from
`initial`) satisfies `D (j + 1) ≤ D j`; every index `A(i)` is inside
`updated`; and in every record a medoid of `initial` whose cluster is not
empty is itself a member of that cluster. -/
theorem C19_total_distance_non_increasing (sqrt : α → α)
    (hsqrt : ∀ x y : α, 0 ≤ x → x < y → sqrt x < sqrt y)
    (points : List (Point α)) (k maxIter : Int)
    (_hne : points ≠ []) (hk1 : 1 ≤ k) (hk : k ≤ points.length) (_hm : 1 ≤ maxIter) :
    ∃ r, kMedoids sqrt points k maxIter = .ok r ∧
      (∀ (j : Nat) (rec1 rec2 : LogRec α), r.logs[j]? = some rec1 →
        r.logs[j + 1]? = some rec2 →
        objectiveDist sqrt points k rec2 ≤ objectiveDist sqrt points k rec1) ∧
      (∀ rec ∈ r.logs, ∀ p ∈ points,
        0 ≤ near sqrt rec.initial k p ∧
          (near sqrt rec.initial k p).toNat < rec.updated.length) ∧
      ∀ rec ∈ r.logs, ∀ c : Nat, (c : Int) < k →
        assignedPoints points (nearestAll sqrt rec.initial k points) c ≠ [] →
        ∃ v, rec.initial[c]? = some v ∧
          v ∈ assignedPoints points (nearestAll sqrt rec.initial k points) c := by
  have hs : (slice0 points k).length = k.toNat := slice0_length points k (by omega) (by omega)
  obtain ⟨r, st, h⟩ := kMedoidsRun_ok sqrt points k maxIter (Or.inr hk)
  have htr := kMedoidsRun_trace h
  have hmem := (Trace.mem_points (medoidsUpdate_mem sqrt points k) htr
    (slice0_mem points k)).2
  have hlens := Trace.lengths (medoidsUpdate_length sqrt points k) htr
  refine ⟨r, kMedoids_of_run h,
    Trace.objectiveDist_mono hsqrt hk1 htr hs (slice0_mem points k), ?_, ?_⟩
  · intro rec hrec p _
    obtain ⟨h1, h2⟩ := hlens rec hrec
    have := near_range sqrt p rec.initial k hk1 (by rw [h1, hs])
    rw [h2, hs]
    exact this
  · intro rec hrec c hc hcl
    obtain ⟨h1, _⟩ := hlens rec hrec
    have hl : rec.initial.length = k.toNat := by rw [h1, hs]
    have hcl2 : c < rec.initial.length := by omega
    rw [assignedPoints_nearestAll sqrt points rec.initial k hk1 hl c] at hcl ⊢
    exact ⟨rec.initial[c], List.getElem?_eq_getElem hcl2,
      medoid_mem_cluster sqrt hsqrt points k hk1 rec.initial hl (hmem rec hrec).1 c hcl2 hcl⟩

/-- C19, witness: the real square root on three points, `k = 2`. -/
theorem C19_total_distance_non_increasing_witness :
    ∃ r, kMedoids Real.sqrt [((1 : ℝ), (0 : ℝ)), (2, 0), (6, 0)] 2 100 = .ok r ∧
      (∀ (j : Nat) (rec1 rec2 : LogRec ℝ), r.logs[j]? = some rec1 →
        r.logs[j + 1]? = some rec2 →
        objectiveDist Real.sqrt [((1 : ℝ), (0 : ℝ)), (2, 0), (6, 0)] 2 rec2 ≤
          objectiveDist Real.sqrt [((1 : ℝ), (0 : ℝ)), (2, 0), (6, 0)] 2 rec1) ∧
      (∀ rec ∈ r.logs, ∀ p ∈ [((1 : ℝ), (0 : ℝ)), (2, 0), (6, 0)],
        0 ≤ near Real.sqrt rec.initial 2 p ∧
          (near Real.sqrt rec.initial 2 p).toNat < rec.updated.length) ∧
      ∀ rec ∈ r.logs, ∀ c : Nat, (c : Int) < 2 →
        assignedPoints [((1 : ℝ), (0 : ℝ)), (2, 0), (6, 0)]
          (nearestAll Real.sqrt rec.initial 2 [((1 : ℝ), (0 : ℝ)), (2, 0), (6, 0)]) c ≠ [] →
        ∃ v, rec.initial[c]? = some v ∧
          v ∈ assignedPoints [((1 : ℝ), (0 : ℝ)), (2, 0), (6, 0)]
            (nearestAll Real.sqrt rec.initial 2 [((1 : ℝ), (0 : ℝ)), (2, 0), (6, 0)]) c :=
  C19_total_distance_non_increasing Real.sqrt (fun _ _ hx hxy => Real.sqrt_lt_sqrt hx hxy)
    [((1 : ℝ), (0 : ℝ)), (2, 0), (6, 0)] 2 100 (by simp) (by decide) (by decide) (by decide)

/-- C16, witness: iteration 0 of the run on `[1,0], [3,0]` with `k = 1`, whose
pass changes both assignments from `-1` to `0`; the cluster of index 0 holds
both points and the logged centroid `[2,0]` is its mean. -/
theorem C16_centroid_update_witness :
    0 < [((1 : ℝ), (0 : ℝ))].length ∧
      [((2 : ℝ), (0 : ℝ))][0]? =
        some (meanOf (assignedPoints [((1 : ℝ), (0 : ℝ)), (3, 0)]
          (nearestAll Real.sqrt [((1 : ℝ), (0 : ℝ))] 1 [((1 : ℝ), (0 : ℝ)), (3, 0)]) 0)) :=
  ⟨(C16_centroid_update Real.sqrt [((1 : ℝ), (0 : ℝ)), (3, 0)] 1 100 _ _
      kMeansRun_converged_example 0 ⟨0, "kmeans", [(1, 0)], [(2, 0)]⟩ rfl
      (by simp [nearestAll, near, nearest, nearestLoop, ltInf, assignmentsBefore])
      0 (by decide)).1,
    (C16_centroid_update Real.sqrt [((1 : ℝ), (0 : ℝ)), (3, 0)] 1 100 _ _
      kMeansRun_converged_example 0 ⟨0, "kmeans", [(1, 0)], [(2, 0)]⟩ rfl
      (by simp [nearestAll, near, nearest, nearestLoop, ltInf, assignmentsBefore])
      0 (by decide)).2.1
      (by simp [assignedPoints, filterIdx, nearestAll, near, nearest, nearestLoop, ltInf])⟩

/-- C17, witness: iteration 0 of the run on `[1,0], [3,0]` with `k = 1`, whose
pass changes both assignments from `-1` to `0`; the cluster of index 0 holds
both points and the logged medoid is its first member of least cost. -/
theorem C17_medoid_update_witness :
    0 < [((1 : ℝ), (0 : ℝ))].length ∧
      ∃ x, [((1 : ℝ), (0 : ℝ))][0]? = some x ∧
        FirstMinCost Real.sqrt (assignedPoints [((1 : ℝ), (0 : ℝ)), (3, 0)]
          (nearestAll Real.sqrt [((1 : ℝ), (0 : ℝ))] 1 [((1 : ℝ), (0 : ℝ)), (3, 0)]) 0) x :=
  ⟨(C17_medoid_update Real.sqrt [((1 : ℝ), (0 : ℝ)), (3, 0)] 1 100 _ _
      kMedoidsRun_converged_example 0 ⟨0, "kmedoids", [(1, 0)], [(1, 0)]⟩ rfl
      (by simp [nearestAll, near, nearest, nearestLoop, ltInf, assignmentsBefore])
      0 (by decide)).1,
    (C17_medoid_update Real.sqrt [((1 : ℝ), (0 : ℝ)), (3, 0)] 1 100 _ _
      kMedoidsRun_converged_example 0 ⟨0, "kmedoids", [(1, 0)], [(1, 0)]⟩ rfl
      (by simp [nearestAll, near, nearest, nearestLoop, ltInf, assignmentsBefore])
      0 (by decide)).2.1
      (by simp [assignedPoints, filterIdx, nearestAll, near, nearest, nearestLoop, ltInf])⟩

/-! ### The two arithmetics

The functions of the first part are the functions over `Arith` at the exact
arithmetic. -/

theorem exact_distance (sqrt : α → α) (a b : Point α) :
    (exactArith sqrt).distance a b = distance sqrt a b :=
  rfl

theorem exact_ltInf (sqrt : α → α) (x : α) (m : Option α) :
    (exactArith sqrt).ltInf x m = ltInf x m := by
  cases m <;> rfl

theorem exact_nearestLoop (sqrt : α → α) (point : Point α) (reps : List (Point α))
    (n c : Nat) (minDist : Option α) (clusterIndex : Int) :
    (exactArith sqrt).nearestLoop point reps n c minDist clusterIndex =
      nearestLoop sqrt point reps n c minDist clusterIndex := by
  induction n generalizing c minDist clusterIndex with
  | zero => rfl
  | succ n ih =>
    simp only [Arith.nearestLoop, nearestLoop, exact_distance, exact_ltInf, ih]

theorem exact_nearest (sqrt : α → α) (point : Point α) (reps : List (Point α))
    (k : Int) : (exactArith sqrt).nearest point reps k = nearest sqrt point reps k :=
  exact_nearestLoop sqrt point reps _ _ _ _

theorem exact_assignLoop (sqrt : α → α) (reps : List (Point α)) (k : Int)
    (points : List (Point α)) (i : Nat) (assignments : List Int) (changed : Bool) :
    (exactArith sqrt).assignLoop reps k points i assignments changed =
      assignLoop sqrt reps k points i assignments changed := by
  induction points generalizing i assignments changed with
  | nil => rfl
  | cons point rest ih =>
    simp only [Arith.assignLoop, assignLoop, exact_nearest, ih]

theorem exact_sumBy {β : Type} (sqrt : α → α) (f : β → α) (l : List β) :
    (exactArith sqrt).sumBy f l = sumBy f l :=
  rfl

theorem exact_checkedDiv (sqrt : α → α) (a : α) (n : Nat) :
    (exactArith sqrt).checkedDiv a n = checkedDiv a (n : α) := by
  simp [Arith.checkedDiv, checkedDiv, exactArith]

theorem exact_updateCentroidsLoop (sqrt : α → α) (points : List (Point α))
    (assignments : List Int) (n c : Nat) (centroids : List (Point α)) :
    (exactArith sqrt).updateCentroidsLoop points assignments n c centroids =
      updateCentroidsLoop points assignments n c centroids := by
  induction n generalizing c centroids with
  | zero => rfl
  | succ n ih =>
    simp only [Arith.updateCentroidsLoop, updateCentroidsLoop, exact_sumBy,
      exact_checkedDiv, ih]

theorem exact_kMeansLoop (sqrt : α → α) (points : List (Point α)) (k : Int)
    (n iter : Nat) (centroids : List (Point α)) (assignments : List Int)
    (logs : List (LogRec α)) :
    (exactArith sqrt).kMeansLoop points k n iter centroids assignments logs =
      kMeansLoop sqrt points k n iter centroids assignments logs := by
  induction n generalizing iter centroids assignments logs with
  | zero => rfl
  | succ n ih =>
    simp only [Arith.kMeansLoop, kMeansLoop, exact_assignLoop,
      exact_updateCentroidsLoop, ih]

/-- The function `kMeans` of the first part is `Arith.kMeans` at the exact
arithmetic. -/
theorem exact_kMeans (sqrt : α → α) (points : List (Point α)) (k maxIter : Int) :
    (exactArith sqrt).kMeans points k maxIter = kMeans sqrt points k maxIter := by
  simp only [Arith.kMeans, kMeans, Arith.kMeansRun, kMeansRun, exact_kMeansLoop]

theorem exact_bestLoop (sqrt : α → α) (assigned rest : List (Point α))
    (bestMedoid : Option (Point α)) (bestCost : Option α) :
    (exactArith sqrt).bestLoop assigned rest bestMedoid bestCost =
      bestLoop sqrt assigned rest bestMedoid bestCost := by
  induction rest generalizing bestMedoid bestCost with
  | nil => rfl
  | cons candidate rest ih =>
    have hcost : (exactArith sqrt).sumBy (fun p => (exactArith sqrt).distance p candidate)
        assigned = sumBy (fun p => distance sqrt p candidate) assigned := rfl
    simp only [Arith.bestLoop, bestLoop, hcost, exact_ltInf, ih]

theorem exact_updateMedoidsLoop (sqrt : α → α) (points : List (Point α))
    (assignments : List Int) (n m : Nat) (medoids : List (Point α)) :
    (exactArith sqrt).updateMedoidsLoop points assignments n m medoids =
      updateMedoidsLoop sqrt points assignments n m medoids := by
  induction n generalizing m medoids with
  | zero => rfl
  | succ n ih =>
    simp only [Arith.updateMedoidsLoop, updateMedoidsLoop, exact_bestLoop, ih]

theorem exact_kMedoidsLoop (sqrt : α → α) (points : List (Point α)) (k : Int)
    (n iter : Nat) (medoids : List (Point α)) (assignments : List Int)
    (logs : List (LogRec α)) :
    (exactArith sqrt).kMedoidsLoop points k n iter medoids assignments logs =
      kMedoidsLoop sqrt points k n iter medoids assignments logs := by
  induction n generalizing iter medoids assignments logs with
  | zero => rfl
  | succ n ih =>
    simp only [Arith.kMedoidsLoop, kMedoidsLoop, exact_assignLoop,
      exact_updateMedoidsLoop, ih]

/-- The function `kMedoids` of the first part is `Arith.kMedoids` at the exact
arithmetic. -/
theorem exact_kMedoids (sqrt : α → α) (points : List (Point α)) (k maxIter : Int) :
    (exactArith sqrt).kMedoids points k maxIter = kMedoids sqrt points k maxIter := by
  simp only [Arith.kMedoids, kMedoids, Arith.kMedoidsRun, kMedoidsRun, exact_kMedoidsLoop]

theorem exact_kMeansRun (sqrt : α → α) (points : List (Point α)) (k maxIter : Int) :
    (exactArith sqrt).kMeansRun points k maxIter = kMeansRun sqrt points k maxIter :=
  exact_kMeansLoop sqrt points k _ _ _ _ _

theorem exact_kMedoidsRun (sqrt : α → α) (points : List (Point α)) (k maxIter : Int) :
    (exactArith sqrt).kMedoidsRun points k maxIter = kMedoidsRun sqrt points k maxIter :=
  exact_kMedoidsLoop sqrt points k _ _ _ _ _

theorem exact_near (sqrt : α → α) (reps : List (Point α)) (k : Int) (p : Point α) :
    (exactArith sqrt).near reps k p = near sqrt reps k p := by
  simp only [Arith.near, near, exact_nearest]

theorem exact_nearestAll (sqrt : α → α) (reps : List (Point α)) (k : Int)
    (points : List (Point α)) :
    (exactArith sqrt).nearestAll reps k points = nearestAll sqrt reps k points := by
  unfold Arith.nearestAll nearestAll
  exact List.map_congr_left (fun p _ => exact_near sqrt reps k p)

/-! ### Runs on doubles

Runs of `Arith.kMeans` and `Arith.kMedoids` at `binary64`, on inputs where a
squared difference overflows to `Infinity` or underflows to `0`. -/

/-- On doubles the square of `-(2 ^ 700) - 2 ^ 700` is `Infinity`, and so is
the distance of the points `[-(2 ^ 700), 0]` and `[2 ^ 700, 0]`; `Infinity` is
not below `Infinity`. -/
theorem binary64_distance_overflow :
    binary64.sq (binary64.sub (F64.negPow2 700) (F64.pow2 700)) = .inf ∧
      binary64.distance (F64.negPow2 700, .fin 0) (F64.pow2 700, .fin 0) = .inf ∧
      binary64.ltInf .inf none = false := by
  decide!

/-- On doubles the square of `2 ^ (-600)` and the one of `2 ^ (-540)` are `0`,
and so are the distances of `[2 ^ (-600), 0]` and of `[2 ^ (-540), 0]` to
`[0, 0]`. -/
theorem binary64_distance_underflow :
    binary64.sq (F64.pow2 (-600)) = .fin 0 ∧ binary64.sq (F64.pow2 (-540)) = .fin 0 ∧
      binary64.distance (F64.pow2 (-600), .fin 0) (.fin 0, .fin 0) = .fin 0 ∧
      binary64.distance (F64.pow2 (-540), .fin 0) (.fin 0, .fin 0) = .fin 0 := by
  decide!

/-- The run of `kMeans` on doubles for `[2 ^ 700, 0], [-(2 ^ 700), 0]` with
`k = 1`. -/
theorem binary64_kMeansRun_overflow :
    binary64.kMeansRun [(F64.pow2 700, .fin 0), (F64.negPow2 700, .fin 0)] 1 100 =
      .ok (⟨[0, -1], [(F64.pow2 700, .fin 0)],
        [⟨0, "kmeans", [(F64.pow2 700, .fin 0)], [(F64.pow2 700, .fin 0)]⟩,
          ⟨1, "kmeans", [(F64.pow2 700, .fin 0)], [(F64.pow2 700, .fin 0)]⟩]⟩,
        .Converged) := by
  decide!

/-- The run of `kMedoids` on doubles for `[2 ^ 700, 0], [-(2 ^ 700), 0]` with
`k = 1`. -/
theorem binary64_kMedoidsRun_overflow :
    binary64.kMedoidsRun [(F64.pow2 700, .fin 0), (F64.negPow2 700, .fin 0)] 1 100 =
      .ok (⟨[0, -1], [(F64.pow2 700, .fin 0)],
        [⟨0, "kmedoids", [(F64.pow2 700, .fin 0)], [(F64.pow2 700, .fin 0)]⟩,
          ⟨1, "kmedoids", [(F64.pow2 700, .fin 0)], [(F64.pow2 700, .fin 0)]⟩]⟩,
        .Converged) := by
  decide!

/-- The run of `kMeans` on doubles for `[0, 0], [2 ^ (-600), 0]` with
`k = 2`. -/
theorem binary64_kMeansRun_underflow :
    binary64.kMeansRun [(.fin 0, .fin 0), (F64.pow2 (-600), .fin 0)] 2 100 =
      .ok (⟨[0, 0], [(F64.pow2 (-601), .fin 0), (F64.pow2 (-600), .fin 0)],
        [⟨0, "kmeans", [(.fin 0, .fin 0), (F64.pow2 (-600), .fin 0)],
            [(F64.pow2 (-601), .fin 0), (F64.pow2 (-600), .fin 0)]⟩,
          ⟨1, "kmeans", [(F64.pow2 (-601), .fin 0), (F64.pow2 (-600), .fin 0)],
            [(F64.pow2 (-601), .fin 0), (F64.pow2 (-600), .fin 0)]⟩]⟩,
        .Converged) := by
  decide!

/-- The run of `kMedoids` on doubles for `[0, 0], [2 ^ (-600), 0]` with
`k = 2`. -/
theorem binary64_kMedoidsRun_underflow :
    binary64.kMedoidsRun [(.fin 0, .fin 0), (F64.pow2 (-600), .fin 0)] 2 100 =
      .ok (⟨[0, 0], [(.fin 0, .fin 0), (F64.pow2 (-600), .fin 0)],
        [⟨0, "kmedoids", [(.fin 0, .fin 0), (F64.pow2 (-600), .fin 0)],
            [(.fin 0, .fin 0), (F64.pow2 (-600), .fin 0)]⟩,
          ⟨1, "kmedoids", [(.fin 0, .fin 0), (F64.pow2 (-600), .fin 0)],
            [(.fin 0, .fin 0), (F64.pow2 (-600), .fin 0)]⟩]⟩,
        .Converged) := by
  decide!

/-- The run of `kMedoids` on doubles for `[0, 0], [2 ^ (-540), 0],
[2 ^ (-500), 0]` with `k = 2`. -/
theorem binary64_kMedoidsRun_three_points :
    binary64.kMedoidsRun
        [(.fin 0, .fin 0), (F64.pow2 (-540), .fin 0), (F64.pow2 (-500), .fin 0)] 2 100 =
      .ok (⟨[0, 0, 1], [(.fin 0, .fin 0), (F64.pow2 (-500), .fin 0)],
        [⟨0, "kmedoids", [(.fin 0, .fin 0), (F64.pow2 (-540), .fin 0)],
            [(.fin 0, .fin 0), (F64.pow2 (-500), .fin 0)]⟩,
          ⟨1, "kmedoids", [(.fin 0, .fin 0), (F64.pow2 (-500), .fin 0)],
            [(.fin 0, .fin 0), (F64.pow2 (-500), .fin 0)]⟩]⟩,
        .Converged) := by
  decide!

theorem binary64_kMeans_of_run {points : List (Point F64)} {k maxIter : Int}
    {r : MeansResult F64} {st : Status}
    (h : binary64.kMeansRun points k maxIter = .ok (r, st)) :
    binary64.kMeans points k maxIter = .ok r := by
  rw [Arith.kMeans, h]; rfl

theorem binary64_kMedoids_of_run {points : List (Point F64)} {k maxIter : Int}
    {r : MedoidsResult F64} {st : Status}
    (h : binary64.kMedoidsRun points k maxIter = .ok (r, st)) :
    binary64.kMedoids points k maxIter = .ok r := by
  rw [Arith.kMedoids, h]; rfl

/-- C4, counterexample: on doubles, for the points `[2 ^ 700, 0],
[-(2 ^ 700), 0]` with `k = 1` and the default budget, the distance of the
second point to the only representative is `Infinity`, the test
`dist < minDist` of lines 24 and 83 fails against `minDist = Infinity`, and
both functions return the assignments `[0, -1]`. -/
theorem C4_counterexample :
    (∃ r, binary64.kMeans [(F64.pow2 700, .fin 0), (F64.negPow2 700, .fin 0)] 1 100 = .ok r ∧
      r.assignments = [0, -1]) ∧
    (∃ r, binary64.kMedoids [(F64.pow2 700, .fin 0), (F64.negPow2 700, .fin 0)] 1 100 =
        .ok r ∧ r.assignments = [0, -1]) ∧
    binary64.distance (F64.negPow2 700, .fin 0) (F64.pow2 700, .fin 0) = .inf :=
  ⟨⟨_, binary64_kMeans_of_run binary64_kMeansRun_overflow, rfl⟩,
    ⟨_, binary64_kMedoids_of_run binary64_kMedoidsRun_overflow, rfl⟩,
    binary64_distance_overflow.2.1⟩

/-- C6, counterexample: on doubles, for the points `[2 ^ 700, 0],
[-(2 ^ 700), 0]` with `k = 1`, the last record's `initial` snapshot is
`[2 ^ 700, 0]` alone, so that index 0 is the least index of `[0, k-1]`
minimising the distance to the second point (`Infinity`); the returned
`assignments[1]` is `-1`, no index at all. -/
theorem C6_counterexample :
    (∃ r rec, binary64.kMeans [(F64.pow2 700, .fin 0), (F64.negPow2 700, .fin 0)] 1 100 =
        .ok r ∧ r.logs.getLast? = some rec ∧ rec.initial = [(F64.pow2 700, .fin 0)] ∧
      r.assignments[1]? = some (-1) ∧ ∀ c : Nat, r.assignments[1]? ≠ some (c : Int)) ∧
    (∃ r rec, binary64.kMedoids [(F64.pow2 700, .fin 0), (F64.negPow2 700, .fin 0)] 1 100 =
        .ok r ∧ r.logs.getLast? = some rec ∧ rec.initial = [(F64.pow2 700, .fin 0)] ∧
      r.assignments[1]? = some (-1) ∧ ∀ c : Nat, r.assignments[1]? ≠ some (c : Int)) :=
  ⟨⟨_, _, binary64_kMeans_of_run binary64_kMeansRun_overflow, rfl, rfl, rfl,
      fun c h => by
        have h2 : (-1 : Int) = (c : Int) := Option.some.inj h
        omega⟩,
    ⟨_, _, binary64_kMedoids_of_run binary64_kMedoidsRun_overflow, rfl, rfl, rfl,
      fun c h => by
        have h2 : (-1 : Int) = (c : Int) := Option.some.inj h
        omega⟩⟩

/-- C15, counterexample: on doubles, for the points `[2 ^ 700, 0],
[-(2 ^ 700), 0]` with `k = 1`, `kMedoids` converges with the assignments
`[0, -1]`, which are not all 0. -/
theorem C15_counterexample :
    ∃ r, binary64.kMedoids [(F64.pow2 700, .fin 0), (F64.negPow2 700, .fin 0)] 1 100 = .ok r ∧
      r.assignments = [0, -1] ∧
      r.assignments ≠
        List.replicate [(F64.pow2 700, F64.fin 0), (F64.negPow2 700, .fin 0)].length 0 :=
  ⟨_, binary64_kMedoids_of_run binary64_kMedoidsRun_overflow, rfl, by decide⟩

/-- C19, counterexample: on doubles, for the points `[0, 0], [2 ^ (-540), 0],
[2 ^ (-500), 0]` with `k = 2`, the square of `2 ^ (-540)` underflows to `0`:
in iteration 0 the medoid of index 1, `[2 ^ (-540), 0]`, is at distance `0`
from medoid 0 and joins cluster 0, while cluster 1 is the single point
`[2 ^ (-500), 0]`. The cluster of medoid 1 is not empty and the medoid is not
a member of it. -/
theorem C19_counterexample :
    ∃ r rec, binary64.kMedoids
        [(.fin 0, .fin 0), (F64.pow2 (-540), .fin 0), (F64.pow2 (-500), .fin 0)] 2 100 =
        .ok r ∧
      r.logs[0]? = some rec ∧ rec.initial[1]? = some (F64.pow2 (-540), .fin 0) ∧
      assignedPoints
          [(F64.fin 0, F64.fin 0), (F64.pow2 (-540), .fin 0), (F64.pow2 (-500), .fin 0)]
          (binary64.nearestAll rec.initial 2
            [(.fin 0, .fin 0), (F64.pow2 (-540), .fin 0), (F64.pow2 (-500), .fin 0)]) 1 =
        [(F64.pow2 (-500), .fin 0)] ∧
      (F64.pow2 (-540), F64.fin 0) ∉ assignedPoints
          [(F64.fin 0, F64.fin 0), (F64.pow2 (-540), .fin 0), (F64.pow2 (-500), .fin 0)]
          (binary64.nearestAll rec.initial 2
            [(.fin 0, .fin 0), (F64.pow2 (-540), .fin 0), (F64.pow2 (-500), .fin 0)]) 1 :=
  ⟨_, _, binary64_kMedoids_of_run binary64_kMedoidsRun_three_points, rfl, rfl,
    by decide!, by decide!⟩

/-- C5, counterexample. First, budget exhaustion: on `[1,0], [2,0], [6,0]`
with `k = 2` and `maxIter = 1`, `kMeans` returns assignments `[0, 1, 1]` and
centroids `[1,0], [4,0]`; the point `[2,0]` is assigned to centroid 1 at
distance 2 although centroid 0 is at distance 1. Second, doubles: for
`[2 ^ 700, 0], [-(2 ^ 700), 0]` with `k = 1` the run of `kMeans` converges and
returns the assignments `[0, -1]`, so that `assignments[1]` is not the index of
any representative. -/
theorem C5_counterexample :
    (∃ r, kMeans Real.sqrt [((1 : ℝ), (0 : ℝ)), (2, 0), (6, 0)] 2 1 = .ok r ∧
      r.assignments = [0, 1, 1] ∧ r.centroids = [(1, 0), (4, 0)] ∧
      ¬ NearestAmong Real.sqrt [((1 : ℝ), (0 : ℝ)), (2, 0), (6, 0)] r.centroids
        r.assignments) ∧
    (∃ r, binary64.kMeansRun [(F64.pow2 700, .fin 0), (F64.negPow2 700, .fin 0)] 1 100 =
        .ok (r, .Converged) ∧
      r.assignments = [0, -1] ∧ r.centroids = [(F64.pow2 700, .fin 0)] ∧
      ∀ c : Nat, r.assignments[1]? ≠ some (c : Int)) := by
  refine ⟨⟨_, kMeans_of_run kMeansRun_budget_example, rfl, rfl, fun h => ?_⟩,
    ⟨_, binary64_kMeansRun_overflow, rfl, rfl, fun c h => ?_⟩⟩
  · obtain ⟨c, rc, hc, hrc, hmin⟩ := h 1 (2, 0) rfl
    have hc1 : c = 1 := by
      have : ((1 : Int)) = (c : Int) := by simpa using hc
      omega
    subst hc1
    have hrc1 : rc = (4, 0) := by simpa using hrc.symm
    subst hrc1
    apply hmin (1, 0) (by simp)
    rw [distance_axis, distance_axis]
    norm_num
  · have h2 : (-1 : Int) = (c : Int) := Option.some.inj h
    omega

/-- C13, counterexample. First, the iteration count: on the two distinct
points `[1,0], [3,0]` with `k = 2` and `maxIter = 100` both runs converge at
iteration 1, not 0, and their logs hold two records. Second, doubles: for the
two distinct points `[0, 0], [2 ^ (-600), 0]` with `k = 2` the square of
`2 ^ (-600)` underflows to `0`, every distance is `0`, both functions return
the assignments `[0, 0]` instead of `[0, 1]`, and `kMeans` moves centroid 0 to
`[2 ^ (-601), 0]`. -/
theorem C13_counterexample :
    ((∃ r, kMeansRun Real.sqrt [((1 : ℝ), (0 : ℝ)), (3, 0)] 2 100 = .ok (r, .Converged) ∧
        r.logs.length = 2 ∧ r.logs.map (fun rec => rec.iter) = [0, 1]) ∧
      (∃ r, kMedoidsRun Real.sqrt [((1 : ℝ), (0 : ℝ)), (3, 0)] 2 100 = .ok (r, .Converged) ∧
        r.logs.length = 2 ∧ r.logs.map (fun rec => rec.iter) = [0, 1])) ∧
    ([(F64.fin 0, F64.fin 0), (F64.pow2 (-600), .fin 0)].Nodup ∧
      (∃ r, binary64.kMeans [(.fin 0, .fin 0), (F64.pow2 (-600), .fin 0)]
          [(F64.fin 0, F64.fin 0), (F64.pow2 (-600), .fin 0)].length 100 = .ok r ∧
        r.assignments = [0, 0] ∧
        r.centroids = [(F64.pow2 (-601), .fin 0), (F64.pow2 (-600), .fin 0)]) ∧
      (∃ r, binary64.kMedoids [(.fin 0, .fin 0), (F64.pow2 (-600), .fin 0)]
          [(F64.fin 0, F64.fin 0), (F64.pow2 (-600), .fin 0)].length 100 = .ok r ∧
        r.assignments = [0, 0] ∧
        r.medoids = [(.fin 0, .fin 0), (F64.pow2 (-600), .fin 0)])) :=
  ⟨⟨⟨_, kMeansRun_two_points_example, rfl, rfl⟩,
      ⟨_, kMedoidsRun_two_points_example, rfl, rfl⟩⟩,
    by decide!,
    ⟨_, binary64_kMeans_of_run binary64_kMeansRun_underflow, rfl, rfl⟩,
    ⟨_, binary64_kMedoids_of_run binary64_kMedoidsRun_underflow, rfl, rfl⟩⟩

end Lemmas

end KmeansKmedoids
